import Mathlib

set_option autoImplicit false
set_option maxHeartbeats 2000000
set_option maxRecDepth 8000
set_option linter.unusedVariables false

/-!
Verification development for the cretonne Intel backend
(lib/cretonne/src/isa/intel/mod.rs): a shallow embedding of the
frame synthesizer (prologue_epilogue, insert_prologue, insert_epilogues,
insert_epilogue) and of the encoding resolution entry point
(isa_constructor, legal_encodings), together with theorems about the
spec-level properties of those functions.

The IR graph, the editing cursor, the stack-layout routine, the settings
and the abi/enc_tables modules are external collaborators of the unit
under study; where their behaviour matters they are modelled from the
spec, as indicated by doc comments.
-/

namespace Cton

/-- Physical register unit index inside the target register banks. -/
abbrev RegUnit := Nat

/-- Controlling or ABI value type; the source only uses ir::types::I32 and I64 here. -/
inductive Ty
  | i32
  | i64
deriving DecidableEq

namespace RU

/-- Modelled from the spec: the Intel register bank (registers.rs, outside src/)
gives the stack pointer a fixed register unit index; only its identity matters here. -/
def rsp : RegUnit := 4

/-- Modelled from the spec: the Intel register bank (registers.rs, outside src/)
gives the frame pointer a fixed register unit index; only its identity matters here. -/
def rbp : RegUnit := 5

end RU

/-- Location assigned to an IR value; the frame synthesizer only pins values to registers. -/
inductive ValueLoc
  | reg (r : RegUnit)
deriving DecidableEq

/-- Special-purpose classification of an ABI parameter or return entry. -/
inductive ArgumentPurpose
  | normal
  | frame_pointer
  | callee_saved
deriving DecidableEq

/-- One entry of a signature's parameter or return list. -/
structure AbiParam where
  ty : Ty
  purpose : ArgumentPurpose
  location : Option RegUnit
deriving DecidableEq

/-- Mirrors ir::AbiParam::special_reg: an entry of the given type and purpose pinned
to a physical register unit. -/
def AbiParam.special_reg (ty : Ty) (purpose : ArgumentPurpose) (r : RegUnit) : AbiParam :=
  { ty := ty, purpose := purpose, location := some r }

/-- Kind of a stack slot; the frame synthesizer only creates IncomingArg slots. -/
inductive StackSlotKind
  | incoming_arg
  | other_kind (n : Nat)
deriving DecidableEq

/-- Mirrors ir::StackSlotData: size in bytes plus the byte offset given at creation. -/
structure StackSlotData where
  kind : StackSlotKind
  size : Nat
  offset : Int
deriving DecidableEq

/-- Opcode together with the immediate operands the frame code cares about.
Any opcode not produced by the frame synthesizer is either a return or an
uninterpreted opcode code. -/
inductive Op
  | x86_push
  | x86_pop (ty : Ty)
  | copy_special (src dst : RegUnit)
  | adjust_sp_imm (imm : Int)
  | ret
  | other (n : Nat)
deriving DecidableEq

/-- Instruction payload stored in the data flow graph: opcode, the value
arguments and the result values. -/
structure InstData where
  op : Op
  args : List Nat
  results : List Nat
deriving DecidableEq

/-- Data for an x86_push of one value. -/
def push_data (v : Nat) : InstData :=
  { op := .x86_push, args := [v], results := [] }

/-- Data for a copy_special between two register units. -/
def copy_special_data (src dst : RegUnit) : InstData :=
  { op := .copy_special src dst, args := [], results := [] }

/-- Data for an adjust_sp_imm with the given immediate. -/
def adjust_sp_data (imm : Int) : InstData :=
  { op := .adjust_sp_imm imm, args := [], results := [] }

/-- Data for an x86_pop producing one value. -/
def pop_data (ty : Ty) (v : Nat) : InstData :=
  { op := .x86_pop ty, args := [], results := [v] }

/-- Extended basic block: its incoming parameters and its instructions in layout order. -/
structure Ebb where
  params : List Nat
  insts : List Nat
deriving DecidableEq

/-- IR function state touched by the frame synthesizer: stack slots, the two
signature lists, the block layout (entry block first), the instruction store,
the value-location map and the two allocation counters of the data flow graph.
The instruction store and the location map are newest-first association lists. -/
structure Function where
  stack_slots : List StackSlotData
  sig_params : List AbiParam
  sig_returns : List AbiParam
  blocks : List Ebb
  inst_data : List (Nat × InstData)
  locations : List (Nat × ValueLoc)
  next_value : Nat
  next_inst : Nat
deriving DecidableEq

/-- List update at one index, leaving other entries and the length unchanged. -/
def modifyAt {α : Type} (l : List α) (i : Nat) (g : α → α) : List α :=
  match l, i with
  | [], _ => []
  | x :: xs, 0 => g x :: xs
  | x :: xs, n + 1 => x :: modifyAt xs n g

/-- List insertion before position i (appends at the end when i is past the end). -/
def listInsertAt {α : Type} (l : List α) (i : Nat) (a : α) : List α :=
  match i with
  | 0 => a :: l
  | n + 1 =>
      match l with
      | [] => [a]
      | x :: xs => x :: listInsertAt xs n a

/-- The list n, n+1, ..., n+k-1 of k consecutive numbers. -/
def seqFrom (n : Nat) : Nat → List Nat
  | 0 => []
  | k + 1 => n :: seqFrom (n + 1) k

/-- First binding of an instruction id in an instruction store. -/
def idata_lookup (l : List (Nat × InstData)) (id : Nat) : Option InstData :=
  match l with
  | [] => none
  | p :: rest => if p.1 = id then some p.2 else idata_lookup rest id

/-- Append the given extra arguments to every binding of one instruction id. -/
def append_args (id : Nat) (us : List Nat) (l : List (Nat × InstData)) :
    List (Nat × InstData) :=
  l.map (fun p => if p.1 = id then (p.1, { p.2 with args := p.2.args ++ us }) else p)

/-- Instruction data currently bound to an id, mirroring func.dfg indexing. -/
def Function.find_inst (f : Function) (id : Nat) : Option InstData :=
  idata_lookup f.inst_data id

/-- First binding of a value in a location map. -/
def loc_lookup (l : List (Nat × ValueLoc)) (v : Nat) : Option ValueLoc :=
  match l with
  | [] => none
  | p :: rest => if p.1 = v then some p.2 else loc_lookup rest v

/-- Location currently bound to a value, mirroring func.locations indexing. -/
def Function.find_loc (f : Function) (v : Nat) : Option ValueLoc :=
  loc_lookup f.locations v

/-- Mirrors func.create_stack_slot: appends the slot to the function's slot list. -/
def Function.create_stack_slot (f : Function) (d : StackSlotData) : Function :=
  { f with stack_slots := f.stack_slots ++ [d] }

/-- Mirrors func.dfg.append_ebb_param: allocates a fresh value and appends it to
the block's parameter list. -/
def Function.append_ebb_param (f : Function) (b : Nat) : Nat × Function :=
  (f.next_value,
   { f with
     next_value := f.next_value + 1,
     blocks := modifyAt f.blocks b (fun e => { e with params := e.params ++ [f.next_value] }) })

/-- Mirrors the assignment func.locations[v] = loc (newest binding shadows older ones). -/
def Function.set_loc (f : Function) (v : Nat) (loc : ValueLoc) : Function :=
  { f with locations := (v, loc) :: f.locations }

/-- Mirrors func.dfg.append_inst_arg: appends one extra argument to the instruction. -/
def Function.append_inst_arg (f : Function) (id : Nat) (v : Nat) : Function :=
  { f with inst_data := append_args id [v] f.inst_data }

/-- Mirrors func.layout.entry_block(): the first block in layout order, if any. -/
def Function.entry_block (f : Function) : Option Nat :=
  match f.blocks with
  | [] => none
  | _ :: _ => some 0

/-- Whether an opcode is classified as a function return, mirroring opcode().is_return(). -/
def Op.is_ret : Op → Bool
  | .ret => true
  | _ => false

/-- Modelled from the spec: a cursor position within the function's ordered
block/instruction structure (the cursor abstraction lives outside src/).
A position is either detached, at a block boundary, or at one instruction
of one block (block index, instruction index). -/
inductive CursorPosition
  | nowhere
  | before (b : Nat)
  | at_inst (b : Nat) (i : Nat)
  | after (b : Nat)
deriving DecidableEq

/-- Modelled from the spec: the encoding cursor is a position paired with the
function being edited. -/
structure EncCursor where
  func : Function
  pos : CursorPosition
deriving DecidableEq

/-- Modelled from the spec: the block the cursor currently points into, if any. -/
def current_ebb : CursorPosition → Option Nat
  | .nowhere => none
  | .before b => some b
  | .at_inst b _ => some b
  | .after b => some b

/-- Modelled from the spec: the instruction under the cursor, if it is at one. -/
def EncCursor.current_inst (c : EncCursor) : Option Nat :=
  match c.pos with
  | .at_inst b i =>
      match c.func.blocks[b]? with
      | some e => e.insts[i]?
      | none => none
  | _ => none

/-- Modelled from the spec: goto the first insertion point of a block, i.e. at its
first instruction when it has one and at its empty bottom otherwise. -/
def EncCursor.at_first_insertion_point (c : EncCursor) (b : Nat) : EncCursor :=
  match c.func.blocks[b]? with
  | some e => if e.insts.isEmpty then { c with pos := .after b } else { c with pos := .at_inst b 0 }
  | none => c

/-- Modelled from the spec: goto the last instruction of a block, landing on the
empty bottom when the block has no instructions. -/
def EncCursor.goto_last_inst (c : EncCursor) (b : Nat) : EncCursor :=
  match c.func.blocks[b]? with
  | some e =>
      if e.insts.isEmpty then { c with pos := .after b }
      else { c with pos := .at_inst b (e.insts.length - 1) }
  | none => c

/-- Modelled from the spec: step the cursor backwards to the previous instruction
of the current block, or to the block top when there is none. -/
def EncCursor.prev_inst (c : EncCursor) : EncCursor :=
  match c.pos with
  | .at_inst b 0 => { c with pos := .before b }
  | .at_inst b (i + 1) => { c with pos := .at_inst b i }
  | .after b =>
      match c.func.blocks[b]? with
      | some e =>
          if e.insts.isEmpty then { c with pos := .before b }
          else { c with pos := .at_inst b (e.insts.length - 1) }
      | none => c
  | _ => c

/-- Modelled from the spec: advance to the next block in layout order and return
it, starting at the first block when the cursor is detached, and detaching when
the current block is the last one. -/
def EncCursor.next_ebb (c : EncCursor) : Option Nat × EncCursor :=
  match current_ebb c.pos with
  | some b =>
      if b + 1 < c.func.blocks.length then (some (b + 1), { c with pos := .before (b + 1) })
      else (none, { c with pos := .nowhere })
  | none =>
      if c.func.blocks.length = 0 then (none, { c with pos := .nowhere })
      else (some 0, { c with pos := .before 0 })

/-- Modelled from the spec: insert a freshly allocated instruction at the cursor
position, before the instruction the cursor is at; the cursor keeps pointing at
that same instruction afterwards. Insertion at a detached position is a source
panic and is never reached by the code under study. -/
def EncCursor.ins_inst (c : EncCursor) (d : InstData) : EncCursor :=
  match c.pos with
  | .nowhere => c
  | .at_inst b i =>
      { func :=
          { c.func with
            inst_data := (c.func.next_inst, d) :: c.func.inst_data,
            next_inst := c.func.next_inst + 1,
            blocks := modifyAt c.func.blocks b
              (fun e => { e with insts := listInsertAt e.insts i c.func.next_inst }) },
        pos := .at_inst b (i + 1) }
  | .before b =>
      { func :=
          { c.func with
            inst_data := (c.func.next_inst, d) :: c.func.inst_data,
            next_inst := c.func.next_inst + 1,
            blocks := modifyAt c.func.blocks b
              (fun e => { e with insts := c.func.next_inst :: e.insts }) },
        pos := .before b }
  | .after b =>
      { func :=
          { c.func with
            inst_data := (c.func.next_inst, d) :: c.func.inst_data,
            next_inst := c.func.next_inst + 1,
            blocks := modifyAt c.func.blocks b
              (fun e => { e with insts := e.insts ++ [c.func.next_inst] }) },
        pos := .after b }

/-- Mirrors pos.ins().x86_push(arg). -/
def EncCursor.ins_x86_push (c : EncCursor) (arg : Nat) : EncCursor :=
  c.ins_inst (push_data arg)

/-- Mirrors pos.ins().copy_special(src, dst). -/
def EncCursor.ins_copy_special (c : EncCursor) (src dst : RegUnit) : EncCursor :=
  c.ins_inst (copy_special_data src dst)

/-- Mirrors pos.ins().adjust_sp_imm(imm). -/
def EncCursor.ins_adjust_sp_imm (c : EncCursor) (imm : Int) : EncCursor :=
  c.ins_inst (adjust_sp_data imm)

/-- Mirrors let v = pos.ins().x86_pop(ty): allocates the result value and inserts
the pop instruction. -/
def EncCursor.ins_x86_pop (c : EncCursor) (ty : Ty) : Nat × EncCursor :=
  let v := c.func.next_value
  (v, EncCursor.ins_inst
        { c with func := { c.func with next_value := v + 1 } }
        (pop_data ty v))

/-- Shared settings consumed by this backend. Modelled from the spec: the flag
set is immutable after construction; beyond the is_64bit bit the frame code only
consumes the ordered callee-saved register list that abi.rs (outside src/)
derives deterministically from the flag set, so that list is carried as data. -/
structure Flags where
  is_64bit : Bool
  callee_saved : List RegUnit
deriving DecidableEq

/-- Modelled from the spec: abi::callee_saved_registers(shared_flags) returns the
ordered, deterministic callee-saved register list of the flag set. -/
def callee_saved_registers (sf : Flags) : List RegUnit :=
  sf.callee_saved

/-- Outcome of prologue_epilogue. The source signature is CtonResult: Ok(()) on
success or a typed error from the stack-layout routine; since the source takes
the function by mutable reference, the function state at exit is part of the
outcome. A missing entry block is a source panic, not a typed error. -/
inductive FrameResult
  | ok (f : Function)
  | err (f : Function)
  | panic_missing_entry
deriving DecidableEq

/-- One iteration of the callee-saved loop of Isa::insert_prologue: introduce a
fresh entry block parameter, pin it to the register and push it. -/
def prologue_push_csr (ebb : Nat) (c : EncCursor) (reg : RegUnit) : EncCursor :=
  let pf := c.func.append_ebb_param ebb
  EncCursor.ins_x86_push { func := (pf.2).set_loc pf.1 (.reg reg), pos := c.pos } pf.1

/-- Mirrors Isa::insert_prologue. The cursor must be inside the entry block (the
source panics otherwise, which the caller makes unreachable): introduce the frame
pointer as a fresh entry block parameter pinned to rbp, push it, copy rsp into
rbp, decrement the stack pointer when the local frame size is positive, then
introduce and push one fresh parameter per callee-saved register in declared
order. -/
def insert_prologue (sf : Flags) (c : EncCursor) (stack_size : Int) (csr_type : Ty) :
    EncCursor :=
  match current_ebb c.pos with
  | none => c
  | some ebb =>
    let fpf := c.func.append_ebb_param ebb
    let c1 : EncCursor := { func := (fpf.2).set_loc fpf.1 (.reg RU.rbp), pos := c.pos }
    let c2 := c1.ins_x86_push fpf.1
    let c3 := c2.ins_copy_special RU.rsp RU.rbp
    let c4 := if 0 < stack_size then c3.ins_adjust_sp_imm (-stack_size) else c3
    (callee_saved_registers sf).foldl (prologue_push_csr ebb) c4

/-- One iteration of the callee-saved loop of Isa::insert_epilogue: pop a fresh
value, step the cursor back onto the pop, pin the value to the register and
append it as an extra argument of the return instruction. -/
def epilogue_pop_csr (inst : Nat) (csr_type : Ty) (c : EncCursor) (reg : RegUnit) :
    EncCursor :=
  let pc := c.ins_x86_pop csr_type
  let c' := (pc.2).prev_inst
  let c'' : EncCursor := { c' with func := c'.func.set_loc pc.1 (.reg reg) }
  { c'' with func := c''.func.append_inst_arg inst pc.1 }

/-- Mirrors Isa::insert_epilogue: before the given return instruction, increment
the stack pointer when the local frame size is positive, pop the frame pointer,
then pop each callee-saved register, stepping the cursor backwards after each pop
so every later pop is authored in front of the previous one; each popped value is
pinned to its register and appended as an extra argument of the return. -/
def insert_epilogue (sf : Flags) (inst : Nat) (stack_size : Int) (c : EncCursor)
    (csr_type : Ty) : EncCursor :=
  let c1 := if 0 < stack_size then c.ins_adjust_sp_imm stack_size else c
  let fpc := c1.ins_x86_pop csr_type
  let c2 := (fpc.2).prev_inst
  let c3 : EncCursor := { c2 with func := (c2.func.set_loc fpc.1 (.reg RU.rbp)) }
  let c4 : EncCursor := { c3 with func := c3.func.append_inst_arg inst fpc.1 }
  (callee_saved_registers sf).foldl (epilogue_pop_csr inst csr_type) c4

/-- One step of the insert_epilogues loop body applied after next_ebb produced a
block: go to its last instruction and, when that instruction is a return, insert
an epilogue there. -/
def epilogues_visit (sf : Flags) (stack_size : Int) (csr_type : Ty) (ebb : Nat)
    (c : EncCursor) : EncCursor :=
  let c1 := c.goto_last_inst ebb
  match c1.current_inst with
  | some inst =>
      match c1.func.find_inst inst with
      | some d => if d.op.is_ret then insert_epilogue sf inst stack_size c1 csr_type else c1
      | none => c1
  | none => c1

/-- Fuel-indexed unfolding of the while let Some(ebb) = pos.next_ebb() loop of
Isa::insert_epilogues; the fuel is an upper bound on the number of remaining
loop iterations and never runs out at the call site below. -/
def insert_epilogues_go (sf : Flags) (stack_size : Int) (csr_type : Ty) :
    Nat → EncCursor → EncCursor
  | 0, c => c
  | fuel + 1, c =>
      match c.next_ebb with
      | (none, c') => c'
      | (some ebb, c') =>
          insert_epilogues_go sf stack_size csr_type fuel
            (epilogues_visit sf stack_size csr_type ebb c')

/-- Mirrors Isa::insert_epilogues: advance the cursor block by block from its
current position and give every block whose last instruction is a return an
epilogue. Advancing visits strictly later blocks only, so blocks up to and
including the one the cursor starts in are never visited. -/
def insert_epilogues (sf : Flags) (c : EncCursor) (stack_size : Int) (csr_type : Ty) :
    EncCursor :=
  insert_epilogues_go sf stack_size csr_type c.func.blocks.length c

/-- One iteration of the signature-extension loop of Isa::prologue_epilogue:
append one hidden CalleeSaved parameter and one hidden CalleeSaved return, both
pinned to the given register. -/
def extend_sig_with_csr (csr_type : Ty) (f : Function) (csr : RegUnit) : Function :=
  let csr_arg := AbiParam.special_reg csr_type .callee_saved csr
  { f with
    sig_params := f.sig_params ++ [csr_arg],
    sig_returns := f.sig_returns ++ [csr_arg] }

/-- Mirrors Isa::prologue_epilogue. The stack-layout routine layout_stack lives
outside src/ and is modelled from the spec as an explicit argument mapping the
slot list and word size to a total frame size or a typed error. -/
def prologue_epilogue (sf : Flags)
    (layout_stack : List StackSlotData → Nat → Except Unit Nat)
    (func : Function) : FrameResult :=
  let word_size : Nat := if sf.is_64bit then 8 else 4
  let csr_type : Ty := if sf.is_64bit then .i64 else .i32
  let csrs := callee_saved_registers sf
  let csr_stack_size : Int := (((csrs.length + 1) * word_size : Nat) : Int)
  let func1 := func.create_stack_slot
    { kind := .incoming_arg, size := (csrs.length + 1) * word_size, offset := -csr_stack_size }
  match layout_stack func1.stack_slots word_size with
  | .error _ => .err func1
  | .ok total_size =>
    let total_stack_size : Int := (total_size : Int)
    let local_stack_size : Int := total_stack_size - csr_stack_size
    let fp_arg := AbiParam.special_reg csr_type .frame_pointer RU.rbp
    let func2 := { func1 with
      sig_params := func1.sig_params ++ [fp_arg],
      sig_returns := func1.sig_returns ++ [fp_arg] }
    let func3 := csrs.foldl (extend_sig_with_csr csr_type) func2
    match func3.entry_block with
    | none => .panic_missing_entry
    | some entry_ebb =>
      let pos0 := EncCursor.at_first_insertion_point { func := func3, pos := .nowhere } entry_ebb
      let pos1 := insert_prologue sf pos0 local_stack_size csr_type
      let pos2 := insert_epilogues sf pos1 local_stack_size csr_type
      .ok pos2.func

/-! Encoding resolution model (isa_constructor and legal_encodings). The static
table set, the shared lookup routine and the settings types live outside src/
and are modelled from the spec. -/

/-- Modelled from the spec: the data-flow context consulted by instruction
predicates, reduced to the value typing it exposes for operand inspection. -/
abbrev DataFlowGraph := List (Nat × Ty)

/-- Modelled from the spec: the isa-specific flag set; encoding lookup consumes
only its boolean predicate view. -/
structure IsaFlags where
  preds : List Bool

/-- Modelled from the spec: the numbered boolean predicate view of an isa flag set. -/
def IsaFlags.predicate_view (fl : IsaFlags) : List Bool :=
  fl.preds

/-- Modelled from the spec: the settings builder handed to the isa constructor,
reduced to the isa predicate bits it resolves to. -/
structure SettingsBuilder where
  isa_preds : List Bool

/-- Modelled from the spec: settings::Flags::new resolves the isa flag set from
the shared flags and the builder. -/
def IsaFlags.new (sf : Flags) (b : SettingsBuilder) : IsaFlags :=
  { preds := b.isa_preds }

/-- Modelled from the spec: the coarse instruction shape used as the level-1 key. -/
def Op.shape_code : Op → Nat
  | .x86_push => 0
  | .x86_pop _ => 1
  | .copy_special _ _ => 2
  | .adjust_sp_imm _ => 3
  | .ret => 4
  | .other n => 5 + n

/-- Modelled from the spec: one encoding list entry, an ordered candidate with a
recipe identifier, recipe-specific bits and optional recipe/instruction
predicate indices. -/
structure EncListEntry where
  recipe : Nat
  encbits : Nat
  recipe_pred : Option Nat
  inst_pred : Option Nat

/-- Modelled from the spec: one level-2 entry, keyed by controlling type, holding
either an encoding list or a legalization action code. -/
structure Level2Entry where
  ctrl_type : Ty
  enclist : Option (List EncListEntry)
  legalize_code : Nat

/-- Modelled from the spec: one level-1 entry, keyed by coarse instruction shape,
holding either a level-2 sub-table or a direct legalization action code. -/
structure Level1Entry where
  opcode : Nat
  level2 : Option (List Level2Entry)
  legalize_code : Nat

/-- Modelled from the spec: outcome of encoding lookup, either the ordered
materialized candidate sequence of (recipe, bits) pairs or a legalize directive. -/
inductive Encodings
  | list (cands : List (Nat × Nat))
  | legalize (action : Nat)
deriving DecidableEq

/-- Modelled from the spec: evaluation of an optional recipe predicate against
the isa predicate view; an absent predicate always passes. -/
def check_recipe_pred (preds : List (List Bool → Bool)) (view : List Bool) :
    Option Nat → Bool
  | none => true
  | some i =>
      match preds[i]? with
      | some p => p view
      | none => false

/-- Modelled from the spec: evaluation of an optional instruction predicate
against the data-flow context and the instruction; an absent predicate passes. -/
def check_inst_pred (preds : List (DataFlowGraph → InstData → Bool))
    (dfg : DataFlowGraph) (inst : InstData) : Option Nat → Bool
  | none => true
  | some i =>
      match preds[i]? with
      | some p => p dfg inst
      | none => false

/-- Modelled from the spec: the static, read-only encoding table set of the
target (enc_tables.rs, outside src/): the two level-1 roots keyed by addressing
width plus the shared predicate tables. -/
structure EncTables where
  level1_i64 : List Level1Entry
  level1_i32 : List Level1Entry
  recipe_preds : List (List Bool → Bool)
  inst_preds : List (DataFlowGraph → InstData → Bool)

/-- Modelled from the spec: shared_enc_tables::lookup_enclist (outside src/):
descend level 1 by coarse shape, then level 2 by controlling type, then filter
the encoding list by the recipe and instruction predicates, keeping table order;
a failing predicate skips the entry and scanning continues; a miss yields the
attached legalization action. -/
def lookup_enclist (ctrl_typevar : Ty) (inst : InstData) (dfg : DataFlowGraph)
    (level1 : List Level1Entry)
    (recipe_preds : List (List Bool → Bool))
    (inst_preds : List (DataFlowGraph → InstData → Bool))
    (isa_pred_view : List Bool) : Encodings :=
  match level1.find? (fun e => e.opcode = inst.op.shape_code) with
  | none => .legalize 0
  | some l1 =>
      match l1.level2 with
      | none => .legalize l1.legalize_code
      | some t2 =>
          match t2.find? (fun e => e.ctrl_type = ctrl_typevar) with
          | none => .legalize l1.legalize_code
          | some l2 =>
              match l2.enclist with
              | none => .legalize l2.legalize_code
              | some entries =>
                  .list ((entries.filter (fun en =>
                      check_recipe_pred recipe_preds isa_pred_view en.recipe_pred &&
                      check_inst_pred inst_preds dfg inst en.inst_pred)).map
                    (fun en => (en.recipe, en.encbits)))

/-- Mirrors struct Isa: the resolved shared flags, the resolved isa flags and
the level-1 table root selected at construction. -/
structure Isa where
  shared_flags : Flags
  isa_flags : IsaFlags
  cpumode : List Level1Entry

/-- Mirrors isa_constructor: the level-1 root is picked once from the is_64bit
shared flag; the static table set, a global of enc_tables.rs in the source, is
passed explicitly here. -/
def isa_constructor (tables : EncTables) (shared_flags : Flags)
    (builder : SettingsBuilder) : Isa :=
  { isa_flags := IsaFlags.new shared_flags builder,
    shared_flags := shared_flags,
    cpumode := if shared_flags.is_64bit then tables.level1_i64 else tables.level1_i32 }

/-- Mirrors Isa::legal_encodings: delegates to lookup_enclist over the selected
root table, the static predicate tables and the isa flag predicate view. -/
def Isa.legal_encodings (isa : Isa) (tables : EncTables) (dfg : DataFlowGraph)
    (inst : InstData) (ctrl_typevar : Ty) : Encodings :=
  lookup_enclist ctrl_typevar inst dfg isa.cpumode tables.recipe_preds
    tables.inst_preds (isa.isa_flags.predicate_view)

/-! Observables used to state the claims. -/

/-- Word size of the target in bytes, as computed at the top of prologue_epilogue. -/
def word_size_of (sf : Flags) : Nat :=
  if sf.is_64bit then 8 else 4

/-- Reserved incoming-argument shadow size in bytes: one word for the frame
pointer plus one per callee-saved register. -/
def csr_shadow_size (sf : Flags) : Nat :=
  ((callee_saved_registers sf).length + 1) * word_size_of sf

/-- The incoming-argument shadow slot appended by prologue_epilogue before the
stack-layout routine runs. -/
def shadow_slot (sf : Flags) : StackSlotData :=
  { kind := .incoming_arg,
    size := csr_shadow_size sf,
    offset := -((csr_shadow_size sf : Nat) : Int) }

/-- Instruction data of one block in literal layout order. -/
def block_insts (f : Function) (b : Nat) : List InstData :=
  match f.blocks[b]? with
  | some e => e.insts.filterMap f.find_inst
  | none => []

/-- Physical register pushed by an instruction, when it is a push of a value
pinned to a register. -/
def push_reg (f : Function) (d : InstData) : Option RegUnit :=
  match d.op, d.args with
  | .x86_push, [v] =>
      match f.find_loc v with
      | some (.reg r) => some r
      | none => none
  | _, _ => none

/-- Physical register popped by an instruction, when it is a pop whose result
value is pinned to a register. -/
def pop_reg (f : Function) (d : InstData) : Option RegUnit :=
  match d.op, d.results with
  | .x86_pop _, [v] =>
      match f.find_loc v with
      | some (.reg r) => some r
      | none => none
  | _, _ => none

/-- Physical stack push sequence of one block: the pushed registers in literal
instruction order. -/
def push_seq (f : Function) (b : Nat) : List RegUnit :=
  (block_insts f b).filterMap (push_reg f)

/-- Physical stack pop sequence of one block: the popped registers in literal
instruction order. -/
def pop_seq (f : Function) (b : Nat) : List RegUnit :=
  (block_insts f b).filterMap (pop_reg f)

/-- Whether an opcode is a stack-pointer adjustment. -/
def Op.is_adjust_sp : Op → Bool
  | .adjust_sp_imm _ => true
  | _ => false

/-! Concrete inputs used by counterexamples, code-bug evaluations and witnesses. -/

/-- A bare return instruction. -/
def ret_inst : InstData :=
  { op := .ret, args := [], results := [] }

/-- An uninterpreted non-return instruction. -/
def other_inst (n : Nat) : InstData :=
  { op := .other n, args := [], results := [] }

/-- Example flag set: 64-bit, one callee-saved register (unit 3). -/
def exFlags : Flags :=
  { is_64bit := true, callee_saved := [3] }

/-- Example flag set with two callee-saved registers (units 3 and 12). -/
def exFlags2 : Flags :=
  { is_64bit := true, callee_saved := [3, 12] }

/-- Example layout routine reporting a 24-byte total frame. -/
def exLayout : List StackSlotData → Nat → Except Unit Nat :=
  fun _ _ => .ok 24

/-- Example layout routine reporting a 16-byte total frame (equal to the shadow
size of exFlags, so the local frame size is zero). -/
def exLayoutZero : List StackSlotData → Nat → Except Unit Nat :=
  fun _ _ => .ok 16

/-- Example layout routine reporting a 32-byte total frame. -/
def exLayout32 : List StackSlotData → Nat → Except Unit Nat :=
  fun _ _ => .ok 32

/-- Example layout routine that always fails. -/
def exLayoutErr : List StackSlotData → Nat → Except Unit Nat :=
  fun _ _ => .error ()

/-- Two-block example function: the entry block holds one plain instruction and
the second block ends in a return. -/
def exFunc : Function :=
  { stack_slots := [], sig_params := [], sig_returns := [],
    blocks := [{ params := [], insts := [0] }, { params := [], insts := [1] }],
    inst_data := [(0, other_inst 0), (1, ret_inst)],
    locations := [], next_value := 0, next_inst := 2 }

/-- Single-block example function whose entry block ends in a return. -/
def exFuncSingle : Function :=
  { stack_slots := [], sig_params := [], sig_returns := [],
    blocks := [{ params := [], insts := [0] }],
    inst_data := [(0, ret_inst)],
    locations := [], next_value := 0, next_inst := 1 }

/-- Example function with no blocks at all, hence no entry block. -/
def exFuncNoEntry : Function :=
  { stack_slots := [], sig_params := [], sig_returns := [],
    blocks := [], inst_data := [],
    locations := [], next_value := 0, next_inst := 0 }

/-- Projection of a FrameResult onto the carried function, with a fallback for
the panic outcome. -/
def frame_ok (r : FrameResult) (fallback : Function) : Function :=
  match r with
  | .ok f => f
  | .err f => f
  | .panic_missing_entry => fallback

/-! Basic lemmas about the embedded operations. -/

theorem extend_sig_foldl (ty : Ty) (l : List RegUnit) (f : Function) :
    l.foldl (extend_sig_with_csr ty) f =
      { f with
        sig_params := f.sig_params ++ l.map (fun r => AbiParam.special_reg ty .callee_saved r),
        sig_returns := f.sig_returns ++ l.map (fun r => AbiParam.special_reg ty .callee_saved r) } := by
  induction l generalizing f with
  | nil => simp
  | cons r rs ih =>
      simp only [List.foldl_cons, ih, extend_sig_with_csr, List.map_cons]
      simp [List.append_assoc]

/-! List-level lemmas about the helper functions of the embedding. -/

theorem modifyAt_length {α : Type} (l : List α) (i : Nat) (g : α → α) :
    (modifyAt l i g).length = l.length := by
  induction l generalizing i with
  | nil => rfl
  | cons x xs ih =>
      cases i with
      | zero => rfl
      | succ n => simp [modifyAt, ih]

theorem modifyAt_get_self {α : Type} (l : List α) (i : Nat) (g : α → α) (x : α)
    (h : l[i]? = some x) : (modifyAt l i g)[i]? = some (g x) := by
  induction l generalizing i with
  | nil => simp at h
  | cons y ys ih =>
      cases i with
      | zero => simp_all [modifyAt]
      | succ n => simp_all [modifyAt]

theorem modifyAt_get_ne {α : Type} (l : List α) (i j : Nat) (g : α → α) (h : i ≠ j) :
    (modifyAt l i g)[j]? = l[j]? := by
  induction l generalizing i j with
  | nil => rfl
  | cons y ys ih =>
      cases i with
      | zero =>
          cases j with
          | zero => exact absurd rfl h
          | succ m => simp [modifyAt]
      | succ n =>
          cases j with
          | zero => simp [modifyAt]
          | succ m => simpa [modifyAt] using ih n m (by omega)

theorem modifyAt_modifyAt {α : Type} (l : List α) (i : Nat) (g h : α → α) :
    modifyAt (modifyAt l i g) i h = modifyAt l i (fun x => h (g x)) := by
  induction l generalizing i with
  | nil => rfl
  | cons y ys ih =>
      cases i with
      | zero => rfl
      | succ n => simp [modifyAt, ih]

theorem modifyAt_id_of_get {α : Type} (l : List α) (i : Nat) (g : α → α) (x : α)
    (h : l[i]? = some x) (hg : g x = x) : modifyAt l i g = l := by
  induction l generalizing i with
  | nil => rfl
  | cons y ys ih =>
      cases i with
      | zero => simp_all [modifyAt]
      | succ n => simp_all [modifyAt]

theorem get_some_lt {α : Type} (l : List α) (i : Nat) (x : α) (h : l[i]? = some x) :
    i < l.length := by
  induction l generalizing i with
  | nil => simp at h
  | cons y ys ih =>
      cases i with
      | zero => simp
      | succ n => simpa [Nat.succ_lt_succ_iff] using ih n (by simpa using h)

theorem listInsertAt_append {α : Type} (A B : List α) (a : α) :
    listInsertAt (A ++ B) A.length a = A ++ a :: B := by
  induction A with
  | nil => simp [listInsertAt]
  | cons x xs ih => simp [listInsertAt, ih]

theorem seqFrom_length (n k : Nat) : (seqFrom n k).length = k := by
  induction k generalizing n with
  | zero => rfl
  | succ m ih => simp [seqFrom, ih]

theorem seqFrom_get (n k t : Nat) (ht : t < k) : (seqFrom n k)[t]? = some (n + t) := by
  induction k generalizing n t with
  | zero => omega
  | succ m ih =>
      cases t with
      | zero => simp [seqFrom]
      | succ s =>
          have := ih (n + 1) s (by omega)
          simpa [seqFrom, Nat.add_assoc, Nat.add_comm 1 s] using this

theorem seqFrom_mem (n k m : Nat) : m ∈ seqFrom n k ↔ n ≤ m ∧ m < n + k := by
  induction k generalizing n with
  | zero => simp [seqFrom]
  | succ j ih =>
      simp only [seqFrom, List.mem_cons, ih]
      omega

theorem idata_lookup_append_right (l1 l2 : List (Nat × InstData)) (id : Nat)
    (h : ∀ p ∈ l1, p.1 ≠ id) : idata_lookup (l1 ++ l2) id = idata_lookup l2 id := by
  induction l1 with
  | nil => rfl
  | cons p rest ih =>
      simp only [List.cons_append, idata_lookup]
      rw [if_neg (h p (by simp))]
      exact ih (fun q hq => h q (by simp [hq]))

theorem idata_lookup_cons (a : Nat) (d : InstData) (l : List (Nat × InstData)) (id : Nat) :
    idata_lookup ((a, d) :: l) id = if a = id then some d else idata_lookup l id := rfl

theorem loc_lookup_cons (a : Nat) (d : ValueLoc) (l : List (Nat × ValueLoc)) (v : Nat) :
    loc_lookup ((a, d) :: l) v = if a = v then some d else loc_lookup l v := rfl

theorem loc_lookup_append_right (l1 l2 : List (Nat × ValueLoc)) (v : Nat)
    (h : ∀ p ∈ l1, p.1 ≠ v) : loc_lookup (l1 ++ l2) v = loc_lookup l2 v := by
  induction l1 with
  | nil => rfl
  | cons p rest ih =>
      simp only [List.cons_append, loc_lookup]
      rw [if_neg (h p (by simp))]
      exact ih (fun q hq => h q (by simp [hq]))

theorem idata_lookup_append_args (l : List (Nat × InstData)) (t : Nat)
    (us : List Nat) (id : Nat) :
    idata_lookup (append_args t us l) id =
      if id = t then (idata_lookup l id).map (fun d => { d with args := d.args ++ us })
      else idata_lookup l id := by
  induction l with
  | nil => simp only [append_args, List.map_nil, idata_lookup, Option.map_none', ite_self]
  | cons p rest ih =>
      simp only [append_args, List.map_cons] at ih ⊢
      by_cases hp : p.1 = t
      · by_cases hpi : p.1 = id
        · have hid : id = t := by rw [← hpi, hp]
          simp [idata_lookup, hp, hpi, hid]
        · have hid : ¬ id = t := fun h => hpi (by rw [hp, h])
          have hid' : ¬ t = id := fun h => hid h.symm
          simp [idata_lookup, hp, hpi, hid, hid', ih]
      · by_cases hpi : p.1 = id
        · have hid : ¬ id = t := fun h => hp (by rw [hpi, h])
          simp [idata_lookup, hp, hpi, hid]
        · simp [idata_lookup, hp, hpi, ih]

theorem append_args_nil (t : Nat) (l : List (Nat × InstData)) :
    append_args t [] l = l := by
  induction l with
  | nil => rfl
  | cons p rest ih =>
      obtain ⟨a, d⟩ := p
      simp only [append_args, List.map_cons] at ih ⊢
      rw [ih]
      by_cases hp : a = t
      · simp [hp]
      · simp [hp]

theorem append_args_append_args (t : Nat) (us vs : List Nat)
    (l : List (Nat × InstData)) :
    append_args t vs (append_args t us l) = append_args t (us ++ vs) l := by
  induction l with
  | nil => rfl
  | cons p rest ih =>
      obtain ⟨a, d⟩ := p
      simp only [append_args, List.map_cons] at ih ⊢
      rw [ih]
      by_cases hp : a = t
      · simp [hp, List.append_assoc]
      · simp [hp]

theorem append_args_cons_ne (t : Nat) (us : List Nat) (a : Nat) (d : InstData)
    (l : List (Nat × InstData)) (h : ¬ a = t) :
    append_args t us ((a, d) :: l) = (a, d) :: append_args t us l := by
  simp [append_args, h]

/-! Shape functions describing the data the frame synthesizer allocates, plus
their lookup lemmas. -/

/-- Instruction store entries of the k callee-saved pushes authored by the
prologue, in authoring order, for fresh values from nv and fresh ids from ni. -/
def csr_push_data (nv : Nat) (ni : Nat) : List RegUnit → List (Nat × InstData)
  | [] => []
  | _ :: rs => (ni, push_data nv) :: csr_push_data (nv + 1) (ni + 1) rs

/-- Instruction store entries of the k callee-saved pops authored by the
epilogue, in authoring order, for fresh values from nv and fresh ids from ni. -/
def csr_pop_data (ty : Ty) (nv : Nat) (ni : Nat) : List RegUnit → List (Nat × InstData)
  | [] => []
  | _ :: rs => (ni, pop_data ty nv) :: csr_pop_data ty (nv + 1) (ni + 1) rs

/-- Location map entries pinning fresh values from nv to the registers of the
list, in authoring order. -/
def csr_locs (nv : Nat) : List RegUnit → List (Nat × ValueLoc)
  | [] => []
  | r :: rs => (nv, .reg r) :: csr_locs (nv + 1) rs

theorem csr_push_data_key (rs : List RegUnit) : ∀ (nv ni : Nat) (a : Nat) (d : InstData),
    (a, d) ∈ csr_push_data nv ni rs → ni ≤ a ∧ a < ni + rs.length := by
  induction rs with
  | nil => intro nv ni a d h; simp [csr_push_data] at h
  | cons r rest ih =>
      intro nv ni a d h
      simp only [csr_push_data, List.mem_cons, Prod.mk.injEq] at h
      rcases h with ⟨h, _⟩ | h
      · subst h
        simp only [List.length_cons]
        omega
      · obtain ⟨h1, h2⟩ := ih (nv + 1) (ni + 1) a d h
        simp only [List.length_cons]
        omega

theorem csr_pop_data_key (ty : Ty) (rs : List RegUnit) :
    ∀ (nv ni : Nat) (a : Nat) (d : InstData),
    (a, d) ∈ csr_pop_data ty nv ni rs → ni ≤ a ∧ a < ni + rs.length := by
  induction rs with
  | nil => intro nv ni a d h; simp [csr_pop_data] at h
  | cons r rest ih =>
      intro nv ni a d h
      simp only [csr_pop_data, List.mem_cons, Prod.mk.injEq] at h
      rcases h with ⟨h, _⟩ | h
      · subst h
        simp only [List.length_cons]
        omega
      · obtain ⟨h1, h2⟩ := ih (nv + 1) (ni + 1) a d h
        simp only [List.length_cons]
        omega

theorem csr_locs_key (rs : List RegUnit) : ∀ (nv : Nat) (a : Nat) (d : ValueLoc),
    (a, d) ∈ csr_locs nv rs → nv ≤ a ∧ a < nv + rs.length := by
  induction rs with
  | nil => intro nv a d h; simp [csr_locs] at h
  | cons r rest ih =>
      intro nv a d h
      simp only [csr_locs, List.mem_cons, Prod.mk.injEq] at h
      rcases h with ⟨h, _⟩ | h
      · subst h
        simp only [List.length_cons]
        omega
      · obtain ⟨h1, h2⟩ := ih (nv + 1) a d h
        simp only [List.length_cons]
        omega

theorem idata_lookup_csr_pop_rev (ty : Ty) (nv ni : Nat) (rs : List RegUnit)
    (X : List (Nat × InstData)) (t : Nat) (ht : t < rs.length) :
    idata_lookup ((csr_pop_data ty nv ni rs).reverse ++ X) (ni + t) =
      some (pop_data ty (nv + t)) := by
  induction rs generalizing nv ni t X with
  | nil => simp at ht
  | cons r rest ih =>
      simp only [csr_pop_data, List.reverse_cons, List.append_assoc]
      cases t with
      | zero =>
          rw [idata_lookup_append_right]
          · simp [idata_lookup]
          · intro p hp
            obtain ⟨a, d⟩ := p
            obtain ⟨h1, h2⟩ := csr_pop_data_key ty rest (nv + 1) (ni + 1) a d (by simpa using hp)
            omega
      | succ s =>
          have hs : s < rest.length := by simpa [Nat.succ_lt_succ_iff] using ht
          have := ih (nv + 1) (ni + 1) ((ni, pop_data ty nv) :: X) s hs
          have harith : ni + 1 + s = ni + (s + 1) := by omega
          have harith2 : nv + 1 + s = nv + (s + 1) := by omega
          rw [harith, harith2] at this
          simpa using this

theorem idata_lookup_csr_push_rev (nv ni : Nat) (rs : List RegUnit)
    (X : List (Nat × InstData)) (t : Nat) (ht : t < rs.length) :
    idata_lookup ((csr_push_data nv ni rs).reverse ++ X) (ni + t) =
      some (push_data (nv + t)) := by
  induction rs generalizing nv ni t X with
  | nil => simp at ht
  | cons r rest ih =>
      simp only [csr_push_data, List.reverse_cons, List.append_assoc]
      cases t with
      | zero =>
          rw [idata_lookup_append_right]
          · simp [idata_lookup]
          · intro p hp
            obtain ⟨a, d⟩ := p
            obtain ⟨h1, h2⟩ := csr_push_data_key rest (nv + 1) (ni + 1) a d (by simpa using hp)
            omega
      | succ s =>
          have hs : s < rest.length := by simpa [Nat.succ_lt_succ_iff] using ht
          have := ih (nv + 1) (ni + 1) ((ni, push_data nv) :: X) s hs
          have harith : ni + 1 + s = ni + (s + 1) := by omega
          have harith2 : nv + 1 + s = nv + (s + 1) := by omega
          rw [harith, harith2] at this
          simpa using this

theorem loc_lookup_csr_rev (nv : Nat) (rs : List RegUnit) (X : List (Nat × ValueLoc))
    (t : Nat) (r : RegUnit) (ht : rs[t]? = some r) :
    loc_lookup ((csr_locs nv rs).reverse ++ X) (nv + t) = some (.reg r) := by
  induction rs generalizing nv t X with
  | nil => simp at ht
  | cons r0 rest ih =>
      simp only [csr_locs, List.reverse_cons, List.append_assoc]
      cases t with
      | zero =>
          simp only [List.getElem?_cons_zero, Option.some.injEq] at ht
          subst ht
          rw [loc_lookup_append_right]
          · simp [loc_lookup]
          · intro p hp
            obtain ⟨a, d⟩ := p
            obtain ⟨h1, h2⟩ := csr_locs_key rest (nv + 1) a d (by simpa using hp)
            omega
      | succ s =>
          have hs : rest[s]? = some r := by simpa using ht
          have := ih (nv + 1) ((nv, ValueLoc.reg r0) :: X) s hs
          have harith : nv + 1 + s = nv + (s + 1) := by omega
          rw [harith] at this
          simpa using this

theorem idata_lookup_csr_pop_rev_skip (ty : Ty) (nv ni : Nat) (rs : List RegUnit)
    (X : List (Nat × InstData)) (id : Nat) (h : id < ni) :
    idata_lookup ((csr_pop_data ty nv ni rs).reverse ++ X) id = idata_lookup X id := by
  apply idata_lookup_append_right
  intro p hp
  obtain ⟨a, d⟩ := p
  obtain ⟨h1, h2⟩ := csr_pop_data_key ty rs nv ni a d (by simpa using hp)
  omega

theorem idata_lookup_csr_push_rev_skip (nv ni : Nat) (rs : List RegUnit)
    (X : List (Nat × InstData)) (id : Nat) (h : id < ni) :
    idata_lookup ((csr_push_data nv ni rs).reverse ++ X) id = idata_lookup X id := by
  apply idata_lookup_append_right
  intro p hp
  obtain ⟨a, d⟩ := p
  obtain ⟨h1, h2⟩ := csr_push_data_key rs nv ni a d (by simpa using hp)
  omega

theorem loc_lookup_csr_rev_skip (nv : Nat) (rs : List RegUnit)
    (X : List (Nat × ValueLoc)) (v : Nat) (h : v < nv) :
    loc_lookup ((csr_locs nv rs).reverse ++ X) v = loc_lookup X v := by
  apply loc_lookup_append_right
  intro p hp
  obtain ⟨a, d⟩ := p
  obtain ⟨h1, h2⟩ := csr_locs_key rs nv a d (by simpa using hp)
  omega

/-! Characterization of the callee-saved loops of insert_prologue and
insert_epilogue as explicit state transformations. -/

theorem prologue_fold_spec (rs : List RegUnit) : ∀ (f : Function) (b i : Nat) (e : Ebb)
    (A B : List Nat),
    f.blocks[b]? = some e → e.insts = A ++ B → A.length = i →
    rs.foldl (prologue_push_csr b) { func := f, pos := .at_inst b i } =
      { func := { f with
          blocks := modifyAt f.blocks b (fun _ =>
            { params := e.params ++ seqFrom f.next_value rs.length,
              insts := A ++ seqFrom f.next_inst rs.length ++ B }),
          inst_data := (csr_push_data f.next_value f.next_inst rs).reverse ++ f.inst_data,
          locations := (csr_locs f.next_value rs).reverse ++ f.locations,
          next_value := f.next_value + rs.length,
          next_inst := f.next_inst + rs.length },
        pos := .at_inst b (i + rs.length) } := by
  induction rs with
  | nil =>
      intro f b i e A B hb hAB hlen
      simp only [List.foldl_nil, seqFrom, List.length_nil, List.reverse_nil, List.nil_append,
        List.append_nil, Nat.add_zero, csr_push_data, csr_locs]
      rw [modifyAt_id_of_get f.blocks b _ e hb (by rw [← hAB])]
  | cons r rest ih =>
      intro f b i e A B hb hAB hlen
      simp only [List.foldl_cons]
      have hstep : prologue_push_csr b { func := f, pos := .at_inst b i } r =
          { func := { f with
              blocks := modifyAt f.blocks b (fun e0 =>
                { params := e0.params ++ [f.next_value],
                  insts := listInsertAt e0.insts i f.next_inst }),
              inst_data := (f.next_inst, push_data f.next_value) :: f.inst_data,
              locations := (f.next_value, ValueLoc.reg r) :: f.locations,
              next_value := f.next_value + 1,
              next_inst := f.next_inst + 1 },
            pos := .at_inst b (i + 1) } := by
        simp only [prologue_push_csr, Function.append_ebb_param, Function.set_loc,
          EncCursor.ins_x86_push, EncCursor.ins_inst, modifyAt_modifyAt]
      rw [hstep]
      have hb1 : (modifyAt f.blocks b (fun e0 =>
          { params := e0.params ++ [f.next_value],
            insts := listInsertAt e0.insts i f.next_inst }))[b]? =
          some { params := e.params ++ [f.next_value], insts := A ++ f.next_inst :: B } := by
        rw [modifyAt_get_self f.blocks b _ e hb, hAB, ← hlen, listInsertAt_append]
      rw [ih _ b (i + 1) _ (A ++ [f.next_inst]) B hb1 (by simp) (by simp [hlen])]
      simp only [EncCursor.mk.injEq, Function.mk.injEq, modifyAt_modifyAt, true_and, and_true,
        CursorPosition.at_inst.injEq]
      repeat' apply And.intro
      all_goals
        first
          | rfl
          | (simp only [seqFrom, csr_push_data, csr_locs, List.reverse_cons, List.append_assoc,
              List.cons_append, List.nil_append]
             done)
          | (simp only [List.length_cons]
             generalize rest.length = L
             omega)

theorem epilogue_fold_spec (rs : List RegUnit) : ∀ (ty : Ty) (t : Nat) (f : Function)
    (b i : Nat) (e : Ebb) (A B : List Nat),
    f.blocks[b]? = some e → e.insts = A ++ B → A.length = i → t < f.next_inst →
    rs.foldl (epilogue_pop_csr t ty) { func := f, pos := .at_inst b i } =
      { func := { f with
          blocks := modifyAt f.blocks b (fun _ =>
            { params := e.params,
              insts := A ++ (seqFrom f.next_inst rs.length).reverse ++ B }),
          inst_data := (csr_pop_data ty f.next_value f.next_inst rs).reverse ++
            append_args t (seqFrom f.next_value rs.length) f.inst_data,
          locations := (csr_locs f.next_value rs).reverse ++ f.locations,
          next_value := f.next_value + rs.length,
          next_inst := f.next_inst + rs.length },
        pos := .at_inst b i } := by
  induction rs with
  | nil =>
      intro ty t f b i e A B hb hAB hlen ht
      simp only [List.foldl_nil, seqFrom, List.length_nil, List.reverse_nil, List.nil_append,
        List.append_nil, Nat.add_zero, csr_pop_data, csr_locs, append_args_nil]
      rw [modifyAt_id_of_get f.blocks b _ e hb (by rw [← hAB])]
  | cons r rest ih =>
      intro ty t f b i e A B hb hAB hlen ht
      simp only [List.foldl_cons]
      have hstep : epilogue_pop_csr t ty { func := f, pos := .at_inst b i } r =
          { func := { f with
              blocks := modifyAt f.blocks b (fun e0 =>
                { e0 with insts := listInsertAt e0.insts i f.next_inst }),
              inst_data := append_args t [f.next_value]
                ((f.next_inst, pop_data ty f.next_value) :: f.inst_data),
              locations := (f.next_value, ValueLoc.reg r) :: f.locations,
              next_value := f.next_value + 1,
              next_inst := f.next_inst + 1 },
            pos := .at_inst b i } := by
        simp only [epilogue_pop_csr, EncCursor.ins_x86_pop, EncCursor.ins_inst,
          EncCursor.prev_inst, Function.set_loc, Function.append_inst_arg]
      rw [hstep]
      rw [append_args_cons_ne t [f.next_value] f.next_inst (pop_data ty f.next_value)
        f.inst_data (by omega)]
      have hb1 : (modifyAt f.blocks b (fun e0 =>
          { e0 with insts := listInsertAt e0.insts i f.next_inst }))[b]? =
          some { params := e.params, insts := A ++ f.next_inst :: B } := by
        rw [modifyAt_get_self f.blocks b _ e hb, hAB, ← hlen, listInsertAt_append]
      rw [ih ty t _ b i _ A (f.next_inst :: B) hb1 (by simp) hlen
        (by show t < f.next_inst + 1; omega)]
      simp only [EncCursor.mk.injEq, Function.mk.injEq, modifyAt_modifyAt, and_true, true_and]
      repeat' apply And.intro
      all_goals
        first
          | rfl
          | (rw [append_args_cons_ne t (seqFrom (f.next_value + 1) rest.length) f.next_inst
                (pop_data ty f.next_value) (append_args t [f.next_value] f.inst_data)
                (by omega),
              append_args_append_args]
             simp only [csr_pop_data, List.reverse_cons, List.append_assoc, List.cons_append,
               List.nil_append, seqFrom]
             done)
          | (simp only [seqFrom, List.reverse_cons, List.append_assoc, List.cons_append,
              List.nil_append]
             done)
          | (simp only [csr_locs, List.reverse_cons, List.append_assoc, List.cons_append,
              List.nil_append]
             done)
          | (simp only [List.length_cons]
             generalize rest.length = L
             omega)

theorem insert_epilogue_spec_pos (sf : Flags) (ty : Ty) (ss : Int) (t : Nat) (f : Function)
    (b : Nat) (e : Ebb) (init : List Nat)
    (hss : 0 < ss) (hb : f.blocks[b]? = some e) (hi : e.insts = init ++ [t])
    (ht : t < f.next_inst) :
    insert_epilogue sf t ss { func := f, pos := .at_inst b init.length } ty =
      { func := { f with
          blocks := modifyAt f.blocks b (fun _ =>
            { params := e.params,
              insts := init ++ [f.next_inst] ++
                (seqFrom (f.next_inst + 2) (callee_saved_registers sf).length).reverse ++
                [f.next_inst + 1, t] }),
          inst_data := (csr_pop_data ty (f.next_value + 1) (f.next_inst + 2)
              (callee_saved_registers sf)).reverse ++
            (f.next_inst + 1, pop_data ty f.next_value) ::
            (f.next_inst, adjust_sp_data ss) ::
            append_args t (seqFrom f.next_value ((callee_saved_registers sf).length + 1))
              f.inst_data,
          locations := (csr_locs (f.next_value + 1) (callee_saved_registers sf)).reverse ++
            (f.next_value, ValueLoc.reg RU.rbp) :: f.locations,
          next_value := f.next_value + ((callee_saved_registers sf).length + 1),
          next_inst := f.next_inst + ((callee_saved_registers sf).length + 2) },
        pos := .at_inst b (init.length + 1) } := by
  unfold insert_epilogue
  rw [if_pos hss]
  simp only [EncCursor.ins_adjust_sp_imm, EncCursor.ins_x86_pop, EncCursor.ins_inst,
    EncCursor.prev_inst, Function.set_loc, Function.append_inst_arg, modifyAt_modifyAt]
  rw [append_args_cons_ne t [f.next_value] (f.next_inst + 1) (pop_data ty f.next_value)
      ((f.next_inst, adjust_sp_data ss) :: f.inst_data) (by omega),
    append_args_cons_ne t [f.next_value] f.next_inst (adjust_sp_data ss) f.inst_data
      (by omega)]
  have hlen1 : (init ++ [f.next_inst]).length = init.length + 1 := by simp
  have hb4 : (modifyAt f.blocks b (fun x =>
      { params := x.params,
        insts := listInsertAt (listInsertAt x.insts init.length f.next_inst)
          (init.length + 1) (f.next_inst + 1) }))[b]? =
      some { params := e.params,
             insts := (init ++ [f.next_inst]) ++ [f.next_inst + 1, t] } := by
    rw [modifyAt_get_self f.blocks b _ e hb, hi]
    rw [show listInsertAt (init ++ [t]) init.length f.next_inst =
        (init ++ [f.next_inst]) ++ [t] from by rw [listInsertAt_append]; simp]
    rw [← hlen1, listInsertAt_append]
  rw [epilogue_fold_spec (callee_saved_registers sf) ty t _ b (init.length + 1) _
    (init ++ [f.next_inst]) [f.next_inst + 1, t] hb4 rfl hlen1
    (by show t < f.next_inst + 1 + 1; omega)]
  simp only [EncCursor.mk.injEq, Function.mk.injEq, modifyAt_modifyAt, and_true, true_and]
  repeat' apply And.intro
  all_goals
    first
      | rfl
      | (simp only [List.append_assoc, List.cons_append, List.nil_append]
         done)
      | (rw [append_args_cons_ne t (seqFrom (f.next_value + 1)
              (callee_saved_registers sf).length) (f.next_inst + 1)
              (pop_data ty f.next_value)
              ((f.next_inst, adjust_sp_data ss) ::
                append_args t [f.next_value] f.inst_data) (by omega),
            append_args_cons_ne t (seqFrom (f.next_value + 1)
              (callee_saved_registers sf).length) f.next_inst (adjust_sp_data ss)
              (append_args t [f.next_value] f.inst_data) (by omega),
            append_args_append_args]
         simp only [List.cons_append, List.nil_append, seqFrom]
         done)
      | (generalize (callee_saved_registers sf).length = L
         omega)

theorem insert_epilogue_spec_nonpos (sf : Flags) (ty : Ty) (ss : Int) (t : Nat) (f : Function)
    (b : Nat) (e : Ebb) (init : List Nat)
    (hss : ¬ 0 < ss) (hb : f.blocks[b]? = some e) (hi : e.insts = init ++ [t])
    (ht : t < f.next_inst) :
    insert_epilogue sf t ss { func := f, pos := .at_inst b init.length } ty =
      { func := { f with
          blocks := modifyAt f.blocks b (fun _ =>
            { params := e.params,
              insts := init ++
                (seqFrom (f.next_inst + 1) (callee_saved_registers sf).length).reverse ++
                [f.next_inst, t] }),
          inst_data := (csr_pop_data ty (f.next_value + 1) (f.next_inst + 1)
              (callee_saved_registers sf)).reverse ++
            (f.next_inst, pop_data ty f.next_value) ::
            append_args t (seqFrom f.next_value ((callee_saved_registers sf).length + 1))
              f.inst_data,
          locations := (csr_locs (f.next_value + 1) (callee_saved_registers sf)).reverse ++
            (f.next_value, ValueLoc.reg RU.rbp) :: f.locations,
          next_value := f.next_value + ((callee_saved_registers sf).length + 1),
          next_inst := f.next_inst + ((callee_saved_registers sf).length + 1) },
        pos := .at_inst b init.length } := by
  unfold insert_epilogue
  rw [if_neg hss]
  simp only [EncCursor.ins_adjust_sp_imm, EncCursor.ins_x86_pop, EncCursor.ins_inst,
    EncCursor.prev_inst, Function.set_loc, Function.append_inst_arg, modifyAt_modifyAt]
  rw [append_args_cons_ne t [f.next_value] f.next_inst (pop_data ty f.next_value)
      f.inst_data (by omega)]
  have hb4 : (modifyAt f.blocks b (fun x =>
      { params := x.params,
        insts := listInsertAt x.insts init.length f.next_inst }))[b]? =
      some { params := e.params, insts := init ++ [f.next_inst, t] } := by
    rw [modifyAt_get_self f.blocks b _ e hb, hi, listInsertAt_append]
  rw [epilogue_fold_spec (callee_saved_registers sf) ty t _ b init.length _
    init [f.next_inst, t] hb4 rfl rfl (by show t < f.next_inst + 1; omega)]
  simp only [EncCursor.mk.injEq, Function.mk.injEq, modifyAt_modifyAt, and_true, true_and]
  repeat' apply And.intro
  all_goals
    first
      | rfl
      | (simp only [List.append_assoc, List.cons_append, List.nil_append]
         done)
      | (rw [append_args_cons_ne t (seqFrom (f.next_value + 1)
              (callee_saved_registers sf).length) f.next_inst
              (pop_data ty f.next_value)
              (append_args t [f.next_value] f.inst_data) (by omega),
            append_args_append_args]
         simp only [List.cons_append, List.nil_append, seqFrom]
         done)
      | (generalize (callee_saved_registers sf).length = L
         omega)

theorem insert_prologue_spec_pos (sf : Flags) (ty : Ty) (ss : Int) (f : Function)
    (b : Nat) (e : Ebb)
    (hss : 0 < ss) (hb : f.blocks[b]? = some e) :
    insert_prologue sf { func := f, pos := .at_inst b 0 } ss ty =
      { func := { f with
          blocks := modifyAt f.blocks b (fun _ =>
            { params := e.params ++ seqFrom f.next_value ((callee_saved_registers sf).length + 1),
              insts := f.next_inst :: (f.next_inst + 1) :: (f.next_inst + 2) ::
                (seqFrom (f.next_inst + 3) (callee_saved_registers sf).length ++ e.insts) }),
          inst_data := (csr_push_data (f.next_value + 1) (f.next_inst + 3)
              (callee_saved_registers sf)).reverse ++
            (f.next_inst + 2, adjust_sp_data (-ss)) ::
            (f.next_inst + 1, copy_special_data RU.rsp RU.rbp) ::
            (f.next_inst, push_data f.next_value) :: f.inst_data,
          locations := (csr_locs (f.next_value + 1) (callee_saved_registers sf)).reverse ++
            (f.next_value, ValueLoc.reg RU.rbp) :: f.locations,
          next_value := f.next_value + ((callee_saved_registers sf).length + 1),
          next_inst := f.next_inst + ((callee_saved_registers sf).length + 3) },
        pos := .at_inst b (3 + (callee_saved_registers sf).length) } := by
  unfold insert_prologue
  simp only [current_ebb]
  rw [if_pos hss]
  simp only [Function.append_ebb_param, Function.set_loc, EncCursor.ins_x86_push,
    EncCursor.ins_copy_special, EncCursor.ins_adjust_sp_imm, EncCursor.ins_inst,
    modifyAt_modifyAt]
  norm_num
  have hb4 : (modifyAt f.blocks b (fun x =>
      { params := x.params ++ [f.next_value],
        insts := listInsertAt (listInsertAt (listInsertAt x.insts 0 f.next_inst) 1
          (f.next_inst + 1)) 2 (f.next_inst + 2) }))[b]? =
      some { params := e.params ++ [f.next_value],
             insts := [f.next_inst, f.next_inst + 1, f.next_inst + 2] ++ e.insts } := by
    rw [modifyAt_get_self f.blocks b _ e hb]
    simp [listInsertAt]
  rw [prologue_fold_spec (callee_saved_registers sf) _ b 3 _
    [f.next_inst, f.next_inst + 1, f.next_inst + 2] e.insts hb4 rfl rfl]
  simp only [EncCursor.mk.injEq, Function.mk.injEq, modifyAt_modifyAt, and_true, true_and]
  repeat' apply And.intro
  all_goals
    first
      | rfl
      | (simp only [seqFrom, List.append_assoc, List.cons_append, List.nil_append]
         done)
      | (generalize (callee_saved_registers sf).length = L
         omega)

theorem insert_prologue_spec_nonpos (sf : Flags) (ty : Ty) (ss : Int) (f : Function)
    (b : Nat) (e : Ebb)
    (hss : ¬ 0 < ss) (hb : f.blocks[b]? = some e) :
    insert_prologue sf { func := f, pos := .at_inst b 0 } ss ty =
      { func := { f with
          blocks := modifyAt f.blocks b (fun _ =>
            { params := e.params ++ seqFrom f.next_value ((callee_saved_registers sf).length + 1),
              insts := f.next_inst :: (f.next_inst + 1) ::
                (seqFrom (f.next_inst + 2) (callee_saved_registers sf).length ++ e.insts) }),
          inst_data := (csr_push_data (f.next_value + 1) (f.next_inst + 2)
              (callee_saved_registers sf)).reverse ++
            (f.next_inst + 1, copy_special_data RU.rsp RU.rbp) ::
            (f.next_inst, push_data f.next_value) :: f.inst_data,
          locations := (csr_locs (f.next_value + 1) (callee_saved_registers sf)).reverse ++
            (f.next_value, ValueLoc.reg RU.rbp) :: f.locations,
          next_value := f.next_value + ((callee_saved_registers sf).length + 1),
          next_inst := f.next_inst + ((callee_saved_registers sf).length + 2) },
        pos := .at_inst b (2 + (callee_saved_registers sf).length) } := by
  unfold insert_prologue
  simp only [current_ebb]
  rw [if_neg hss]
  simp only [Function.append_ebb_param, Function.set_loc, EncCursor.ins_x86_push,
    EncCursor.ins_copy_special, EncCursor.ins_adjust_sp_imm, EncCursor.ins_inst,
    modifyAt_modifyAt]
  norm_num
  have hb4 : (modifyAt f.blocks b (fun x =>
      { params := x.params ++ [f.next_value],
        insts := listInsertAt (listInsertAt x.insts 0 f.next_inst) 1
          (f.next_inst + 1) }))[b]? =
      some { params := e.params ++ [f.next_value],
             insts := [f.next_inst, f.next_inst + 1] ++ e.insts } := by
    rw [modifyAt_get_self f.blocks b _ e hb]
    simp [listInsertAt]
  rw [prologue_fold_spec (callee_saved_registers sf) _ b 2 _
    [f.next_inst, f.next_inst + 1] e.insts hb4 rfl rfl]
  simp only [EncCursor.mk.injEq, Function.mk.injEq, modifyAt_modifyAt, and_true, true_and]
  repeat' apply And.intro
  all_goals
    first
      | rfl
      | (simp only [seqFrom, List.append_assoc, List.cons_append, List.nil_append]
         done)
      | (generalize (callee_saved_registers sf).length = L
         omega)

/-! Support lemmas for the epilogue loop characterization. -/

theorem get_concat_length {α : Type} (A : List α) (x : α) (B : List α) :
    (A ++ x :: B)[A.length]? = some x := by
  induction A with
  | nil => simp
  | cons y ys ih => simpa using ih

theorem getLast_concat_singleton {α : Type} (A : List α) (x : α) :
    (A ++ [x]).getLast? = some x := by
  rw [List.getLast?_append_cons]
  rfl

theorem concat_inj_of_eq {α : Type} (A B : List α) (x y : α) (h : A ++ [x] = B ++ [y]) :
    A = B ∧ x = y := by
  have hx : some x = some y := by
    rw [← getLast_concat_singleton A x, ← getLast_concat_singleton B y, h]
  have hA : A = B := by
    have := congrArg List.dropLast h
    simpa [List.dropLast_concat] using this
  exact ⟨hA, by injection hx⟩

theorem is_ret_iff (o : Op) : o.is_ret = true ↔ o = Op.ret := by
  cases o <;> simp [Op.is_ret]

theorem ne_of_append_singleton_nil {α : Type} (A : List α) (x : α) : A ++ [x] ≠ [] := by
  simp

/-- What one pass of the epilogue loop starting just inside block b guarantees,
relating the function f it started from to the function g it finished with. -/
structure EpiLoopSpec (sf : Flags) (ss : Int) (ty : Ty) (b : Nat) (f g : Function) : Prop where
  slots : g.stack_slots = f.stack_slots
  sigp : g.sig_params = f.sig_params
  sigr : g.sig_returns = f.sig_returns
  nblocks : g.blocks.length = f.blocks.length
  bparams : ∀ j : Nat, (g.blocks[j]?).map Ebb.params = (f.blocks[j]?).map Ebb.params
  low : ∀ j : Nat, j ≤ b → g.blocks[j]? = f.blocks[j]?
  nv_mono : f.next_value ≤ g.next_value
  ni_mono : f.next_inst ≤ g.next_inst
  loc_pres : ∀ v, v < f.next_value → loc_lookup g.locations v = loc_lookup f.locations v
  op_pres : ∀ id, id < f.next_inst →
    (idata_lookup g.inst_data id).map InstData.op =
      (idata_lookup f.inst_data id).map InstData.op
  exact_pres : ∀ id, id < f.next_inst →
    (∀ j e2, b < j → f.blocks[j]? = some e2 → e2.insts.getLast? ≠ some id) →
    idata_lookup g.inst_data id = idata_lookup f.inst_data id
  untouched : ∀ j e2, b < j → f.blocks[j]? = some e2 →
    (∀ x d, e2.insts.getLast? = some x → idata_lookup f.inst_data x = some d →
      d.op ≠ Op.ret) →
    g.blocks[j]? = some e2
  processed : ∀ j e2 init t d, b < j → f.blocks[j]? = some e2 → e2.insts = init ++ [t] →
    idata_lookup f.inst_data t = some d → d.op = Op.ret →
    ∃ nv ni, f.next_value ≤ nv ∧ f.next_inst ≤ ni ∧
      g.blocks[j]? = some { params := e2.params, insts :=
        init ++ (if 0 < ss then [ni] else []) ++
        (seqFrom (ni + (if 0 < ss then 2 else 1)) (callee_saved_registers sf).length).reverse ++
        [ni + (if 0 < ss then 1 else 0), t] } ∧
      idata_lookup g.inst_data t =
        some { d with args := d.args ++ seqFrom nv ((callee_saved_registers sf).length + 1) } ∧
      (0 < ss → idata_lookup g.inst_data ni = some (adjust_sp_data ss)) ∧
      idata_lookup g.inst_data (ni + (if 0 < ss then 1 else 0)) = some (pop_data ty nv) ∧
      (∀ u, u < (callee_saved_registers sf).length →
        idata_lookup g.inst_data (ni + (if 0 < ss then 2 else 1) + u) =
          some (pop_data ty (nv + 1 + u))) ∧
      loc_lookup g.locations nv = some (ValueLoc.reg RU.rbp) ∧
      (∀ u r, (callee_saved_registers sf)[u]? = some r →
        loc_lookup g.locations (nv + 1 + u) = some (ValueLoc.reg r))

theorem EpiLoopSpec_id (sf : Flags) (ss : Int) (ty : Ty) (b : Nat) (f : Function)
    (hlen : f.blocks.length ≤ b + 1) : EpiLoopSpec sf ss ty b f f := by
  have hnone : ∀ j, b < j → f.blocks[j]? = none := by
    intro j hj
    apply List.getElem?_eq_none
    omega
  constructor
  · rfl
  · rfl
  · rfl
  · rfl
  · intro j; rfl
  · intro j hj; rfl
  · exact Nat.le_refl _
  · exact Nat.le_refl _
  · intro v hv; rfl
  · intro id hid; rfl
  · intro id hid hcond; rfl
  · intro j e2 hj hb2 hcond
    exact hb2
  · intro j e2 init t d hj hb2 hinsts hd hret
    rw [hnone j hj] at hb2
    exact absurd hb2 (by simp)

theorem epi_spec_lift_skip (sf : Flags) (ss : Int) (ty : Ty) (b : Nat) (f g : Function)
    (e1 : Ebb) (hb1 : f.blocks[b + 1]? = some e1)
    (hskip : ∀ init t d, e1.insts = init ++ [t] → idata_lookup f.inst_data t = some d →
      d.op ≠ Op.ret)
    (S : EpiLoopSpec sf ss ty (b + 1) f g) : EpiLoopSpec sf ss ty b f g := by
  constructor
  · exact S.slots
  · exact S.sigp
  · exact S.sigr
  · exact S.nblocks
  · exact S.bparams
  · intro j hj; exact S.low j (by omega)
  · exact S.nv_mono
  · exact S.ni_mono
  · exact S.loc_pres
  · exact S.op_pres
  · intro id hid hcond
    exact S.exact_pres id hid (fun j e2 hj hb2 => hcond j e2 (by omega) hb2)
  · intro j e2 hj hb2 hcond
    rcases Nat.lt_or_ge (b + 1) j with hj2 | hj2
    · exact S.untouched j e2 hj2 hb2 hcond
    · have hjeq : j = b + 1 := by omega
      subst hjeq
      rw [S.low (b + 1) (Nat.le_refl _)]
      exact hb2
  · intro j e2 init t d hj hb2 hinsts hd hret
    rcases Nat.lt_or_ge (b + 1) j with hj2 | hj2
    · exact S.processed j e2 init t d hj2 hb2 hinsts hd hret
    · have hjeq : j = b + 1 := by omega
      subst hjeq
      rw [hb1] at hb2
      injection hb2 with hb2
      subst hb2
      exact absurd hret (hskip init t d hinsts hd)

theorem mem_of_getLast_some {α : Type} : ∀ (l : List α) (x : α), l.getLast? = some x → x ∈ l
  | [], x, h => by simp at h
  | [y], x, h => by
      simp only [List.getLast?_singleton, Option.some.injEq] at h
      simp [h]
  | y :: z :: zs, x, h => by
      rw [List.getLast?_cons_cons] at h
      exact List.mem_cons_of_mem y (mem_of_getLast_some (z :: zs) x h)

theorem epi_spec_lift_step_pos (sf : Flags) (ss : Int) (ty : Ty) (b : Nat)
    (f fm g : Function) (e1 : Ebb) (init : List Nat) (t : Nat) (d : InstData)
    (hss : 0 < ss)
    (hb1 : f.blocks[b + 1]? = some e1)
    (hi1 : e1.insts = init ++ [t])
    (hd : idata_lookup f.inst_data t = some d)
    (hdret : d.op = Op.ret)
    (hids : ∀ j e2, b < j → f.blocks[j]? = some e2 → ∀ id ∈ e2.insts, id < f.next_inst)
    (hdist : ∀ j j' e2 e2' x, b < j → b < j' → j ≠ j' → f.blocks[j]? = some e2 →
      f.blocks[j']? = some e2' → x ∈ e2.insts → e2'.insts.getLast? ≠ some x)
    (hfm : fm = { f with
      blocks := modifyAt f.blocks (b + 1) (fun _ =>
        { params := e1.params,
          insts := init ++ [f.next_inst] ++
            (seqFrom (f.next_inst + 2) (callee_saved_registers sf).length).reverse ++
            [f.next_inst + 1, t] }),
      inst_data := (csr_pop_data ty (f.next_value + 1) (f.next_inst + 2)
          (callee_saved_registers sf)).reverse ++
        (f.next_inst + 1, pop_data ty f.next_value) ::
        (f.next_inst, adjust_sp_data ss) ::
        append_args t (seqFrom f.next_value ((callee_saved_registers sf).length + 1))
          f.inst_data,
      locations := (csr_locs (f.next_value + 1) (callee_saved_registers sf)).reverse ++
        (f.next_value, ValueLoc.reg RU.rbp) :: f.locations,
      next_value := f.next_value + ((callee_saved_registers sf).length + 1),
      next_inst := f.next_inst + ((callee_saved_registers sf).length + 2) })
    (S : EpiLoopSpec sf ss ty (b + 1) fm g) :
    EpiLoopSpec sf ss ty b f g := by
  have hfmb : fm.blocks = modifyAt f.blocks (b + 1) (fun _ =>
      { params := e1.params,
        insts := init ++ [f.next_inst] ++
          (seqFrom (f.next_inst + 2) (callee_saved_registers sf).length).reverse ++
          [f.next_inst + 1, t] }) := by rw [hfm]
  have hfmi : fm.inst_data = (csr_pop_data ty (f.next_value + 1) (f.next_inst + 2)
      (callee_saved_registers sf)).reverse ++
      (f.next_inst + 1, pop_data ty f.next_value) ::
      (f.next_inst, adjust_sp_data ss) ::
      append_args t (seqFrom f.next_value ((callee_saved_registers sf).length + 1))
        f.inst_data := by rw [hfm]
  have hfml : fm.locations = (csr_locs (f.next_value + 1) (callee_saved_registers sf)).reverse ++
      (f.next_value, ValueLoc.reg RU.rbp) :: f.locations := by rw [hfm]
  have hfmnv : fm.next_value = f.next_value + ((callee_saved_registers sf).length + 1) := by
    rw [hfm]
  have hfmni : fm.next_inst = f.next_inst + ((callee_saved_registers sf).length + 2) := by
    rw [hfm]
  have hfms : fm.stack_slots = f.stack_slots := by rw [hfm]
  have hfmsp : fm.sig_params = f.sig_params := by rw [hfm]
  have hfmsr : fm.sig_returns = f.sig_returns := by rw [hfm]
  have ht : t < f.next_inst := hids (b + 1) e1 (by omega) hb1 t (by rw [hi1]; simp)
  have hlast1 : e1.insts.getLast? = some t := by
    rw [hi1]; exact getLast_concat_singleton init t
  have SF1 : ∀ j : Nat, ¬ (b + 1 = j) → fm.blocks[j]? = f.blocks[j]? := by
    intro j hj
    rw [hfmb]
    exact modifyAt_get_ne f.blocks (b + 1) j _ hj
  have SF2 : fm.blocks[b + 1]? = some
      { params := e1.params,
        insts := init ++ [f.next_inst] ++
          (seqFrom (f.next_inst + 2) (callee_saved_registers sf).length).reverse ++
          [f.next_inst + 1, t] } := by
    rw [hfmb]
    exact modifyAt_get_self f.blocks (b + 1) _ e1 hb1
  have SF4a : ∀ id : Nat, id < f.next_inst → ¬ (id = t) →
      idata_lookup fm.inst_data id = idata_lookup f.inst_data id := by
    intro id hid hneq
    rw [hfmi, idata_lookup_csr_pop_rev_skip ty (f.next_value + 1) (f.next_inst + 2)
      (callee_saved_registers sf) _ id (by omega)]
    rw [idata_lookup_cons, if_neg (by omega), idata_lookup_cons, if_neg (by omega),
      idata_lookup_append_args, if_neg hneq]
  have SF4b : idata_lookup fm.inst_data t = some
      { d with args := d.args ++ seqFrom f.next_value ((callee_saved_registers sf).length + 1) } := by
    rw [hfmi, idata_lookup_csr_pop_rev_skip ty (f.next_value + 1) (f.next_inst + 2)
      (callee_saved_registers sf) _ t (by omega)]
    rw [idata_lookup_cons, if_neg (by omega), idata_lookup_cons, if_neg (by omega),
      idata_lookup_append_args, if_pos rfl, hd]
    rfl
  have SF4c : idata_lookup fm.inst_data f.next_inst = some (adjust_sp_data ss) := by
    rw [hfmi, idata_lookup_csr_pop_rev_skip ty (f.next_value + 1) (f.next_inst + 2)
      (callee_saved_registers sf) _ f.next_inst (by omega)]
    rw [idata_lookup_cons, if_neg (by omega), idata_lookup_cons, if_pos rfl]
  have SF4d : idata_lookup fm.inst_data (f.next_inst + 1) = some (pop_data ty f.next_value) := by
    rw [hfmi, idata_lookup_csr_pop_rev_skip ty (f.next_value + 1) (f.next_inst + 2)
      (callee_saved_registers sf) _ (f.next_inst + 1) (by omega)]
    rw [idata_lookup_cons, if_pos rfl]
  have SF4e : ∀ u : Nat, u < (callee_saved_registers sf).length →
      idata_lookup fm.inst_data (f.next_inst + 2 + u) =
        some (pop_data ty (f.next_value + 1 + u)) := by
    intro u hu
    rw [hfmi]
    exact idata_lookup_csr_pop_rev ty (f.next_value + 1) (f.next_inst + 2)
      (callee_saved_registers sf) _ u hu
  have SF5a : ∀ v : Nat, v < f.next_value →
      loc_lookup fm.locations v = loc_lookup f.locations v := by
    intro v hv
    rw [hfml, loc_lookup_csr_rev_skip (f.next_value + 1) (callee_saved_registers sf) _ v
      (by omega)]
    rw [loc_lookup_cons, if_neg (by omega)]
  have SF5b : loc_lookup fm.locations f.next_value = some (ValueLoc.reg RU.rbp) := by
    rw [hfml, loc_lookup_csr_rev_skip (f.next_value + 1) (callee_saved_registers sf) _
      f.next_value (by omega)]
    rw [loc_lookup_cons, if_pos rfl]
  have SF5c : ∀ (u : Nat) (r : RegUnit), (callee_saved_registers sf)[u]? = some r →
      loc_lookup fm.locations (f.next_value + 1 + u) = some (ValueLoc.reg r) := by
    intro u r hur
    rw [hfml]
    exact loc_lookup_csr_rev (f.next_value + 1) (callee_saved_registers sf) _ u r hur
  constructor
  · rw [S.slots, hfms]
  · rw [S.sigp, hfmsp]
  · rw [S.sigr, hfmsr]
  · rw [S.nblocks, hfmb]
    exact modifyAt_length f.blocks (b + 1) _
  · intro j
    rw [S.bparams j]
    by_cases hj : b + 1 = j
    · subst hj
      rw [SF2, hb1]
      rfl
    · rw [SF1 j hj]
  · intro j hj
    rw [S.low j (by omega), SF1 j (by omega)]
  · have h1 := S.nv_mono
    rw [hfmnv] at h1
    omega
  · have h1 := S.ni_mono
    rw [hfmni] at h1
    omega
  · intro v hv
    rw [S.loc_pres v (by rw [hfmnv]; omega), SF5a v hv]
  · intro id hid
    rw [S.op_pres id (by rw [hfmni]; omega)]
    by_cases hidt : id = t
    · subst hidt
      rw [SF4b, hd]
      rfl
    · rw [SF4a id hid hidt]
  · intro id hid hcond
    have hne_t : ¬ (id = t) := by
      intro hEq
      exact hcond (b + 1) e1 (by omega) hb1 (by rw [hlast1, hEq])
    rw [S.exact_pres id (by rw [hfmni]; omega) ?_, SF4a id hid hne_t]
    intro j e2 hj hb2
    rw [SF1 j (by omega)] at hb2
    exact hcond j e2 (by omega) hb2
  · intro j e2 hj hb2 hcond
    by_cases hj1 : j = b + 1
    · subst hj1
      rw [hb1] at hb2
      injection hb2 with hE
      subst hE
      exact absurd hdret (hcond t d hlast1 hd)
    · refine S.untouched j e2 (by omega) (by rw [SF1 j (by omega)]; exact hb2) ?_
      intro x d' hlast hd'
      have hmem := mem_of_getLast_some _ _ hlast
      have hx : x < f.next_inst := hids j e2 (by omega) hb2 x hmem
      have hxt : ¬ (x = t) := by
        intro hEq
        exact hdist j (b + 1) e2 e1 x (by omega) (by omega) hj1 hb2 hb1 hmem
          (by rw [hlast1, hEq])
      rw [SF4a x hx hxt] at hd'
      exact hcond x d' hlast hd'
  · intro j e2 init' t' d' hj hb2 hinsts hd' hret'
    by_cases hj1 : j = b + 1
    · subst hj1
      rw [hb1] at hb2
      injection hb2 with hE
      subst hE
      obtain ⟨hinit, hteq⟩ := concat_inj_of_eq init' init t' t (by rw [← hinsts, ← hi1])
      subst hinit
      subst hteq
      rw [hd] at hd'
      injection hd' with hdE
      subst hdE
      refine ⟨f.next_value, f.next_inst, Nat.le_refl _, Nat.le_refl _, ?_, ?_, ?_, ?_, ?_, ?_, ?_⟩
      · simp only [if_pos hss]
        rw [S.low (b + 1) (Nat.le_refl _), SF2]
      · have hcond : ∀ j' e2', b + 1 < j' → fm.blocks[j']? = some e2' →
            e2'.insts.getLast? ≠ some t' := by
          intro j' e2' hj' hb2'
          rw [SF1 j' (by omega)] at hb2'
          exact hdist (b + 1) j' e1 e2' t' (by omega) (by omega) (by omega) hb1 hb2'
            (by rw [hi1]; simp)
        rw [S.exact_pres t' (by rw [hfmni]; omega) hcond, SF4b]
      · intro _
        have hcond : ∀ j' e2', b + 1 < j' → fm.blocks[j']? = some e2' →
            e2'.insts.getLast? ≠ some f.next_inst := by
          intro j' e2' hj' hb2' hlastx
          have hmem := mem_of_getLast_some _ _ hlastx
          rw [SF1 j' (by omega)] at hb2'
          have := hids j' e2' (by omega) hb2' _ hmem
          omega
        rw [S.exact_pres f.next_inst (by rw [hfmni]; omega) hcond, SF4c]
      · simp only [if_pos hss]
        have hcond : ∀ j' e2', b + 1 < j' → fm.blocks[j']? = some e2' →
            e2'.insts.getLast? ≠ some (f.next_inst + 1) := by
          intro j' e2' hj' hb2' hlastx
          have hmem := mem_of_getLast_some _ _ hlastx
          rw [SF1 j' (by omega)] at hb2'
          have := hids j' e2' (by omega) hb2' _ hmem
          omega
        rw [S.exact_pres (f.next_inst + 1) (by rw [hfmni]; omega) hcond, SF4d]
      · intro u hu
        simp only [if_pos hss]
        have hcond : ∀ j' e2', b + 1 < j' → fm.blocks[j']? = some e2' →
            e2'.insts.getLast? ≠ some (f.next_inst + 2 + u) := by
          intro j' e2' hj' hb2' hlastx
          have hmem := mem_of_getLast_some _ _ hlastx
          rw [SF1 j' (by omega)] at hb2'
          have := hids j' e2' (by omega) hb2' _ hmem
          omega
        rw [S.exact_pres (f.next_inst + 2 + u) (by rw [hfmni]; omega) hcond, SF4e u hu]
      · rw [S.loc_pres f.next_value (by rw [hfmnv]; omega), SF5b]
      · intro u r hur
        have hu : u < (callee_saved_registers sf).length :=
          get_some_lt (callee_saved_registers sf) u r hur
        rw [S.loc_pres (f.next_value + 1 + u) (by rw [hfmnv]; omega), SF5c u r hur]
    · have hb2' : fm.blocks[j]? = some e2 := by
        rw [SF1 j (by omega)]
        exact hb2
      have ht' : t' < f.next_inst := hids j e2 (by omega) hb2 t' (by rw [hinsts]; simp)
      have htne : ¬ (t' = t) := by
        intro hEq
        exact hdist j (b + 1) e2 e1 t' (by omega) (by omega) hj1 hb2 hb1
          (by rw [hinsts]; simp) (by rw [hlast1, hEq])
      have hdl : idata_lookup fm.inst_data t' = some d' := by
        rw [SF4a t' ht' htne]
        exact hd'
      obtain ⟨nv', ni', hnv', hni', rest⟩ :=
        S.processed j e2 init' t' d' (by omega) hb2' hinsts hdl hret'
      rw [hfmnv] at hnv'
      rw [hfmni] at hni'
      exact ⟨nv', ni', by omega, by omega, rest⟩

theorem epi_spec_lift_step_nonpos (sf : Flags) (ss : Int) (ty : Ty) (b : Nat)
    (f fm g : Function) (e1 : Ebb) (init : List Nat) (t : Nat) (d : InstData)
    (hss : ¬ 0 < ss)
    (hb1 : f.blocks[b + 1]? = some e1)
    (hi1 : e1.insts = init ++ [t])
    (hd : idata_lookup f.inst_data t = some d)
    (hdret : d.op = Op.ret)
    (hids : ∀ j e2, b < j → f.blocks[j]? = some e2 → ∀ id ∈ e2.insts, id < f.next_inst)
    (hdist : ∀ j j' e2 e2' x, b < j → b < j' → j ≠ j' → f.blocks[j]? = some e2 →
      f.blocks[j']? = some e2' → x ∈ e2.insts → e2'.insts.getLast? ≠ some x)
    (hfm : fm = { f with
      blocks := modifyAt f.blocks (b + 1) (fun _ =>
        { params := e1.params,
          insts := init ++
            (seqFrom (f.next_inst + 1) (callee_saved_registers sf).length).reverse ++
            [f.next_inst, t] }),
      inst_data := (csr_pop_data ty (f.next_value + 1) (f.next_inst + 1)
          (callee_saved_registers sf)).reverse ++
        (f.next_inst, pop_data ty f.next_value) ::
        append_args t (seqFrom f.next_value ((callee_saved_registers sf).length + 1))
          f.inst_data,
      locations := (csr_locs (f.next_value + 1) (callee_saved_registers sf)).reverse ++
        (f.next_value, ValueLoc.reg RU.rbp) :: f.locations,
      next_value := f.next_value + ((callee_saved_registers sf).length + 1),
      next_inst := f.next_inst + ((callee_saved_registers sf).length + 1) })
    (S : EpiLoopSpec sf ss ty (b + 1) fm g) :
    EpiLoopSpec sf ss ty b f g := by
  have hfmb : fm.blocks = modifyAt f.blocks (b + 1) (fun _ =>
      { params := e1.params,
        insts := init ++
          (seqFrom (f.next_inst + 1) (callee_saved_registers sf).length).reverse ++
          [f.next_inst, t] }) := by rw [hfm]
  have hfmi : fm.inst_data = (csr_pop_data ty (f.next_value + 1) (f.next_inst + 1)
      (callee_saved_registers sf)).reverse ++
      (f.next_inst, pop_data ty f.next_value) ::
      append_args t (seqFrom f.next_value ((callee_saved_registers sf).length + 1))
        f.inst_data := by rw [hfm]
  have hfml : fm.locations = (csr_locs (f.next_value + 1) (callee_saved_registers sf)).reverse ++
      (f.next_value, ValueLoc.reg RU.rbp) :: f.locations := by rw [hfm]
  have hfmnv : fm.next_value = f.next_value + ((callee_saved_registers sf).length + 1) := by
    rw [hfm]
  have hfmni : fm.next_inst = f.next_inst + ((callee_saved_registers sf).length + 1) := by
    rw [hfm]
  have hfms : fm.stack_slots = f.stack_slots := by rw [hfm]
  have hfmsp : fm.sig_params = f.sig_params := by rw [hfm]
  have hfmsr : fm.sig_returns = f.sig_returns := by rw [hfm]
  have ht : t < f.next_inst := hids (b + 1) e1 (by omega) hb1 t (by rw [hi1]; simp)
  have hlast1 : e1.insts.getLast? = some t := by
    rw [hi1]; exact getLast_concat_singleton init t
  have SF1 : ∀ j : Nat, ¬ (b + 1 = j) → fm.blocks[j]? = f.blocks[j]? := by
    intro j hj
    rw [hfmb]
    exact modifyAt_get_ne f.blocks (b + 1) j _ hj
  have SF2 : fm.blocks[b + 1]? = some
      { params := e1.params,
        insts := init ++
          (seqFrom (f.next_inst + 1) (callee_saved_registers sf).length).reverse ++
          [f.next_inst, t] } := by
    rw [hfmb]
    exact modifyAt_get_self f.blocks (b + 1) _ e1 hb1
  have SF4a : ∀ id : Nat, id < f.next_inst → ¬ (id = t) →
      idata_lookup fm.inst_data id = idata_lookup f.inst_data id := by
    intro id hid hneq
    rw [hfmi, idata_lookup_csr_pop_rev_skip ty (f.next_value + 1) (f.next_inst + 1)
      (callee_saved_registers sf) _ id (by omega)]
    rw [idata_lookup_cons, if_neg (by omega), idata_lookup_append_args, if_neg hneq]
  have SF4b : idata_lookup fm.inst_data t = some
      { d with args := d.args ++ seqFrom f.next_value ((callee_saved_registers sf).length + 1) } := by
    rw [hfmi, idata_lookup_csr_pop_rev_skip ty (f.next_value + 1) (f.next_inst + 1)
      (callee_saved_registers sf) _ t (by omega)]
    rw [idata_lookup_cons, if_neg (by omega), idata_lookup_append_args, if_pos rfl, hd]
    rfl
  have SF4d : idata_lookup fm.inst_data f.next_inst = some (pop_data ty f.next_value) := by
    rw [hfmi, idata_lookup_csr_pop_rev_skip ty (f.next_value + 1) (f.next_inst + 1)
      (callee_saved_registers sf) _ f.next_inst (by omega)]
    rw [idata_lookup_cons, if_pos rfl]
  have SF4e : ∀ u : Nat, u < (callee_saved_registers sf).length →
      idata_lookup fm.inst_data (f.next_inst + 1 + u) =
        some (pop_data ty (f.next_value + 1 + u)) := by
    intro u hu
    rw [hfmi]
    exact idata_lookup_csr_pop_rev ty (f.next_value + 1) (f.next_inst + 1)
      (callee_saved_registers sf) _ u hu
  have SF5a : ∀ v : Nat, v < f.next_value →
      loc_lookup fm.locations v = loc_lookup f.locations v := by
    intro v hv
    rw [hfml, loc_lookup_csr_rev_skip (f.next_value + 1) (callee_saved_registers sf) _ v
      (by omega)]
    rw [loc_lookup_cons, if_neg (by omega)]
  have SF5b : loc_lookup fm.locations f.next_value = some (ValueLoc.reg RU.rbp) := by
    rw [hfml, loc_lookup_csr_rev_skip (f.next_value + 1) (callee_saved_registers sf) _
      f.next_value (by omega)]
    rw [loc_lookup_cons, if_pos rfl]
  have SF5c : ∀ (u : Nat) (r : RegUnit), (callee_saved_registers sf)[u]? = some r →
      loc_lookup fm.locations (f.next_value + 1 + u) = some (ValueLoc.reg r) := by
    intro u r hur
    rw [hfml]
    exact loc_lookup_csr_rev (f.next_value + 1) (callee_saved_registers sf) _ u r hur
  constructor
  · rw [S.slots, hfms]
  · rw [S.sigp, hfmsp]
  · rw [S.sigr, hfmsr]
  · rw [S.nblocks, hfmb]
    exact modifyAt_length f.blocks (b + 1) _
  · intro j
    rw [S.bparams j]
    by_cases hj : b + 1 = j
    · subst hj
      rw [SF2, hb1]
      rfl
    · rw [SF1 j hj]
  · intro j hj
    rw [S.low j (by omega), SF1 j (by omega)]
  · have h1 := S.nv_mono
    rw [hfmnv] at h1
    omega
  · have h1 := S.ni_mono
    rw [hfmni] at h1
    omega
  · intro v hv
    rw [S.loc_pres v (by rw [hfmnv]; omega), SF5a v hv]
  · intro id hid
    rw [S.op_pres id (by rw [hfmni]; omega)]
    by_cases hidt : id = t
    · subst hidt
      rw [SF4b, hd]
      rfl
    · rw [SF4a id hid hidt]
  · intro id hid hcond
    have hne_t : ¬ (id = t) := by
      intro hEq
      exact hcond (b + 1) e1 (by omega) hb1 (by rw [hlast1, hEq])
    rw [S.exact_pres id (by rw [hfmni]; omega) ?_, SF4a id hid hne_t]
    intro j e2 hj hb2
    rw [SF1 j (by omega)] at hb2
    exact hcond j e2 (by omega) hb2
  · intro j e2 hj hb2 hcond
    by_cases hj1 : j = b + 1
    · subst hj1
      rw [hb1] at hb2
      injection hb2 with hE
      subst hE
      exact absurd hdret (hcond t d hlast1 hd)
    · refine S.untouched j e2 (by omega) (by rw [SF1 j (by omega)]; exact hb2) ?_
      intro x d' hlast hd'
      have hmem := mem_of_getLast_some _ _ hlast
      have hx : x < f.next_inst := hids j e2 (by omega) hb2 x hmem
      have hxt : ¬ (x = t) := by
        intro hEq
        exact hdist j (b + 1) e2 e1 x (by omega) (by omega) hj1 hb2 hb1 hmem
          (by rw [hlast1, hEq])
      rw [SF4a x hx hxt] at hd'
      exact hcond x d' hlast hd'
  · intro j e2 init' t' d' hj hb2 hinsts hd' hret'
    by_cases hj1 : j = b + 1
    · subst hj1
      rw [hb1] at hb2
      injection hb2 with hE
      subst hE
      obtain ⟨hinit, hteq⟩ := concat_inj_of_eq init' init t' t (by rw [← hinsts, ← hi1])
      subst hinit
      subst hteq
      rw [hd] at hd'
      injection hd' with hdE
      subst hdE
      refine ⟨f.next_value, f.next_inst, Nat.le_refl _, Nat.le_refl _, ?_, ?_, ?_, ?_, ?_, ?_, ?_⟩
      · simp only [if_neg hss, List.nil_append, List.append_nil, Nat.add_zero]
        rw [S.low (b + 1) (Nat.le_refl _), SF2]
      · have hcond : ∀ j' e2', b + 1 < j' → fm.blocks[j']? = some e2' →
            e2'.insts.getLast? ≠ some t' := by
          intro j' e2' hj' hb2'
          rw [SF1 j' (by omega)] at hb2'
          exact hdist (b + 1) j' e1 e2' t' (by omega) (by omega) (by omega) hb1 hb2'
            (by rw [hi1]; simp)
        rw [S.exact_pres t' (by rw [hfmni]; omega) hcond, SF4b]
      · intro hcontra
        exact absurd hcontra hss
      · simp only [if_neg hss, Nat.add_zero]
        have hcond : ∀ j' e2', b + 1 < j' → fm.blocks[j']? = some e2' →
            e2'.insts.getLast? ≠ some f.next_inst := by
          intro j' e2' hj' hb2' hlastx
          have hmem := mem_of_getLast_some _ _ hlastx
          rw [SF1 j' (by omega)] at hb2'
          have := hids j' e2' (by omega) hb2' _ hmem
          omega
        rw [S.exact_pres f.next_inst (by rw [hfmni]; omega) hcond, SF4d]
      · intro u hu
        simp only [if_neg hss]
        have hcond : ∀ j' e2', b + 1 < j' → fm.blocks[j']? = some e2' →
            e2'.insts.getLast? ≠ some (f.next_inst + 1 + u) := by
          intro j' e2' hj' hb2' hlastx
          have hmem := mem_of_getLast_some _ _ hlastx
          rw [SF1 j' (by omega)] at hb2'
          have := hids j' e2' (by omega) hb2' _ hmem
          omega
        rw [S.exact_pres (f.next_inst + 1 + u) (by rw [hfmni]; omega) hcond, SF4e u hu]
      · rw [S.loc_pres f.next_value (by rw [hfmnv]; omega), SF5b]
      · intro u r hur
        have hu : u < (callee_saved_registers sf).length :=
          get_some_lt (callee_saved_registers sf) u r hur
        rw [S.loc_pres (f.next_value + 1 + u) (by rw [hfmnv]; omega), SF5c u r hur]
    · have hb2' : fm.blocks[j]? = some e2 := by
        rw [SF1 j (by omega)]
        exact hb2
      have ht' : t' < f.next_inst := hids j e2 (by omega) hb2 t' (by rw [hinsts]; simp)
      have htne : ¬ (t' = t) := by
        intro hEq
        exact hdist j (b + 1) e2 e1 t' (by omega) (by omega) hj1 hb2 hb1
          (by rw [hinsts]; simp) (by rw [hlast1, hEq])
      have hdl : idata_lookup fm.inst_data t' = some d' := by
        rw [SF4a t' ht' htne]
        exact hd'
      obtain ⟨nv', ni', hnv', hni', rest⟩ :=
        S.processed j e2 init' t' d' (by omega) hb2' hinsts hdl hret'
      rw [hfmnv] at hnv'
      rw [hfmni] at hni'
      exact ⟨nv', ni', by omega, by omega, rest⟩

/-! Cursor-step characterization: what next_ebb, goto_last_inst and
epilogues_visit produce on the cursor shapes the loop actually reaches. -/

theorem exists_concat_or_nil {α : Type} : ∀ (l : List α), l = [] ∨ ∃ init t, l = init ++ [t]
  | [] => Or.inl rfl
  | x :: xs => Or.inr (by
      rcases exists_concat_or_nil xs with h | ⟨init, t, h⟩
      · exact ⟨[], x, by rw [h]; rfl⟩
      · exact ⟨x :: init, t, by rw [h]; rfl⟩)

theorem mem_of_getElem_some {α : Type} : ∀ (l : List α) (i : Nat) (x : α),
    l[i]? = some x → x ∈ l
  | [], i, x, h => by simp at h
  | y :: ys, 0, x, h => by
      simp only [List.getElem?_cons_zero, Option.some.injEq] at h
      simp [h]
  | y :: ys, i + 1, x, h => by
      simp only [List.getElem?_cons_succ] at h
      exact List.mem_cons_of_mem y (mem_of_getElem_some ys i x h)

theorem next_ebb_shape (f : Function) (p : CursorPosition) (b : Nat)
    (hp : current_ebb p = some b) :
    EncCursor.next_ebb { func := f, pos := p } =
      (if b + 1 < f.blocks.length
       then ((some (b + 1) : Option Nat),
             ({ func := f, pos := CursorPosition.before (b + 1) } : EncCursor))
       else (none, { func := f, pos := CursorPosition.nowhere })) := by
  show (match current_ebb p with
        | some bb =>
            if bb + 1 < f.blocks.length
            then ((some (bb + 1) : Option Nat),
                  ({ func := f, pos := CursorPosition.before (bb + 1) } : EncCursor))
            else (none, { func := f, pos := CursorPosition.nowhere })
        | none =>
            if f.blocks.length = 0
            then ((none : Option Nat), ({ func := f, pos := CursorPosition.nowhere } : EncCursor))
            else (some 0, { func := f, pos := CursorPosition.before 0 })) = _
  rw [hp]

theorem goto_last_inst_concat (f : Function) (p : CursorPosition) (eb : Nat) (e : Ebb)
    (init : List Nat) (t : Nat)
    (hb : f.blocks[eb]? = some e) (hi : e.insts = init ++ [t]) :
    EncCursor.goto_last_inst { func := f, pos := p } eb =
      { func := f, pos := CursorPosition.at_inst eb init.length } := by
  show (match f.blocks[eb]? with
        | some e2 =>
            if e2.insts.isEmpty then ({ func := f, pos := CursorPosition.after eb } : EncCursor)
            else { func := f, pos := CursorPosition.at_inst eb (e2.insts.length - 1) }
        | none => { func := f, pos := p }) =
      { func := f, pos := CursorPosition.at_inst eb init.length }
  rw [hb]
  show (if e.insts.isEmpty then ({ func := f, pos := CursorPosition.after eb } : EncCursor)
        else { func := f, pos := CursorPosition.at_inst eb (e.insts.length - 1) }) =
      { func := f, pos := CursorPosition.at_inst eb init.length }
  rw [hi, if_neg (by simp)]
  simp

theorem goto_last_inst_nil (f : Function) (p : CursorPosition) (eb : Nat) (e : Ebb)
    (hb : f.blocks[eb]? = some e) (hi : e.insts = []) :
    EncCursor.goto_last_inst { func := f, pos := p } eb =
      { func := f, pos := CursorPosition.after eb } := by
  show (match f.blocks[eb]? with
        | some e2 =>
            if e2.insts.isEmpty then ({ func := f, pos := CursorPosition.after eb } : EncCursor)
            else { func := f, pos := CursorPosition.at_inst eb (e2.insts.length - 1) }
        | none => { func := f, pos := p }) =
      { func := f, pos := CursorPosition.after eb }
  rw [hb]
  show (if e.insts.isEmpty then ({ func := f, pos := CursorPosition.after eb } : EncCursor)
        else { func := f, pos := CursorPosition.at_inst eb (e.insts.length - 1) }) =
      { func := f, pos := CursorPosition.after eb }
  rw [hi]
  rfl

theorem at_first_insertion_point_cons (f : Function) (p : CursorPosition) (eb : Nat)
    (e : Ebb) (hbe : f.blocks[eb]? = some e) (hne : e.insts.isEmpty = false) :
    EncCursor.at_first_insertion_point { func := f, pos := p } eb =
      { func := f, pos := CursorPosition.at_inst eb 0 } := by
  show (match f.blocks[eb]? with
        | some e2 =>
            if e2.insts.isEmpty then ({ func := f, pos := CursorPosition.after eb } : EncCursor)
            else { func := f, pos := CursorPosition.at_inst eb 0 }
        | none => { func := f, pos := p }) =
      { func := f, pos := CursorPosition.at_inst eb 0 }
  rw [hbe]
  show (if e.insts.isEmpty then ({ func := f, pos := CursorPosition.after eb } : EncCursor)
        else { func := f, pos := CursorPosition.at_inst eb 0 }) =
      { func := f, pos := CursorPosition.at_inst eb 0 }
  rw [if_neg (by simp [hne])]

theorem current_inst_concat (f : Function) (eb : Nat) (e : Ebb) (init : List Nat) (t : Nat)
    (hb : f.blocks[eb]? = some e) (hi : e.insts = init ++ [t]) :
    EncCursor.current_inst { func := f, pos := CursorPosition.at_inst eb init.length } =
      some t := by
  show (match f.blocks[eb]? with
        | some e2 => e2.insts[init.length]?
        | none => none) = some t
  rw [hb]
  show e.insts[init.length]? = some t
  rw [hi]
  exact get_concat_length init t []

theorem epilogues_visit_nil (sf : Flags) (ss : Int) (ty : Ty) (f : Function)
    (p : CursorPosition) (eb : Nat) (e : Ebb)
    (hb : f.blocks[eb]? = some e) (hi : e.insts = []) :
    epilogues_visit sf ss ty eb { func := f, pos := p } =
      { func := f, pos := CursorPosition.after eb } := by
  unfold epilogues_visit
  rw [goto_last_inst_nil f p eb e hb hi]
  rfl

theorem epilogues_visit_none (sf : Flags) (ss : Int) (ty : Ty) (f : Function)
    (p : CursorPosition) (eb : Nat) (e : Ebb) (init : List Nat) (t : Nat)
    (hb : f.blocks[eb]? = some e) (hi : e.insts = init ++ [t])
    (hfind : idata_lookup f.inst_data t = none) :
    epilogues_visit sf ss ty eb { func := f, pos := p } =
      { func := f, pos := CursorPosition.at_inst eb init.length } := by
  unfold epilogues_visit
  rw [goto_last_inst_concat f p eb e init t hb hi]
  show (match EncCursor.current_inst
          { func := f, pos := CursorPosition.at_inst eb init.length } with
        | some inst =>
            (match Function.find_inst f inst with
             | some d2 =>
                 if d2.op.is_ret
                 then insert_epilogue sf inst ss
                   { func := f, pos := CursorPosition.at_inst eb init.length } ty
                 else { func := f, pos := CursorPosition.at_inst eb init.length }
             | none => { func := f, pos := CursorPosition.at_inst eb init.length })
        | none => { func := f, pos := CursorPosition.at_inst eb init.length }) = _
  rw [current_inst_concat f eb e init t hb hi]
  show (match Function.find_inst f t with
        | some d2 =>
            if d2.op.is_ret
            then insert_epilogue sf t ss
              { func := f, pos := CursorPosition.at_inst eb init.length } ty
            else { func := f, pos := CursorPosition.at_inst eb init.length }
        | none => { func := f, pos := CursorPosition.at_inst eb init.length }) = _
  rw [show Function.find_inst f t = none from hfind]

theorem epilogues_visit_noret (sf : Flags) (ss : Int) (ty : Ty) (f : Function)
    (p : CursorPosition) (eb : Nat) (e : Ebb) (init : List Nat) (t : Nat) (d : InstData)
    (hb : f.blocks[eb]? = some e) (hi : e.insts = init ++ [t])
    (hfind : idata_lookup f.inst_data t = some d) (hd : d.op.is_ret = false) :
    epilogues_visit sf ss ty eb { func := f, pos := p } =
      { func := f, pos := CursorPosition.at_inst eb init.length } := by
  unfold epilogues_visit
  rw [goto_last_inst_concat f p eb e init t hb hi]
  show (match EncCursor.current_inst
          { func := f, pos := CursorPosition.at_inst eb init.length } with
        | some inst =>
            (match Function.find_inst f inst with
             | some d2 =>
                 if d2.op.is_ret
                 then insert_epilogue sf inst ss
                   { func := f, pos := CursorPosition.at_inst eb init.length } ty
                 else { func := f, pos := CursorPosition.at_inst eb init.length }
             | none => { func := f, pos := CursorPosition.at_inst eb init.length })
        | none => { func := f, pos := CursorPosition.at_inst eb init.length }) = _
  rw [current_inst_concat f eb e init t hb hi]
  show (match Function.find_inst f t with
        | some d2 =>
            if d2.op.is_ret
            then insert_epilogue sf t ss
              { func := f, pos := CursorPosition.at_inst eb init.length } ty
            else { func := f, pos := CursorPosition.at_inst eb init.length }
        | none => { func := f, pos := CursorPosition.at_inst eb init.length }) = _
  rw [show Function.find_inst f t = some d from hfind]
  show (if d.op.is_ret
        then insert_epilogue sf t ss
          { func := f, pos := CursorPosition.at_inst eb init.length } ty
        else { func := f, pos := CursorPosition.at_inst eb init.length }) = _
  rw [if_neg (by simp [hd])]

theorem epilogues_visit_ret (sf : Flags) (ss : Int) (ty : Ty) (f : Function)
    (p : CursorPosition) (eb : Nat) (e : Ebb) (init : List Nat) (t : Nat) (d : InstData)
    (hb : f.blocks[eb]? = some e) (hi : e.insts = init ++ [t])
    (hfind : idata_lookup f.inst_data t = some d) (hd : d.op.is_ret = true) :
    epilogues_visit sf ss ty eb { func := f, pos := p } =
      insert_epilogue sf t ss
        { func := f, pos := CursorPosition.at_inst eb init.length } ty := by
  unfold epilogues_visit
  rw [goto_last_inst_concat f p eb e init t hb hi]
  show (match EncCursor.current_inst
          { func := f, pos := CursorPosition.at_inst eb init.length } with
        | some inst =>
            (match Function.find_inst f inst with
             | some d2 =>
                 if d2.op.is_ret
                 then insert_epilogue sf inst ss
                   { func := f, pos := CursorPosition.at_inst eb init.length } ty
                 else { func := f, pos := CursorPosition.at_inst eb init.length }
             | none => { func := f, pos := CursorPosition.at_inst eb init.length })
        | none => { func := f, pos := CursorPosition.at_inst eb init.length }) = _
  rw [current_inst_concat f eb e init t hb hi]
  show (match Function.find_inst f t with
        | some d2 =>
            if d2.op.is_ret
            then insert_epilogue sf t ss
              { func := f, pos := CursorPosition.at_inst eb init.length } ty
            else { func := f, pos := CursorPosition.at_inst eb init.length }
        | none => { func := f, pos := CursorPosition.at_inst eb init.length }) = _
  rw [show Function.find_inst f t = some d from hfind]
  show (if d.op.is_ret
        then insert_epilogue sf t ss
          { func := f, pos := CursorPosition.at_inst eb init.length } ty
        else { func := f, pos := CursorPosition.at_inst eb init.length }) = _
  rw [if_pos hd]

/-! Transfer of the loop invariant side conditions across one epilogue step. -/

theorem len_transfer {α : Type} (l : List α) (i : Nat) (g : α → α) (m : Nat)
    (h : l.length ≤ m) : (modifyAt l i g).length ≤ m := by
  rw [modifyAt_length]
  exact h

theorem ids_transfer (f : Function) (c : Nat) (E : Ebb) (ni : Nat)
    (hni : f.next_inst ≤ ni)
    (hids : ∀ j e2, c < j → f.blocks[j]? = some e2 → ∀ id ∈ e2.insts, id < f.next_inst) :
    ∀ j e2, c < j → (modifyAt f.blocks c (fun _ => E))[j]? = some e2 →
      ∀ id ∈ e2.insts, id < ni := by
  intro j e2 hj hb2 id hmem
  rw [modifyAt_get_ne f.blocks c j _ (by omega)] at hb2
  exact Nat.lt_of_lt_of_le (hids j e2 hj hb2 id hmem) hni

theorem dist_transfer (f : Function) (c : Nat) (E : Ebb)
    (hdist : ∀ j j' e2 e2' x, c < j → c < j' → j ≠ j' → f.blocks[j]? = some e2 →
      f.blocks[j']? = some e2' → x ∈ e2.insts → e2'.insts.getLast? ≠ some x) :
    ∀ j j' e2 e2' x, c < j → c < j' → j ≠ j' →
      (modifyAt f.blocks c (fun _ => E))[j]? = some e2 →
      (modifyAt f.blocks c (fun _ => E))[j']? = some e2' →
      x ∈ e2.insts → e2'.insts.getLast? ≠ some x := by
  intro j j' e2 e2' x hj hj' hnej hb2 hb2'
  rw [modifyAt_get_ne f.blocks c j _ (by omega)] at hb2
  rw [modifyAt_get_ne f.blocks c j' _ (by omega)] at hb2'
  exact hdist j j' e2 e2' x hj hj' hnej hb2 hb2'

/-- The epilogue loop, started anywhere inside block b with enough fuel to
reach the layout end, establishes the loop invariant between the function it
started from and the function it finishes with. -/
theorem epi_loop_spec (sf : Flags) (ss : Int) (ty : Ty) :
    ∀ (fuel b : Nat) (f : Function) (p : CursorPosition),
    current_ebb p = some b →
    f.blocks.length ≤ b + 1 + fuel →
    (∀ j e2, b < j → f.blocks[j]? = some e2 → ∀ id ∈ e2.insts, id < f.next_inst) →
    (∀ j j' e2 e2' x, b < j → b < j' → j ≠ j' → f.blocks[j]? = some e2 →
      f.blocks[j']? = some e2' → x ∈ e2.insts → e2'.insts.getLast? ≠ some x) →
    EpiLoopSpec sf ss ty b f
      (insert_epilogues_go sf ss ty fuel { func := f, pos := p }).func
  | 0, b, f, p, hp, hlen, hids, hdist => EpiLoopSpec_id sf ss ty b f (by omega)
  | fuel + 1, b, f, p, hp, hlen, hids, hdist => by
    have hne := next_ebb_shape f p b hp
    by_cases hlt : b + 1 < f.blocks.length
    · have hgo : insert_epilogues_go sf ss ty (fuel + 1) { func := f, pos := p } =
          insert_epilogues_go sf ss ty fuel
            (epilogues_visit sf ss ty (b + 1)
              { func := f, pos := CursorPosition.before (b + 1) }) := by
        simp only [insert_epilogues_go]
        rw [hne, if_pos hlt]
      obtain ⟨e1, hb1⟩ : ∃ e, f.blocks[b + 1]? = some e :=
        ⟨f.blocks[b + 1], List.getElem?_eq_getElem hlt⟩
      have hids1 : ∀ j e2, b + 1 < j → f.blocks[j]? = some e2 →
          ∀ id ∈ e2.insts, id < f.next_inst :=
        fun j e2 hj => hids j e2 (by omega)
      have hdist1 : ∀ j j' e2 e2' x, b + 1 < j → b + 1 < j' → j ≠ j' →
          f.blocks[j]? = some e2 → f.blocks[j']? = some e2' →
          x ∈ e2.insts → e2'.insts.getLast? ≠ some x :=
        fun j j' e2 e2' x hj hj' => hdist j j' e2 e2' x (by omega) (by omega)
      rcases exists_concat_or_nil e1.insts with he | ⟨init, t, he⟩
      · rw [hgo, epilogues_visit_nil sf ss ty f (CursorPosition.before (b + 1)) (b + 1) e1
          hb1 he]
        refine epi_spec_lift_skip sf ss ty b f _ e1 hb1 ?_ ?_
        · intro init' t' dd hinsts hdd
          rw [he] at hinsts
          exact absurd hinsts.symm (ne_of_append_singleton_nil init' t')
        · exact epi_loop_spec sf ss ty fuel (b + 1) f (CursorPosition.after (b + 1)) rfl
            (by omega) hids1 hdist1
      · have ht : t < f.next_inst := hids (b + 1) e1 (by omega) hb1 t (by rw [he]; simp)
        cases hfind : idata_lookup f.inst_data t with
        | none =>
          rw [hgo, epilogues_visit_none sf ss ty f (CursorPosition.before (b + 1)) (b + 1)
            e1 init t hb1 he hfind]
          refine epi_spec_lift_skip sf ss ty b f _ e1 hb1 ?_ ?_
          · intro init' t' dd hinsts hdd
            obtain ⟨hi', ht'⟩ := concat_inj_of_eq init' init t' t (by rw [← hinsts, ← he])
            rw [ht', hfind] at hdd
            exact absurd hdd (by simp)
          · exact epi_loop_spec sf ss ty fuel (b + 1) f
              (CursorPosition.at_inst (b + 1) init.length) rfl (by omega) hids1 hdist1
        | some d =>
          cases hret : d.op.is_ret with
          | false =>
            rw [hgo, epilogues_visit_noret sf ss ty f (CursorPosition.before (b + 1)) (b + 1)
              e1 init t d hb1 he hfind hret]
            refine epi_spec_lift_skip sf ss ty b f _ e1 hb1 ?_ ?_
            · intro init' t' dd hinsts hdd
              obtain ⟨hi', ht'⟩ := concat_inj_of_eq init' init t' t (by rw [← hinsts, ← he])
              rw [ht', hfind] at hdd
              injection hdd with hdd
              intro hEq
              rw [hdd, hEq] at hret
              simp [Op.is_ret] at hret
            · exact epi_loop_spec sf ss ty fuel (b + 1) f
                (CursorPosition.at_inst (b + 1) init.length) rfl (by omega) hids1 hdist1
          | true =>
            have hdret : d.op = Op.ret := (is_ret_iff d.op).mp hret
            by_cases hss : 0 < ss
            · rw [hgo, epilogues_visit_ret sf ss ty f (CursorPosition.before (b + 1)) (b + 1)
                e1 init t d hb1 he hfind hret,
                insert_epilogue_spec_pos sf ty ss t f (b + 1) e1 init hss hb1 he ht]
              refine epi_spec_lift_step_pos sf ss ty b f _ _ e1 init t d hss hb1 he hfind
                hdret hids hdist rfl ?_
              refine epi_loop_spec sf ss ty fuel (b + 1) _
                (CursorPosition.at_inst (b + 1) (init.length + 1)) rfl ?_ ?_ ?_
              · exact len_transfer f.blocks (b + 1) _ _ (by omega)
              · exact ids_transfer f (b + 1) _ _ (Nat.le_add_right _ _) hids1
              · exact dist_transfer f (b + 1) _ hdist1
            · rw [hgo, epilogues_visit_ret sf ss ty f (CursorPosition.before (b + 1)) (b + 1)
                e1 init t d hb1 he hfind hret,
                insert_epilogue_spec_nonpos sf ty ss t f (b + 1) e1 init hss hb1 he ht]
              refine epi_spec_lift_step_nonpos sf ss ty b f _ _ e1 init t d hss hb1 he hfind
                hdret hids hdist rfl ?_
              refine epi_loop_spec sf ss ty fuel (b + 1) _
                (CursorPosition.at_inst (b + 1) init.length) rfl ?_ ?_ ?_
              · exact len_transfer f.blocks (b + 1) _ _ (by omega)
              · exact ids_transfer f (b + 1) _ _ (Nat.le_add_right _ _) hids1
              · exact dist_transfer f (b + 1) _ hdist1
    · have hgo : insert_epilogues_go sf ss ty (fuel + 1) { func := f, pos := p } =
          { func := f, pos := CursorPosition.nowhere } := by
        simp only [insert_epilogues_go]
        rw [hne, if_neg hlt]
      rw [hgo]
      exact EpiLoopSpec_id sf ss ty b f (by omega)

/-- What one successful prologue-plus-epilogues pass guarantees, relating the
function h it started from (after the shadow slot and signature extension) to
the function g it finished with. -/
structure FrameSpec (sf : Flags) (lss : Int) (ct : Ty) (e0 : Ebb) (h g : Function) : Prop where
  slots : g.stack_slots = h.stack_slots
  sigp : g.sig_params = h.sig_params
  sigr : g.sig_returns = h.sig_returns
  nblocks : g.blocks.length = h.blocks.length
  entry : g.blocks[0]? = some
    { params := e0.params ++ seqFrom h.next_value ((callee_saved_registers sf).length + 1),
      insts := h.next_inst :: (h.next_inst + 1) ::
        ((if 0 < lss then [h.next_inst + 2] else []) ++
         (seqFrom (h.next_inst + (if 0 < lss then 3 else 2))
            (callee_saved_registers sf).length ++ e0.insts)) }
  push_fp : idata_lookup g.inst_data h.next_inst = some (push_data h.next_value)
  copy_sp : idata_lookup g.inst_data (h.next_inst + 1) =
    some (copy_special_data RU.rsp RU.rbp)
  adjust_dec : 0 < lss → idata_lookup g.inst_data (h.next_inst + 2) =
    some (adjust_sp_data (-lss))
  push_csr : ∀ u, u < (callee_saved_registers sf).length →
    idata_lookup g.inst_data (h.next_inst + (if 0 < lss then 3 else 2) + u) =
      some (push_data (h.next_value + 1 + u))
  loc_fp : loc_lookup g.locations h.next_value = some (ValueLoc.reg RU.rbp)
  loc_csr : ∀ u r, (callee_saved_registers sf)[u]? = some r →
    loc_lookup g.locations (h.next_value + 1 + u) = some (ValueLoc.reg r)
  loc_pres : ∀ v, v < h.next_value → loc_lookup g.locations v = loc_lookup h.locations v
  op_pres : ∀ id, id < h.next_inst →
    (idata_lookup g.inst_data id).map InstData.op =
      (idata_lookup h.inst_data id).map InstData.op
  exact_pres : ∀ id, id < h.next_inst →
    (∀ j e2, 0 < j → h.blocks[j]? = some e2 → e2.insts.getLast? ≠ some id) →
    idata_lookup g.inst_data id = idata_lookup h.inst_data id
  untouched : ∀ j e2, 0 < j → h.blocks[j]? = some e2 →
    (∀ x d, e2.insts.getLast? = some x → idata_lookup h.inst_data x = some d →
      d.op ≠ Op.ret) →
    g.blocks[j]? = some e2
  processed : ∀ j e2 init t d, 0 < j → h.blocks[j]? = some e2 → e2.insts = init ++ [t] →
    idata_lookup h.inst_data t = some d → d.op = Op.ret →
    ∃ nv ni, h.next_value ≤ nv ∧ h.next_inst ≤ ni ∧
      g.blocks[j]? = some { params := e2.params, insts :=
        init ++ (if 0 < lss then [ni] else []) ++
        (seqFrom (ni + (if 0 < lss then 2 else 1))
          (callee_saved_registers sf).length).reverse ++
        [ni + (if 0 < lss then 1 else 0), t] } ∧
      idata_lookup g.inst_data t =
        some { d with args := d.args ++ seqFrom nv ((callee_saved_registers sf).length + 1) } ∧
      (0 < lss → idata_lookup g.inst_data ni = some (adjust_sp_data lss)) ∧
      idata_lookup g.inst_data (ni + (if 0 < lss then 1 else 0)) = some (pop_data ct nv) ∧
      (∀ u, u < (callee_saved_registers sf).length →
        idata_lookup g.inst_data (ni + (if 0 < lss then 2 else 1) + u) =
          some (pop_data ct (nv + 1 + u))) ∧
      loc_lookup g.locations nv = some (ValueLoc.reg RU.rbp) ∧
      (∀ u r, (callee_saved_registers sf)[u]? = some r →
        loc_lookup g.locations (nv + 1 + u) = some (ValueLoc.reg r))

/-- A frame pass started at the top of a nonempty entry block satisfies
FrameSpec between its input and its output. -/
theorem frame_spec_of (sf : Flags) (lss : Int) (ct : Ty) (h g : Function) (e0 : Ebb)
    (hb0 : h.blocks[0]? = some e0)
    (hids : ∀ j e2, 0 < j → h.blocks[j]? = some e2 → ∀ id ∈ e2.insts, id < h.next_inst)
    (hdist : ∀ j j' e2 e2' x, 0 < j → 0 < j' → j ≠ j' → h.blocks[j]? = some e2 →
      h.blocks[j']? = some e2' → x ∈ e2.insts → e2'.insts.getLast? ≠ some x)
    (hg : g = (insert_epilogues sf
      (insert_prologue sf { func := h, pos := CursorPosition.at_inst 0 0 } lss ct)
      lss ct).func) :
    FrameSpec sf lss ct e0 h g := by
  subst hg
  by_cases hss : 0 < lss
  · rw [insert_prologue_spec_pos sf ct lss h 0 e0 hss hb0]
    simp only [insert_epilogues, modifyAt_length]
    set FP : Function := { h with
      blocks := modifyAt h.blocks 0 (fun _ =>
        { params := e0.params ++ seqFrom h.next_value ((callee_saved_registers sf).length + 1),
          insts := h.next_inst :: (h.next_inst + 1) :: (h.next_inst + 2) ::
            (seqFrom (h.next_inst + 3) (callee_saved_registers sf).length ++ e0.insts) }),
      inst_data := (csr_push_data (h.next_value + 1) (h.next_inst + 3)
          (callee_saved_registers sf)).reverse ++
        (h.next_inst + 2, adjust_sp_data (-lss)) ::
        (h.next_inst + 1, copy_special_data RU.rsp RU.rbp) ::
        (h.next_inst, push_data h.next_value) :: h.inst_data,
      locations := (csr_locs (h.next_value + 1) (callee_saved_registers sf)).reverse ++
        (h.next_value, ValueLoc.reg RU.rbp) :: h.locations,
      next_value := h.next_value + ((callee_saved_registers sf).length + 1),
      next_inst := h.next_inst + ((callee_saved_registers sf).length + 3) } with hFP
    have hFPb : FP.blocks = modifyAt h.blocks 0 (fun _ =>
        { params := e0.params ++ seqFrom h.next_value ((callee_saved_registers sf).length + 1),
          insts := h.next_inst :: (h.next_inst + 1) :: (h.next_inst + 2) ::
            (seqFrom (h.next_inst + 3) (callee_saved_registers sf).length ++ e0.insts) }) := by
      rw [hFP]
    have hFPi : FP.inst_data = (csr_push_data (h.next_value + 1) (h.next_inst + 3)
        (callee_saved_registers sf)).reverse ++
        (h.next_inst + 2, adjust_sp_data (-lss)) ::
        (h.next_inst + 1, copy_special_data RU.rsp RU.rbp) ::
        (h.next_inst, push_data h.next_value) :: h.inst_data := by rw [hFP]
    have hFPl : FP.locations = (csr_locs (h.next_value + 1)
        (callee_saved_registers sf)).reverse ++
        (h.next_value, ValueLoc.reg RU.rbp) :: h.locations := by rw [hFP]
    have hFPnv : FP.next_value = h.next_value + ((callee_saved_registers sf).length + 1) := by
      rw [hFP]
    have hFPni : FP.next_inst = h.next_inst + ((callee_saved_registers sf).length + 3) := by
      rw [hFP]
    have hFPs : FP.stack_slots = h.stack_slots := by rw [hFP]
    have hFPsp : FP.sig_params = h.sig_params := by rw [hFP]
    have hFPsr : FP.sig_returns = h.sig_returns := by rw [hFP]
    have PF1 : ∀ j : Nat, 0 < j → FP.blocks[j]? = h.blocks[j]? := by
      intro j hj
      rw [hFPb]
      exact modifyAt_get_ne h.blocks 0 j _ (by omega)
    have PF2 : FP.blocks[0]? = some
        { params := e0.params ++ seqFrom h.next_value ((callee_saved_registers sf).length + 1),
          insts := h.next_inst :: (h.next_inst + 1) :: (h.next_inst + 2) ::
            (seqFrom (h.next_inst + 3) (callee_saved_registers sf).length ++ e0.insts) } := by
      rw [hFPb]
      exact modifyAt_get_self h.blocks 0 _ e0 hb0
    have PFskip : ∀ id : Nat, id < h.next_inst →
        idata_lookup FP.inst_data id = idata_lookup h.inst_data id := by
      intro id hid
      rw [hFPi, idata_lookup_csr_push_rev_skip (h.next_value + 1) (h.next_inst + 3)
        (callee_saved_registers sf) _ id (by omega)]
      rw [idata_lookup_cons, if_neg (by omega), idata_lookup_cons, if_neg (by omega),
        idata_lookup_cons, if_neg (by omega)]
    have PFpush : idata_lookup FP.inst_data h.next_inst = some (push_data h.next_value) := by
      rw [hFPi, idata_lookup_csr_push_rev_skip (h.next_value + 1) (h.next_inst + 3)
        (callee_saved_registers sf) _ h.next_inst (by omega)]
      rw [idata_lookup_cons, if_neg (by omega), idata_lookup_cons, if_neg (by omega),
        idata_lookup_cons, if_pos rfl]
    have PFcopy : idata_lookup FP.inst_data (h.next_inst + 1) =
        some (copy_special_data RU.rsp RU.rbp) := by
      rw [hFPi, idata_lookup_csr_push_rev_skip (h.next_value + 1) (h.next_inst + 3)
        (callee_saved_registers sf) _ (h.next_inst + 1) (by omega)]
      rw [idata_lookup_cons, if_neg (by omega), idata_lookup_cons, if_pos rfl]
    have PFadj : idata_lookup FP.inst_data (h.next_inst + 2) =
        some (adjust_sp_data (-lss)) := by
      rw [hFPi, idata_lookup_csr_push_rev_skip (h.next_value + 1) (h.next_inst + 3)
        (callee_saved_registers sf) _ (h.next_inst + 2) (by omega)]
      rw [idata_lookup_cons, if_pos rfl]
    have PFpushcsr : ∀ u : Nat, u < (callee_saved_registers sf).length →
        idata_lookup FP.inst_data (h.next_inst + 3 + u) =
          some (push_data (h.next_value + 1 + u)) := by
      intro u hu
      rw [hFPi]
      exact idata_lookup_csr_push_rev (h.next_value + 1) (h.next_inst + 3)
        (callee_saved_registers sf) _ u hu
    have PFlocskip : ∀ v : Nat, v < h.next_value →
        loc_lookup FP.locations v = loc_lookup h.locations v := by
      intro v hv
      rw [hFPl, loc_lookup_csr_rev_skip (h.next_value + 1) (callee_saved_registers sf) _ v
        (by omega)]
      rw [loc_lookup_cons, if_neg (by omega)]
    have PFlocfp : loc_lookup FP.locations h.next_value = some (ValueLoc.reg RU.rbp) := by
      rw [hFPl, loc_lookup_csr_rev_skip (h.next_value + 1) (callee_saved_registers sf) _
        h.next_value (by omega)]
      rw [loc_lookup_cons, if_pos rfl]
    have PFloccsr : ∀ (u : Nat) (r : RegUnit), (callee_saved_registers sf)[u]? = some r →
        loc_lookup FP.locations (h.next_value + 1 + u) = some (ValueLoc.reg r) := by
      intro u r hur
      rw [hFPl]
      exact loc_lookup_csr_rev (h.next_value + 1) (callee_saved_registers sf) _ u r hur
    have hnolast : ∀ m : Nat, h.next_inst ≤ m → ∀ j e2, 0 < j → FP.blocks[j]? = some e2 →
        e2.insts.getLast? ≠ some m := by
      intro m hm j e2 hj hb2 hlast
      rw [PF1 j hj] at hb2
      have := hids j e2 hj hb2 m (mem_of_getLast_some _ _ hlast)
      omega
    have S := epi_loop_spec sf lss ct h.blocks.length 0 FP
      (CursorPosition.at_inst 0 (3 + (callee_saved_registers sf).length)) rfl
      (by rw [hFPb, modifyAt_length]; omega)
      (by
        intro j e2 hj hb2 id hm
        rw [PF1 j hj] at hb2
        have := hids j e2 hj hb2 id hm
        rw [hFPni]
        omega)
      (by
        intro j j' e2 e2' x hj hj' hnej hb2 hb2'
        rw [PF1 j hj] at hb2
        rw [PF1 j' hj'] at hb2'
        exact hdist j j' e2 e2' x hj hj' hnej hb2 hb2')
    constructor
    · rw [S.slots, hFPs]
    · rw [S.sigp, hFPsp]
    · rw [S.sigr, hFPsr]
    · rw [S.nblocks, hFPb, modifyAt_length]
    · rw [S.low 0 (Nat.le_refl 0), PF2]
      simp only [if_pos hss, List.singleton_append]
    · rw [S.exact_pres h.next_inst (by rw [hFPni]; omega)
        (hnolast h.next_inst (Nat.le_refl _)), PFpush]
    · rw [S.exact_pres (h.next_inst + 1) (by rw [hFPni]; omega)
        (hnolast _ (by omega)), PFcopy]
    · intro hp
      rw [S.exact_pres (h.next_inst + 2) (by rw [hFPni]; omega)
        (hnolast _ (by omega)), PFadj]
    · intro u hu
      simp only [if_pos hss]
      rw [S.exact_pres (h.next_inst + 3 + u) (by rw [hFPni]; omega)
        (hnolast _ (by omega)), PFpushcsr u hu]
    · rw [S.loc_pres h.next_value (by rw [hFPnv]; omega), PFlocfp]
    · intro u r hur
      have hu := get_some_lt _ u r hur
      rw [S.loc_pres (h.next_value + 1 + u) (by rw [hFPnv]; omega), PFloccsr u r hur]
    · intro v hv
      rw [S.loc_pres v (by rw [hFPnv]; omega), PFlocskip v hv]
    · intro id hid
      rw [S.op_pres id (by rw [hFPni]; omega), PFskip id hid]
    · intro id hid hcond
      have hE := S.exact_pres id (by rw [hFPni]; omega)
        (fun j e2 hj hb2 => hcond j e2 hj (by rw [PF1 j hj] at hb2; exact hb2))
      rw [hE, PFskip id hid]
    · intro j e2 hj hb2 hcond
      refine S.untouched j e2 hj (by rw [PF1 j hj]; exact hb2) ?_
      intro x d hlast hd
      have hx : x < h.next_inst := hids j e2 hj hb2 x (mem_of_getLast_some _ _ hlast)
      rw [PFskip x hx] at hd
      exact hcond x d hlast hd
    · intro j e2 init t d hj hb2 hinsts hd hdret
      have ht : t < h.next_inst := hids j e2 hj hb2 t (by rw [hinsts]; simp)
      obtain ⟨nv, ni, h1, h2, rest⟩ := S.processed j e2 init t d hj
        (by rw [PF1 j hj]; exact hb2) hinsts (by rw [PFskip t ht]; exact hd) hdret
      rw [hFPnv] at h1
      rw [hFPni] at h2
      exact ⟨nv, ni, by omega, by omega, rest⟩
  · rw [insert_prologue_spec_nonpos sf ct lss h 0 e0 hss hb0]
    simp only [insert_epilogues, modifyAt_length]
    set FP : Function := { h with
      blocks := modifyAt h.blocks 0 (fun _ =>
        { params := e0.params ++ seqFrom h.next_value ((callee_saved_registers sf).length + 1),
          insts := h.next_inst :: (h.next_inst + 1) ::
            (seqFrom (h.next_inst + 2) (callee_saved_registers sf).length ++ e0.insts) }),
      inst_data := (csr_push_data (h.next_value + 1) (h.next_inst + 2)
          (callee_saved_registers sf)).reverse ++
        (h.next_inst + 1, copy_special_data RU.rsp RU.rbp) ::
        (h.next_inst, push_data h.next_value) :: h.inst_data,
      locations := (csr_locs (h.next_value + 1) (callee_saved_registers sf)).reverse ++
        (h.next_value, ValueLoc.reg RU.rbp) :: h.locations,
      next_value := h.next_value + ((callee_saved_registers sf).length + 1),
      next_inst := h.next_inst + ((callee_saved_registers sf).length + 2) } with hFP
    have hFPb : FP.blocks = modifyAt h.blocks 0 (fun _ =>
        { params := e0.params ++ seqFrom h.next_value ((callee_saved_registers sf).length + 1),
          insts := h.next_inst :: (h.next_inst + 1) ::
            (seqFrom (h.next_inst + 2) (callee_saved_registers sf).length ++ e0.insts) }) := by
      rw [hFP]
    have hFPi : FP.inst_data = (csr_push_data (h.next_value + 1) (h.next_inst + 2)
        (callee_saved_registers sf)).reverse ++
        (h.next_inst + 1, copy_special_data RU.rsp RU.rbp) ::
        (h.next_inst, push_data h.next_value) :: h.inst_data := by rw [hFP]
    have hFPl : FP.locations = (csr_locs (h.next_value + 1)
        (callee_saved_registers sf)).reverse ++
        (h.next_value, ValueLoc.reg RU.rbp) :: h.locations := by rw [hFP]
    have hFPnv : FP.next_value = h.next_value + ((callee_saved_registers sf).length + 1) := by
      rw [hFP]
    have hFPni : FP.next_inst = h.next_inst + ((callee_saved_registers sf).length + 2) := by
      rw [hFP]
    have hFPs : FP.stack_slots = h.stack_slots := by rw [hFP]
    have hFPsp : FP.sig_params = h.sig_params := by rw [hFP]
    have hFPsr : FP.sig_returns = h.sig_returns := by rw [hFP]
    have PF1 : ∀ j : Nat, 0 < j → FP.blocks[j]? = h.blocks[j]? := by
      intro j hj
      rw [hFPb]
      exact modifyAt_get_ne h.blocks 0 j _ (by omega)
    have PF2 : FP.blocks[0]? = some
        { params := e0.params ++ seqFrom h.next_value ((callee_saved_registers sf).length + 1),
          insts := h.next_inst :: (h.next_inst + 1) ::
            (seqFrom (h.next_inst + 2) (callee_saved_registers sf).length ++ e0.insts) } := by
      rw [hFPb]
      exact modifyAt_get_self h.blocks 0 _ e0 hb0
    have PFskip : ∀ id : Nat, id < h.next_inst →
        idata_lookup FP.inst_data id = idata_lookup h.inst_data id := by
      intro id hid
      rw [hFPi, idata_lookup_csr_push_rev_skip (h.next_value + 1) (h.next_inst + 2)
        (callee_saved_registers sf) _ id (by omega)]
      rw [idata_lookup_cons, if_neg (by omega), idata_lookup_cons, if_neg (by omega)]
    have PFpush : idata_lookup FP.inst_data h.next_inst = some (push_data h.next_value) := by
      rw [hFPi, idata_lookup_csr_push_rev_skip (h.next_value + 1) (h.next_inst + 2)
        (callee_saved_registers sf) _ h.next_inst (by omega)]
      rw [idata_lookup_cons, if_neg (by omega), idata_lookup_cons, if_pos rfl]
    have PFcopy : idata_lookup FP.inst_data (h.next_inst + 1) =
        some (copy_special_data RU.rsp RU.rbp) := by
      rw [hFPi, idata_lookup_csr_push_rev_skip (h.next_value + 1) (h.next_inst + 2)
        (callee_saved_registers sf) _ (h.next_inst + 1) (by omega)]
      rw [idata_lookup_cons, if_pos rfl]
    have PFpushcsr : ∀ u : Nat, u < (callee_saved_registers sf).length →
        idata_lookup FP.inst_data (h.next_inst + 2 + u) =
          some (push_data (h.next_value + 1 + u)) := by
      intro u hu
      rw [hFPi]
      exact idata_lookup_csr_push_rev (h.next_value + 1) (h.next_inst + 2)
        (callee_saved_registers sf) _ u hu
    have PFlocskip : ∀ v : Nat, v < h.next_value →
        loc_lookup FP.locations v = loc_lookup h.locations v := by
      intro v hv
      rw [hFPl, loc_lookup_csr_rev_skip (h.next_value + 1) (callee_saved_registers sf) _ v
        (by omega)]
      rw [loc_lookup_cons, if_neg (by omega)]
    have PFlocfp : loc_lookup FP.locations h.next_value = some (ValueLoc.reg RU.rbp) := by
      rw [hFPl, loc_lookup_csr_rev_skip (h.next_value + 1) (callee_saved_registers sf) _
        h.next_value (by omega)]
      rw [loc_lookup_cons, if_pos rfl]
    have PFloccsr : ∀ (u : Nat) (r : RegUnit), (callee_saved_registers sf)[u]? = some r →
        loc_lookup FP.locations (h.next_value + 1 + u) = some (ValueLoc.reg r) := by
      intro u r hur
      rw [hFPl]
      exact loc_lookup_csr_rev (h.next_value + 1) (callee_saved_registers sf) _ u r hur
    have hnolast : ∀ m : Nat, h.next_inst ≤ m → ∀ j e2, 0 < j → FP.blocks[j]? = some e2 →
        e2.insts.getLast? ≠ some m := by
      intro m hm j e2 hj hb2 hlast
      rw [PF1 j hj] at hb2
      have := hids j e2 hj hb2 m (mem_of_getLast_some _ _ hlast)
      omega
    have S := epi_loop_spec sf lss ct h.blocks.length 0 FP
      (CursorPosition.at_inst 0 (2 + (callee_saved_registers sf).length)) rfl
      (by rw [hFPb, modifyAt_length]; omega)
      (by
        intro j e2 hj hb2 id hm
        rw [PF1 j hj] at hb2
        have := hids j e2 hj hb2 id hm
        rw [hFPni]
        omega)
      (by
        intro j j' e2 e2' x hj hj' hnej hb2 hb2'
        rw [PF1 j hj] at hb2
        rw [PF1 j' hj'] at hb2'
        exact hdist j j' e2 e2' x hj hj' hnej hb2 hb2')
    constructor
    · rw [S.slots, hFPs]
    · rw [S.sigp, hFPsp]
    · rw [S.sigr, hFPsr]
    · rw [S.nblocks, hFPb, modifyAt_length]
    · rw [S.low 0 (Nat.le_refl 0), PF2]
      simp only [if_neg hss, List.nil_append]
    · rw [S.exact_pres h.next_inst (by rw [hFPni]; omega)
        (hnolast h.next_inst (Nat.le_refl _)), PFpush]
    · rw [S.exact_pres (h.next_inst + 1) (by rw [hFPni]; omega)
        (hnolast _ (by omega)), PFcopy]
    · intro hp
      exact absurd hp hss
    · intro u hu
      simp only [if_neg hss]
      rw [S.exact_pres (h.next_inst + 2 + u) (by rw [hFPni]; omega)
        (hnolast _ (by omega)), PFpushcsr u hu]
    · rw [S.loc_pres h.next_value (by rw [hFPnv]; omega), PFlocfp]
    · intro u r hur
      have hu := get_some_lt _ u r hur
      rw [S.loc_pres (h.next_value + 1 + u) (by rw [hFPnv]; omega), PFloccsr u r hur]
    · intro v hv
      rw [S.loc_pres v (by rw [hFPnv]; omega), PFlocskip v hv]
    · intro id hid
      rw [S.op_pres id (by rw [hFPni]; omega), PFskip id hid]
    · intro id hid hcond
      have hE := S.exact_pres id (by rw [hFPni]; omega)
        (fun j e2 hj hb2 => hcond j e2 hj (by rw [PF1 j hj] at hb2; exact hb2))
      rw [hE, PFskip id hid]
    · intro j e2 hj hb2 hcond
      refine S.untouched j e2 hj (by rw [PF1 j hj]; exact hb2) ?_
      intro x d hlast hd
      have hx : x < h.next_inst := hids j e2 hj hb2 x (mem_of_getLast_some _ _ hlast)
      rw [PFskip x hx] at hd
      exact hcond x d hlast hd
    · intro j e2 init t d hj hb2 hinsts hd hdret
      have ht : t < h.next_inst := hids j e2 hj hb2 t (by rw [hinsts]; simp)
      obtain ⟨nv, ni, h1, h2, rest⟩ := S.processed j e2 init t d hj
        (by rw [PF1 j hj]; exact hb2) hinsts (by rw [PFskip t ht]; exact hd) hdret
      rw [hFPnv] at h1
      rw [hFPni] at h2
      exact ⟨nv, ni, by omega, by omega, rest⟩

/-- The success path of prologue_epilogue: on a function with a nonempty entry
block and a succeeding stack layout, the result is Ok and the output satisfies
FrameSpec relative to the slot-extended, signature-extended input. -/
theorem prologue_epilogue_ok_spec (sf : Flags)
    (layout_stack : List StackSlotData → Nat → Except Unit Nat) (f : Function)
    (total : Nat) (e0 : Ebb) (bs : List Ebb) (i0 : Nat) (r0 : List Nat)
    (hb : f.blocks = e0 :: bs) (hi0 : e0.insts = i0 :: r0)
    (hok : layout_stack (f.stack_slots ++ [shadow_slot sf]) (word_size_of sf) =
      Except.ok total)
    (hids : ∀ j e2, 0 < j → f.blocks[j]? = some e2 → ∀ id ∈ e2.insts, id < f.next_inst)
    (hdist : ∀ j j' e2 e2' x, 0 < j → 0 < j' → j ≠ j' → f.blocks[j]? = some e2 →
      f.blocks[j']? = some e2' → x ∈ e2.insts → e2'.insts.getLast? ≠ some x) :
    ∃ g, prologue_epilogue sf layout_stack f = FrameResult.ok g ∧
      FrameSpec sf ((total : Int) - ((csr_shadow_size sf : Nat) : Int))
        (if sf.is_64bit then Ty.i64 else Ty.i32) e0
        { f with
          stack_slots := f.stack_slots ++ [shadow_slot sf],
          sig_params := (f.sig_params ++
            [AbiParam.special_reg (if sf.is_64bit then Ty.i64 else Ty.i32)
              ArgumentPurpose.frame_pointer RU.rbp]) ++
            (callee_saved_registers sf).map (fun r =>
              AbiParam.special_reg (if sf.is_64bit then Ty.i64 else Ty.i32)
                ArgumentPurpose.callee_saved r),
          sig_returns := (f.sig_returns ++
            [AbiParam.special_reg (if sf.is_64bit then Ty.i64 else Ty.i32)
              ArgumentPurpose.frame_pointer RU.rbp]) ++
            (callee_saved_registers sf).map (fun r =>
              AbiParam.special_reg (if sf.is_64bit then Ty.i64 else Ty.i32)
                ArgumentPurpose.callee_saved r) } g := by
  have hB : prologue_epilogue sf layout_stack f = FrameResult.ok
      (insert_epilogues sf
        (insert_prologue sf
          { func := { f with
              stack_slots := f.stack_slots ++ [shadow_slot sf],
              sig_params := (f.sig_params ++
                [AbiParam.special_reg (if sf.is_64bit then Ty.i64 else Ty.i32)
                  ArgumentPurpose.frame_pointer RU.rbp]) ++
                (callee_saved_registers sf).map (fun r =>
                  AbiParam.special_reg (if sf.is_64bit then Ty.i64 else Ty.i32)
                    ArgumentPurpose.callee_saved r),
              sig_returns := (f.sig_returns ++
                [AbiParam.special_reg (if sf.is_64bit then Ty.i64 else Ty.i32)
                  ArgumentPurpose.frame_pointer RU.rbp]) ++
                (callee_saved_registers sf).map (fun r =>
                  AbiParam.special_reg (if sf.is_64bit then Ty.i64 else Ty.i32)
                    ArgumentPurpose.callee_saved r) },
            pos := CursorPosition.at_inst 0 0 }
          ((total : Int) - ((csr_shadow_size sf : Nat) : Int))
          (if sf.is_64bit then Ty.i64 else Ty.i32))
        ((total : Int) - ((csr_shadow_size sf : Nat) : Int))
        (if sf.is_64bit then Ty.i64 else Ty.i32)).func := by
    unfold prologue_epilogue
    simp only [Function.create_stack_slot]
    rw [show (shadow_slot sf) =
        { kind := .incoming_arg,
          size := ((callee_saved_registers sf).length + 1) * (if sf.is_64bit then 8 else 4),
          offset := -((((callee_saved_registers sf).length + 1) *
            (if sf.is_64bit then 8 else 4) : Nat) : Int) } from rfl,
      show word_size_of sf = (if sf.is_64bit then 8 else 4) from rfl] at hok
    rw [hok, extend_sig_foldl]
    simp only [Function.entry_block, hb]
    rw [at_first_insertion_point_cons _ _ _ e0]
    · rfl
    · simp
    · rw [hi0]
      rfl
  refine ⟨_, hB, ?_⟩
  refine frame_spec_of sf _ _ _ _ e0 ?_ ?_ ?_ rfl
  · show f.blocks[0]? = some e0
    rw [hb]
    simp
  · exact hids
  · exact hdist

/-! Evaluation lemmas for the push/pop observables over the instruction store. -/

theorem idata_lookup_mem : ∀ (l : List (Nat × InstData)) (id : Nat) (d : InstData),
    idata_lookup l id = some d → (id, d) ∈ l
  | [], id, d, h => by simp [idata_lookup] at h
  | (a, d2) :: rest, id, d, h => by
      rw [idata_lookup_cons] at h
      by_cases hid : a = id
      · rw [if_pos hid] at h
        injection h with h
        subst hid
        subst h
        exact List.mem_cons_self _ _
      · rw [if_neg hid] at h
        exact List.mem_cons_of_mem _ (idata_lookup_mem rest id d h)

theorem push_reg_none (g : Function) (d : InstData) (h : d.op ≠ Op.x86_push) :
    push_reg g d = none := by
  unfold push_reg
  cases hop : d.op <;> first | rfl | exact absurd hop h

theorem pop_reg_none (g : Function) (d : InstData) (h : ∀ ty, d.op ≠ Op.x86_pop ty) :
    pop_reg g d = none := by
  unfold pop_reg
  cases hop : d.op with
  | x86_pop ty => exact absurd hop (h ty)
  | _ => rfl

theorem push_eval (g : Function) (id v : Nat) (r : RegUnit)
    (hf : idata_lookup g.inst_data id = some (push_data v))
    (hl : loc_lookup g.locations v = some (ValueLoc.reg r)) :
    (Function.find_inst g id).bind (push_reg g) = some r := by
  rw [show Function.find_inst g id = idata_lookup g.inst_data id from rfl, hf]
  show push_reg g (push_data v) = some r
  show (match Function.find_loc g v with
        | some (ValueLoc.reg r2) => some r2
        | none => none) = some r
  rw [show Function.find_loc g v = loc_lookup g.locations v from rfl, hl]

theorem pop_eval (g : Function) (ty : Ty) (id v : Nat) (r : RegUnit)
    (hf : idata_lookup g.inst_data id = some (pop_data ty v))
    (hl : loc_lookup g.locations v = some (ValueLoc.reg r)) :
    (Function.find_inst g id).bind (pop_reg g) = some r := by
  rw [show Function.find_inst g id = idata_lookup g.inst_data id from rfl, hf]
  show pop_reg g (pop_data ty v) = some r
  show (match Function.find_loc g v with
        | some (ValueLoc.reg r2) => some r2
        | none => none) = some r
  rw [show Function.find_loc g v = loc_lookup g.locations v from rfl, hl]

theorem old_push_none (h g : Function) (x : Nat)
    (hop : (idata_lookup g.inst_data x).map InstData.op =
      (idata_lookup h.inst_data x).map InstData.op)
    (hcl : ∀ pr ∈ h.inst_data, (pr : Nat × InstData).2.op ≠ Op.x86_push) :
    (Function.find_inst g x).bind (push_reg g) = none := by
  rw [show Function.find_inst g x = idata_lookup g.inst_data x from rfl]
  cases hg : idata_lookup g.inst_data x with
  | none => rfl
  | some d =>
    cases hh : idata_lookup h.inst_data x with
    | none =>
      rw [hg, hh] at hop
      simp at hop
    | some d2 =>
      rw [hg, hh] at hop
      simp at hop
      show push_reg g d = none
      exact push_reg_none g d (by rw [hop]; exact hcl (x, d2) (idata_lookup_mem _ _ _ hh))

theorem old_pop_none (h g : Function) (x : Nat)
    (hop : (idata_lookup g.inst_data x).map InstData.op =
      (idata_lookup h.inst_data x).map InstData.op)
    (hcl : ∀ pr ∈ h.inst_data, ∀ ty, (pr : Nat × InstData).2.op ≠ Op.x86_pop ty) :
    (Function.find_inst g x).bind (pop_reg g) = none := by
  rw [show Function.find_inst g x = idata_lookup g.inst_data x from rfl]
  cases hg : idata_lookup g.inst_data x with
  | none => rfl
  | some d =>
    cases hh : idata_lookup h.inst_data x with
    | none =>
      rw [hg, hh] at hop
      simp at hop
    | some d2 =>
      rw [hg, hh] at hop
      simp at hop
      show pop_reg g d = none
      exact pop_reg_none g d
        (fun ty => by rw [hop]; exact hcl (x, d2) (idata_lookup_mem _ _ _ hh) ty)

theorem filterMap_cons_some2 {α β : Type} (φ : α → Option β) (a : α) (l : List α) (b : β)
    (h : φ a = some b) : (a :: l).filterMap φ = b :: l.filterMap φ := by
  rw [List.filterMap_cons, h]

theorem filterMap_cons_none2 {α β : Type} (φ : α → Option β) (a : α) (l : List α)
    (h : φ a = none) : (a :: l).filterMap φ = l.filterMap φ := by
  rw [List.filterMap_cons, h]

theorem filterMap_none {α β : Type} : ∀ (l : List α) (φ : α → Option β),
    (∀ x ∈ l, φ x = none) → l.filterMap φ = []
  | [], φ, h => rfl
  | x :: xs, φ, h => by
      rw [filterMap_cons_none2 φ x xs (h x (List.mem_cons_self x xs))]
      exact filterMap_none xs φ (fun y hy => h y (List.mem_cons_of_mem x hy))

theorem filterMap_reverse_eq {α β : Type} (φ : α → Option β) :
    ∀ (l : List α), l.reverse.filterMap φ = (l.filterMap φ).reverse
  | [] => rfl
  | x :: xs => by
      rw [List.reverse_cons, List.filterMap_append, filterMap_reverse_eq φ xs]
      cases hfx : φ x with
      | none => simp [List.filterMap_cons, hfx]
      | some b => simp [List.filterMap_cons, hfx]

theorem push_seq_eq (g : Function) (b : Nat) (e : Ebb) (hb : g.blocks[b]? = some e) :
    push_seq g b =
      e.insts.filterMap (fun id => (Function.find_inst g id).bind (push_reg g)) := by
  unfold push_seq block_insts
  rw [hb]
  show (e.insts.filterMap g.find_inst).filterMap (push_reg g) = _
  rw [List.filterMap_filterMap]

theorem pop_seq_eq (g : Function) (b : Nat) (e : Ebb) (hb : g.blocks[b]? = some e) :
    pop_seq g b =
      e.insts.filterMap (fun id => (Function.find_inst g id).bind (pop_reg g)) := by
  unfold pop_seq block_insts
  rw [hb]
  show (e.insts.filterMap g.find_inst).filterMap (pop_reg g) = _
  rw [List.filterMap_filterMap]

theorem filterMap_push_csr (g : Function) : ∀ (rs : List RegUnit) (nv ni : Nat),
    (∀ u, u < rs.length → idata_lookup g.inst_data (ni + u) = some (push_data (nv + u))) →
    (∀ u r, rs[u]? = some r → loc_lookup g.locations (nv + u) = some (ValueLoc.reg r)) →
    (seqFrom ni rs.length).filterMap
      (fun id => (Function.find_inst g id).bind (push_reg g)) = rs
  | [], nv, ni, h1, h2 => rfl
  | r :: rest, nv, ni, h1, h2 => by
      show (seqFrom ni (rest.length + 1)).filterMap _ = r :: rest
      rw [show seqFrom ni (rest.length + 1) = ni :: seqFrom (ni + 1) rest.length from rfl]
      have hf : idata_lookup g.inst_data (ni + 0) = some (push_data (nv + 0)) :=
        h1 0 (by simp)
      rw [Nat.add_zero, Nat.add_zero] at hf
      have hl : loc_lookup g.locations (nv + 0) = some (ValueLoc.reg r) :=
        h2 0 r (by simp)
      rw [Nat.add_zero] at hl
      rw [filterMap_cons_some2 (fun id => (Function.find_inst g id).bind (push_reg g))
        ni (seqFrom (ni + 1) rest.length) r (push_eval g ni nv r hf hl)]
      congr 1
      refine filterMap_push_csr g rest (nv + 1) (ni + 1) ?_ ?_
      · intro u hu
        have := h1 (u + 1) (by simp only [List.length_cons]; omega)
        rw [show ni + (u + 1) = ni + 1 + u from by omega,
          show nv + (u + 1) = nv + 1 + u from by omega] at this
        exact this
      · intro u r2 hur
        have := h2 (u + 1) r2 (by simpa using hur)
        rw [show nv + (u + 1) = nv + 1 + u from by omega] at this
        exact this

theorem filterMap_pop_csr (g : Function) (ty : Ty) : ∀ (rs : List RegUnit) (nv ni : Nat),
    (∀ u, u < rs.length → idata_lookup g.inst_data (ni + u) = some (pop_data ty (nv + u))) →
    (∀ u r, rs[u]? = some r → loc_lookup g.locations (nv + u) = some (ValueLoc.reg r)) →
    (seqFrom ni rs.length).filterMap
      (fun id => (Function.find_inst g id).bind (pop_reg g)) = rs
  | [], nv, ni, h1, h2 => rfl
  | r :: rest, nv, ni, h1, h2 => by
      show (seqFrom ni (rest.length + 1)).filterMap _ = r :: rest
      rw [show seqFrom ni (rest.length + 1) = ni :: seqFrom (ni + 1) rest.length from rfl]
      have hf : idata_lookup g.inst_data (ni + 0) = some (pop_data ty (nv + 0)) :=
        h1 0 (by simp)
      rw [Nat.add_zero, Nat.add_zero] at hf
      have hl : loc_lookup g.locations (nv + 0) = some (ValueLoc.reg r) :=
        h2 0 r (by simp)
      rw [Nat.add_zero] at hl
      rw [filterMap_cons_some2 (fun id => (Function.find_inst g id).bind (pop_reg g))
        ni (seqFrom (ni + 1) rest.length) r (pop_eval g ty ni nv r hf hl)]
      congr 1
      refine filterMap_pop_csr g ty rest (nv + 1) (ni + 1) ?_ ?_
      · intro u hu
        have := h1 (u + 1) (by simp only [List.length_cons]; omega)
        rw [show ni + (u + 1) = ni + 1 + u from by omega,
          show nv + (u + 1) = nv + 1 + u from by omega] at this
        exact this
      · intro u r2 hur
        have := h2 (u + 1) r2 (by simpa using hur)
        rw [show nv + (u + 1) = nv + 1 + u from by omega] at this
        exact this

/-- Audit of stack-pointer adjustments: on an input whose instruction store is
free of them, every adjustment visible in any block of the output is one of the
two synthesized ones, and they exist only when the local frame size is
positive. -/
theorem adjust_ops_bound (sf : Flags) (lss : Int) (ct : Ty) (e0 : Ebb) (h g : Function)
    (hb0 : h.blocks[0]? = some e0)
    (hids : ∀ e ∈ h.blocks, ∀ id ∈ e.insts, id < h.next_inst)
    (hnoadj : ∀ pr ∈ h.inst_data, (pr : Nat × InstData).2.op.is_adjust_sp = false)
    (S : FrameSpec sf lss ct e0 h g) :
    ∀ b d, d ∈ block_insts g b → d.op.is_adjust_sp = true →
      0 < lss ∧ (d.op = Op.adjust_sp_imm lss ∨ d.op = Op.adjust_sp_imm (-lss)) := by
  have hfind : ∀ y, Function.find_inst g y = idata_lookup g.inst_data y := fun _ => rfl
  have hold : ∀ x d2, x < h.next_inst → Function.find_inst g x = some d2 →
      d2.op.is_adjust_sp = false := by
    intro x d2 hx hfx
    have hop := S.op_pres x hx
    rw [hfind x] at hfx
    rw [hfx] at hop
    cases hh : idata_lookup h.inst_data x with
    | none =>
      rw [hh] at hop
      simp at hop
    | some d3 =>
      rw [hh] at hop
      simp at hop
      rw [hop]
      exact hnoadj (x, d3) (idata_lookup_mem _ _ _ hh)
  intro b d hd hadj
  unfold block_insts at hd
  cases hgb : g.blocks[b]? with
  | none =>
    rw [hgb] at hd
    simp at hd
  | some eg =>
    rw [hgb] at hd
    have hd2 : d ∈ eg.insts.filterMap g.find_inst := hd
    rw [List.mem_filterMap] at hd2
    obtain ⟨x, hx, hfx⟩ := hd2
    cases b with
    | zero =>
      rw [S.entry] at hgb
      injection hgb with hgb
      rw [← hgb] at hx
      rcases List.mem_cons.mp hx with h1 | hx'
      · subst h1
        rw [hfind _, S.push_fp] at hfx
        injection hfx with hfx
        rw [← hfx] at hadj
        simp [push_data, Op.is_adjust_sp] at hadj
      rcases List.mem_cons.mp hx' with h2 | hx''
      · subst h2
        rw [hfind _, S.copy_sp] at hfx
        injection hfx with hfx
        rw [← hfx] at hadj
        simp [copy_special_data, Op.is_adjust_sp] at hadj
      rcases List.mem_append.mp hx'' with h3 | hx3
      · by_cases hss : 0 < lss
        · rw [if_pos hss] at h3
          simp at h3
          subst h3
          rw [hfind _, S.adjust_dec hss] at hfx
          injection hfx with hfx
          rw [← hfx]
          exact ⟨hss, Or.inr rfl⟩
        · rw [if_neg hss] at h3
          simp at h3
      rcases List.mem_append.mp hx3 with h4 | h5
      · rw [seqFrom_mem] at h4
        have hx2 : x = h.next_inst + (if 0 < lss then 3 else 2) +
            (x - (h.next_inst + (if 0 < lss then 3 else 2))) := by omega
        have := S.push_csr (x - (h.next_inst + (if 0 < lss then 3 else 2))) (by omega)
        rw [← hx2] at this
        rw [hfind x, this] at hfx
        injection hfx with hfx
        rw [← hfx] at hadj
        simp [push_data, Op.is_adjust_sp] at hadj
      · have hxlt : x < h.next_inst := hids e0 (mem_of_getElem_some _ _ _ hb0) x h5
        rw [hold x d hxlt hfx] at hadj
        simp at hadj
    | succ j =>
      cases hhb : h.blocks[j + 1]? with
      | none =>
        have hlen : h.blocks.length ≤ j + 1 := by
          by_contra hc
          rw [List.getElem?_eq_getElem (by omega)] at hhb
          simp at hhb
        have hnone : g.blocks[j + 1]? = none := by
          apply List.getElem?_eq_none
          rw [S.nblocks]
          exact hlen
        rw [hnone] at hgb
        simp at hgb
      | some e2 =>
        have he2mem : e2 ∈ h.blocks := mem_of_getElem_some _ _ _ hhb
        rcases exists_concat_or_nil e2.insts with he | ⟨init, t, he⟩
        · have hu := S.untouched (j + 1) e2 (by omega) hhb (by
            intro x' d' hlast hd'
            rw [he] at hlast
            simp at hlast)
          rw [hu] at hgb
          injection hgb with hgb
          rw [← hgb, he] at hx
          simp at hx
        · cases hfd : idata_lookup h.inst_data t with
          | none =>
            have hu := S.untouched (j + 1) e2 (by omega) hhb (by
              intro x' d' hlast hd'
              rw [he, getLast_concat_singleton] at hlast
              injection hlast with hlast
              rw [← hlast, hfd] at hd'
              exact absurd hd' (by simp))
            rw [hu] at hgb
            injection hgb with hgb
            rw [← hgb] at hx
            have hxlt : x < h.next_inst := hids e2 he2mem x hx
            rw [hold x d hxlt hfx] at hadj
            simp at hadj
          | some dd =>
            cases hret : dd.op.is_ret with
            | false =>
              have hu := S.untouched (j + 1) e2 (by omega) hhb (by
                intro x' d' hlast hd'
                rw [he, getLast_concat_singleton] at hlast
                injection hlast with hlast
                rw [← hlast, hfd] at hd'
                injection hd' with hd'
                intro hEq
                rw [hd', hEq] at hret
                simp [Op.is_ret] at hret)
              rw [hu] at hgb
              injection hgb with hgb
              rw [← hgb] at hx
              have hxlt : x < h.next_inst := hids e2 he2mem x hx
              rw [hold x d hxlt hfx] at hadj
              simp at hadj
            | true =>
              have hdret := (is_ret_iff dd.op).mp hret
              obtain ⟨nv, ni2, hbnd1, hbnd2, hview, hargs, hadj2, hpop, hpops, hlocn, hlocc⟩ :=
                S.processed (j + 1) e2 init t dd (by omega) hhb he hfd hdret
              rw [hview] at hgb
              injection hgb with hgb
              rw [← hgb] at hx
              rcases List.mem_append.mp hx with hxA | hx4
              · rcases List.mem_append.mp hxA with hxB | hx3
                · rcases List.mem_append.mp hxB with hx1 | hx2
                  · have hxe : x ∈ e2.insts := by
                      rw [he]
                      exact List.mem_append_left _ hx1
                    have hxlt : x < h.next_inst := hids e2 he2mem x hxe
                    rw [hold x d hxlt hfx] at hadj
                    simp at hadj
                  · by_cases hss : 0 < lss
                    · rw [if_pos hss] at hx2
                      simp at hx2
                      subst hx2
                      rw [hfind _, hadj2 hss] at hfx
                      injection hfx with hfx
                      rw [← hfx]
                      exact ⟨hss, Or.inl rfl⟩
                    · rw [if_neg hss] at hx2
                      simp at hx2
                · rw [List.mem_reverse, seqFrom_mem] at hx3
                  have hx2 : x = ni2 + (if 0 < lss then 2 else 1) +
                      (x - (ni2 + (if 0 < lss then 2 else 1))) := by omega
                  have := hpops (x - (ni2 + (if 0 < lss then 2 else 1))) (by omega)
                  rw [← hx2] at this
                  rw [hfind x, this] at hfx
                  injection hfx with hfx
                  rw [← hfx] at hadj
                  simp [pop_data, Op.is_adjust_sp] at hadj
              · rcases List.mem_cons.mp hx4 with hx5 | hx6
                · subst hx5
                  rw [hfind _, hpop] at hfx
                  injection hfx with hfx
                  rw [← hfx] at hadj
                  simp [pop_data, Op.is_adjust_sp] at hadj
                · have hx7 : x = t := by simpa using hx6
                  subst hx7
                  rw [hfind _, hargs] at hfx
                  injection hfx with hfx
                  rw [← hfx] at hadj
                  simp [Op.is_adjust_sp, hdret] at hadj

theorem dist_of_pairwise (f : Function)
    (hpw : f.blocks.Pairwise (fun a b =>
      (∀ x ∈ a.insts, b.insts.getLast? ≠ some x) ∧
      (∀ x ∈ b.insts, a.insts.getLast? ≠ some x))) :
    ∀ (j j' : Nat) (e2 e2' : Ebb) (x : Nat), j ≠ j' → f.blocks[j]? = some e2 →
      f.blocks[j']? = some e2' → x ∈ e2.insts → e2'.insts.getLast? ≠ some x := by
  intro j j' e2 e2' x hne hb2 hb2' hmem
  have hj : j < f.blocks.length := get_some_lt _ _ _ hb2
  have hj' : j' < f.blocks.length := get_some_lt _ _ _ hb2'
  have he2 : f.blocks[j] = e2 := by
    have h2 := List.getElem?_eq_getElem hj
    rw [hb2] at h2
    injection h2 with h2
    exact h2.symm
  have he2' : f.blocks[j'] = e2' := by
    have h2 := List.getElem?_eq_getElem hj'
    rw [hb2'] at h2
    injection h2 with h2
    exact h2.symm
  rcases Nat.lt_or_ge j j' with hlt | hge
  · have hR := List.pairwise_iff_getElem.mp hpw j j' hj hj' hlt
    rw [he2, he2'] at hR
    exact hR.1 x hmem
  · have hlt' : j' < j := by omega
    have hR := List.pairwise_iff_getElem.mp hpw j' j hj' hj hlt'
    rw [he2', he2] at hR
    exact hR.2 x hmem

/-- C1: for every function put through frame synthesis (nonempty entry block,
successful layout, well-formed instruction ids, cross-block-distinct block
tails, no pre-existing push or pop instructions) and every return instruction
receiving an epilogue, the physical pop sequence authored before that return is
the exact mirror image of the physical push sequence of the prologue: the
prologue pushes the frame pointer then each callee-saved register in declared
order, and each epilogue pops the callee-saved registers in reverse declared
order and the frame pointer last. -/
theorem C1_epilogue_pops_mirror_prologue_pushes (sf : Flags)
    (layout_stack : List StackSlotData → Nat → Except Unit Nat) (f : Function)
    (total : Nat) (e0 : Ebb) (bs : List Ebb) (i0 : Nat) (r0 : List Nat)
    (hb : f.blocks = e0 :: bs) (hi0 : e0.insts = i0 :: r0)
    (hok : layout_stack (f.stack_slots ++ [shadow_slot sf]) (word_size_of sf) =
      Except.ok total)
    (hids0 : ∀ e ∈ f.blocks, ∀ id ∈ e.insts, id < f.next_inst)
    (hpw : f.blocks.Pairwise (fun a b =>
      (∀ x ∈ a.insts, b.insts.getLast? ≠ some x) ∧
      (∀ x ∈ b.insts, a.insts.getLast? ≠ some x)))
    (hclean : ∀ pr ∈ f.inst_data, (pr : Nat × InstData).2.op ≠ Op.x86_push ∧
      (pr : Nat × InstData).2.op ≠ Op.x86_pop Ty.i32 ∧
      (pr : Nat × InstData).2.op ≠ Op.x86_pop Ty.i64) :
    ∃ g, prologue_epilogue sf layout_stack f = FrameResult.ok g ∧
      push_seq g 0 = RU.rbp :: callee_saved_registers sf ∧
      (∀ j e2 init t d, 0 < j → f.blocks[j]? = some e2 → e2.insts = init ++ [t] →
        idata_lookup f.inst_data t = some d → d.op = Op.ret →
        pop_seq g j = (callee_saved_registers sf).reverse ++ [RU.rbp] ∧
        pop_seq g j = (push_seq g 0).reverse) := by
  have hcl_push : ∀ pr ∈ f.inst_data, (pr : Nat × InstData).2.op ≠ Op.x86_push :=
    fun pr hp => (hclean pr hp).1
  have hcl_pop : ∀ pr ∈ f.inst_data, ∀ ty, (pr : Nat × InstData).2.op ≠ Op.x86_pop ty := by
    intro pr hp ty
    cases ty
    · exact (hclean pr hp).2.1
    · exact (hclean pr hp).2.2
  have hids1 : ∀ j e2, 0 < j → f.blocks[j]? = some e2 → ∀ id ∈ e2.insts, id < f.next_inst :=
    fun j e2 hj hb2 => hids0 e2 (mem_of_getElem_some _ _ _ hb2)
  have hdist1 : ∀ j j' e2 e2' x, 0 < j → 0 < j' → j ≠ j' → f.blocks[j]? = some e2 →
      f.blocks[j']? = some e2' → x ∈ e2.insts → e2'.insts.getLast? ≠ some x :=
    fun j j' e2 e2' x _ _ hne hb2 hb2' hmem =>
      dist_of_pairwise f hpw j j' e2 e2' x hne hb2 hb2' hmem
  obtain ⟨g, hokg, S⟩ := prologue_epilogue_ok_spec sf layout_stack f total e0 bs i0 r0
    hb hi0 hok hids1 hdist1
  have he0mem : e0 ∈ f.blocks := by rw [hb]; exact List.mem_cons_self _ _
  have hentry : g.blocks[0]? = some
      { params := e0.params ++ seqFrom f.next_value ((callee_saved_registers sf).length + 1),
        insts := f.next_inst :: (f.next_inst + 1) ::
          ((if 0 < (total : Int) - ((csr_shadow_size sf : Nat) : Int)
            then [f.next_inst + 2] else []) ++
           (seqFrom (f.next_inst +
              (if 0 < (total : Int) - ((csr_shadow_size sf : Nat) : Int) then 3 else 2))
              (callee_saved_registers sf).length ++ e0.insts)) } := S.entry
  have hpushfp : idata_lookup g.inst_data f.next_inst = some (push_data f.next_value) :=
    S.push_fp
  have hcopysp : idata_lookup g.inst_data (f.next_inst + 1) =
      some (copy_special_data RU.rsp RU.rbp) := S.copy_sp
  have hadjd : 0 < (total : Int) - ((csr_shadow_size sf : Nat) : Int) →
      idata_lookup g.inst_data (f.next_inst + 2) =
        some (adjust_sp_data (-((total : Int) - ((csr_shadow_size sf : Nat) : Int)))) :=
    S.adjust_dec
  have hpushcsr : ∀ u, u < (callee_saved_registers sf).length →
      idata_lookup g.inst_data (f.next_inst +
          (if 0 < (total : Int) - ((csr_shadow_size sf : Nat) : Int) then 3 else 2) + u) =
        some (push_data (f.next_value + 1 + u)) := S.push_csr
  have hlocfp : loc_lookup g.locations f.next_value = some (ValueLoc.reg RU.rbp) := S.loc_fp
  have hloccsr : ∀ u r, (callee_saved_registers sf)[u]? = some r →
      loc_lookup g.locations (f.next_value + 1 + u) = some (ValueLoc.reg r) := S.loc_csr
  have hoppres : ∀ id, id < f.next_inst →
      (idata_lookup g.inst_data id).map InstData.op =
        (idata_lookup f.inst_data id).map InstData.op := S.op_pres
  have hproc : ∀ j e2 init t d, 0 < j → f.blocks[j]? = some e2 → e2.insts = init ++ [t] →
      idata_lookup f.inst_data t = some d → d.op = Op.ret →
      ∃ nv ni, f.next_value ≤ nv ∧ f.next_inst ≤ ni ∧
        g.blocks[j]? = some { params := e2.params, insts :=
          init ++ (if 0 < (total : Int) - ((csr_shadow_size sf : Nat) : Int)
            then [ni] else []) ++
          (seqFrom (ni + (if 0 < (total : Int) - ((csr_shadow_size sf : Nat) : Int)
              then 2 else 1))
            (callee_saved_registers sf).length).reverse ++
          [ni + (if 0 < (total : Int) - ((csr_shadow_size sf : Nat) : Int) then 1 else 0),
           t] } ∧
        idata_lookup g.inst_data t = some
          { d with args := d.args ++ seqFrom nv ((callee_saved_registers sf).length + 1) } ∧
        (0 < (total : Int) - ((csr_shadow_size sf : Nat) : Int) →
          idata_lookup g.inst_data ni = some
            (adjust_sp_data ((total : Int) - ((csr_shadow_size sf : Nat) : Int)))) ∧
        idata_lookup g.inst_data
            (ni + (if 0 < (total : Int) - ((csr_shadow_size sf : Nat) : Int) then 1 else 0)) =
          some (pop_data (if sf.is_64bit then Ty.i64 else Ty.i32) nv) ∧
        (∀ u, u < (callee_saved_registers sf).length →
          idata_lookup g.inst_data
              (ni + (if 0 < (total : Int) - ((csr_shadow_size sf : Nat) : Int)
                then 2 else 1) + u) =
            some (pop_data (if sf.is_64bit then Ty.i64 else Ty.i32) (nv + 1 + u))) ∧
        loc_lookup g.locations nv = some (ValueLoc.reg RU.rbp) ∧
        (∀ u r, (callee_saved_registers sf)[u]? = some r →
          loc_lookup g.locations (nv + 1 + u) = some (ValueLoc.reg r)) := S.processed
  have hold_push : ∀ x ∈ e0.insts,
      (fun id => (Function.find_inst g id).bind (push_reg g)) x = none := by
    intro x hx
    exact old_push_none f g x (hoppres x (hids0 e0 he0mem x hx)) hcl_push
  have hpush : push_seq g 0 = RU.rbp :: callee_saved_registers sf := by
    rw [push_seq_eq g 0 _ hentry]
    by_cases hss : 0 < (total : Int) - ((csr_shadow_size sf : Nat) : Int)
    · simp only [if_pos hss, List.singleton_append]
      rw [filterMap_cons_some2 (fun id => (Function.find_inst g id).bind (push_reg g))
          _ _ RU.rbp (push_eval g f.next_inst f.next_value RU.rbp hpushfp hlocfp)]
      rw [filterMap_cons_none2 (fun id => (Function.find_inst g id).bind (push_reg g)) _ _
          (by
            show (Function.find_inst g (f.next_inst + 1)).bind (push_reg g) = none
            rw [show Function.find_inst g (f.next_inst + 1) =
              idata_lookup g.inst_data (f.next_inst + 1) from rfl, hcopysp]
            show push_reg g (copy_special_data RU.rsp RU.rbp) = none
            exact push_reg_none g _ (by simp [copy_special_data]))]
      rw [filterMap_cons_none2 (fun id => (Function.find_inst g id).bind (push_reg g)) _ _
          (by
            show (Function.find_inst g (f.next_inst + 2)).bind (push_reg g) = none
            rw [show Function.find_inst g (f.next_inst + 2) =
              idata_lookup g.inst_data (f.next_inst + 2) from rfl, hadjd hss]
            show push_reg g (adjust_sp_data
              (-((total : Int) - ((csr_shadow_size sf : Nat) : Int)))) = none
            exact push_reg_none g _ (by simp [adjust_sp_data]))]
      rw [List.filterMap_append]
      rw [filterMap_push_csr g (callee_saved_registers sf) (f.next_value + 1)
          (f.next_inst + 3)
          (by
            intro u hu
            have := hpushcsr u hu
            rw [if_pos hss] at this
            exact this)
          hloccsr]
      rw [filterMap_none e0.insts _ hold_push, List.append_nil]
    · simp only [if_neg hss, List.nil_append]
      rw [filterMap_cons_some2 (fun id => (Function.find_inst g id).bind (push_reg g))
          _ _ RU.rbp (push_eval g f.next_inst f.next_value RU.rbp hpushfp hlocfp)]
      rw [filterMap_cons_none2 (fun id => (Function.find_inst g id).bind (push_reg g)) _ _
          (by
            show (Function.find_inst g (f.next_inst + 1)).bind (push_reg g) = none
            rw [show Function.find_inst g (f.next_inst + 1) =
              idata_lookup g.inst_data (f.next_inst + 1) from rfl, hcopysp]
            show push_reg g (copy_special_data RU.rsp RU.rbp) = none
            exact push_reg_none g _ (by simp [copy_special_data]))]
      rw [List.filterMap_append]
      rw [filterMap_push_csr g (callee_saved_registers sf) (f.next_value + 1)
          (f.next_inst + 2)
          (by
            intro u hu
            have := hpushcsr u hu
            rw [if_neg hss] at this
            exact this)
          hloccsr]
      rw [filterMap_none e0.insts _ hold_push, List.append_nil]
  refine ⟨g, hokg, hpush, ?_⟩
  intro j e2 init t d hj hb2 hinsts hd hdret
  have he2mem : e2 ∈ f.blocks := mem_of_getElem_some _ _ _ hb2
  obtain ⟨nv, ni2, hbnd1, hbnd2, hview, hargs, hadjt, hpopt, hpopst, hlocn, hlocc2⟩ :=
    hproc j e2 init t d hj hb2 hinsts hd hdret
  have hold_pop : ∀ x ∈ init,
      (fun id => (Function.find_inst g id).bind (pop_reg g)) x = none := by
    intro x hx
    have hxe : x ∈ e2.insts := by
      rw [hinsts]
      exact List.mem_append_left _ hx
    exact old_pop_none f g x (hoppres x (hids0 e2 he2mem x hxe)) hcl_pop
  have hev_t : (fun id => (Function.find_inst g id).bind (pop_reg g)) t = none := by
    show (Function.find_inst g t).bind (pop_reg g) = none
    rw [show Function.find_inst g t = idata_lookup g.inst_data t from rfl, hargs]
    show pop_reg g
      { d with args := d.args ++ seqFrom nv ((callee_saved_registers sf).length + 1) } = none
    refine pop_reg_none g _ ?_
    intro ty
    show d.op ≠ Op.x86_pop ty
    rw [hdret]
    simp
  have hpop : pop_seq g j = (callee_saved_registers sf).reverse ++ [RU.rbp] := by
    by_cases hss : 0 < (total : Int) - ((csr_shadow_size sf : Nat) : Int)
    · simp only [if_pos hss] at hview hpopt hpopst
      rw [pop_seq_eq g j _ hview]
      rw [List.filterMap_append, List.filterMap_append, List.filterMap_append]
      rw [filterMap_none init _ hold_pop]
      rw [filterMap_cons_none2 (fun id => (Function.find_inst g id).bind (pop_reg g)) _ _
          (by
            show (Function.find_inst g ni2).bind (pop_reg g) = none
            rw [show Function.find_inst g ni2 = idata_lookup g.inst_data ni2 from rfl,
              hadjt hss]
            show pop_reg g (adjust_sp_data
              ((total : Int) - ((csr_shadow_size sf : Nat) : Int))) = none
            exact pop_reg_none g _ (by intro ty; simp [adjust_sp_data]))]
      rw [filterMap_reverse_eq]
      rw [filterMap_pop_csr g (if sf.is_64bit then Ty.i64 else Ty.i32)
          (callee_saved_registers sf) (nv + 1) (ni2 + 2) hpopst hlocc2]
      rw [filterMap_cons_some2 (fun id => (Function.find_inst g id).bind (pop_reg g))
          _ _ RU.rbp (pop_eval g (if sf.is_64bit then Ty.i64 else Ty.i32)
            (ni2 + 1) nv RU.rbp hpopt hlocn)]
      rw [filterMap_cons_none2 (fun id => (Function.find_inst g id).bind (pop_reg g)) _ _
          hev_t]
      simp
    · simp only [if_neg hss] at hview hpopt hpopst
      rw [pop_seq_eq g j _ hview]
      rw [List.filterMap_append, List.filterMap_append, List.filterMap_append]
      rw [filterMap_none init _ hold_pop]
      rw [filterMap_reverse_eq]
      rw [filterMap_pop_csr g (if sf.is_64bit then Ty.i64 else Ty.i32)
          (callee_saved_registers sf) (nv + 1) (ni2 + 1) hpopst hlocc2]
      rw [filterMap_cons_some2 (fun id => (Function.find_inst g id).bind (pop_reg g))
          _ _ RU.rbp (pop_eval g (if sf.is_64bit then Ty.i64 else Ty.i32)
            (ni2 + 0) nv RU.rbp hpopt hlocn)]
      rw [filterMap_cons_none2 (fun id => (Function.find_inst g id).bind (pop_reg g)) _ _
          hev_t]
      simp
  refine ⟨hpop, ?_⟩
  rw [hpop, hpush, List.reverse_cons]

/-- C1 witness: the two-block example function with one callee-saved register
and a 24-byte layout; all hypotheses hold by evaluation and the claim theorem
applies. -/
theorem C1_witness :
    exFunc.blocks = { params := [], insts := [0] } :: [{ params := [], insts := [1] }] ∧
    ({ params := [], insts := [0] } : Ebb).insts = 0 :: [] ∧
    exLayout (exFunc.stack_slots ++ [shadow_slot exFlags]) (word_size_of exFlags) =
      Except.ok 24 ∧
    (∀ e ∈ exFunc.blocks, ∀ id ∈ e.insts, id < exFunc.next_inst) ∧
    exFunc.blocks.Pairwise (fun a b =>
      (∀ x ∈ a.insts, b.insts.getLast? ≠ some x) ∧
      (∀ x ∈ b.insts, a.insts.getLast? ≠ some x)) ∧
    (∀ pr ∈ exFunc.inst_data, (pr : Nat × InstData).2.op ≠ Op.x86_push ∧
      (pr : Nat × InstData).2.op ≠ Op.x86_pop Ty.i32 ∧
      (pr : Nat × InstData).2.op ≠ Op.x86_pop Ty.i64) ∧
    (∃ g, prologue_epilogue exFlags exLayout exFunc = FrameResult.ok g ∧
      push_seq g 0 = RU.rbp :: callee_saved_registers exFlags ∧
      (∀ j e2 init t d, 0 < j → exFunc.blocks[j]? = some e2 → e2.insts = init ++ [t] →
        idata_lookup exFunc.inst_data t = some d → d.op = Op.ret →
        pop_seq g j = (callee_saved_registers exFlags).reverse ++ [RU.rbp] ∧
        pop_seq g j = (push_seq g 0).reverse)) :=
  ⟨rfl, rfl, rfl, by decide, by decide, by decide,
    C1_epilogue_pops_mirror_prologue_pushes exFlags exLayout exFunc 24
      { params := [], insts := [0] } [{ params := [], insts := [1] }] 0 []
      rfl rfl rfl (by decide) (by decide) (by decide)⟩

/-- C2: the prologue inserted at the entry block's first insertion point is
exactly, in order: a fresh incoming frame-pointer value pinned to rbp and a
push of it, a copy of rsp into rbp, a stack-pointer decrement by the local
frame size present if and only if that size is positive, and one fresh
incoming value pinned to each callee-saved register in declared order with a
push of it; the entry block view lists precisely these instructions before the
original ones. -/
theorem C2_prologue_exact_sequence (sf : Flags)
    (layout_stack : List StackSlotData → Nat → Except Unit Nat) (f : Function)
    (total : Nat) (e0 : Ebb) (bs : List Ebb) (i0 : Nat) (r0 : List Nat)
    (hb : f.blocks = e0 :: bs) (hi0 : e0.insts = i0 :: r0)
    (hok : layout_stack (f.stack_slots ++ [shadow_slot sf]) (word_size_of sf) =
      Except.ok total)
    (hids0 : ∀ e ∈ f.blocks, ∀ id ∈ e.insts, id < f.next_inst)
    (hpw : f.blocks.Pairwise (fun a b =>
      (∀ x ∈ a.insts, b.insts.getLast? ≠ some x) ∧
      (∀ x ∈ b.insts, a.insts.getLast? ≠ some x))) :
    ∃ g, prologue_epilogue sf layout_stack f = FrameResult.ok g ∧
      g.blocks[0]? = some
        { params := e0.params ++ seqFrom f.next_value ((callee_saved_registers sf).length + 1),
          insts := f.next_inst :: (f.next_inst + 1) ::
            ((if 0 < (total : Int) - ((csr_shadow_size sf : Nat) : Int)
              then [f.next_inst + 2] else []) ++
             (seqFrom (f.next_inst +
                (if 0 < (total : Int) - ((csr_shadow_size sf : Nat) : Int) then 3 else 2))
                (callee_saved_registers sf).length ++ e0.insts)) } ∧
      idata_lookup g.inst_data f.next_inst = some (push_data f.next_value) ∧
      loc_lookup g.locations f.next_value = some (ValueLoc.reg RU.rbp) ∧
      idata_lookup g.inst_data (f.next_inst + 1) =
        some (copy_special_data RU.rsp RU.rbp) ∧
      (0 < (total : Int) - ((csr_shadow_size sf : Nat) : Int) →
        idata_lookup g.inst_data (f.next_inst + 2) =
          some (adjust_sp_data (-((total : Int) - ((csr_shadow_size sf : Nat) : Int))))) ∧
      (∀ u, u < (callee_saved_registers sf).length →
        idata_lookup g.inst_data (f.next_inst +
            (if 0 < (total : Int) - ((csr_shadow_size sf : Nat) : Int) then 3 else 2) + u) =
          some (push_data (f.next_value + 1 + u))) ∧
      (∀ u r, (callee_saved_registers sf)[u]? = some r →
        loc_lookup g.locations (f.next_value + 1 + u) = some (ValueLoc.reg r)) := by
  have hids1 : ∀ j e2, 0 < j → f.blocks[j]? = some e2 → ∀ id ∈ e2.insts, id < f.next_inst :=
    fun j e2 hj hb2 => hids0 e2 (mem_of_getElem_some _ _ _ hb2)
  have hdist1 : ∀ j j' e2 e2' x, 0 < j → 0 < j' → j ≠ j' → f.blocks[j]? = some e2 →
      f.blocks[j']? = some e2' → x ∈ e2.insts → e2'.insts.getLast? ≠ some x :=
    fun j j' e2 e2' x _ _ hne hb2 hb2' hmem =>
      dist_of_pairwise f hpw j j' e2 e2' x hne hb2 hb2' hmem
  obtain ⟨g, hokg, S⟩ := prologue_epilogue_ok_spec sf layout_stack f total e0 bs i0 r0
    hb hi0 hok hids1 hdist1
  exact ⟨g, hokg, S.entry, S.push_fp, S.loc_fp, S.copy_sp, S.adjust_dec, S.push_csr,
    S.loc_csr⟩

/-- C2 witness: the two-block example function with one callee-saved register
and a 24-byte layout. -/
theorem C2_witness :
    exFunc.blocks = { params := [], insts := [0] } :: [{ params := [], insts := [1] }] ∧
    ({ params := [], insts := [0] } : Ebb).insts = 0 :: [] ∧
    exLayout (exFunc.stack_slots ++ [shadow_slot exFlags]) (word_size_of exFlags) =
      Except.ok 24 ∧
    (∀ e ∈ exFunc.blocks, ∀ id ∈ e.insts, id < exFunc.next_inst) ∧
    exFunc.blocks.Pairwise (fun a b =>
      (∀ x ∈ a.insts, b.insts.getLast? ≠ some x) ∧
      (∀ x ∈ b.insts, a.insts.getLast? ≠ some x)) ∧
    (∃ g, prologue_epilogue exFlags exLayout exFunc = FrameResult.ok g ∧
      g.blocks[0]? = some
        { params := ({ params := [], insts := [0] } : Ebb).params ++
            seqFrom exFunc.next_value ((callee_saved_registers exFlags).length + 1),
          insts := exFunc.next_inst :: (exFunc.next_inst + 1) ::
            ((if 0 < (24 : Int) - ((csr_shadow_size exFlags : Nat) : Int)
              then [exFunc.next_inst + 2] else []) ++
             (seqFrom (exFunc.next_inst +
                (if 0 < (24 : Int) - ((csr_shadow_size exFlags : Nat) : Int) then 3 else 2))
                (callee_saved_registers exFlags).length ++
              ({ params := [], insts := [0] } : Ebb).insts)) } ∧
      idata_lookup g.inst_data exFunc.next_inst = some (push_data exFunc.next_value) ∧
      loc_lookup g.locations exFunc.next_value = some (ValueLoc.reg RU.rbp) ∧
      idata_lookup g.inst_data (exFunc.next_inst + 1) =
        some (copy_special_data RU.rsp RU.rbp) ∧
      (0 < (24 : Int) - ((csr_shadow_size exFlags : Nat) : Int) →
        idata_lookup g.inst_data (exFunc.next_inst + 2) =
          some (adjust_sp_data
            (-((24 : Int) - ((csr_shadow_size exFlags : Nat) : Int))))) ∧
      (∀ u, u < (callee_saved_registers exFlags).length →
        idata_lookup g.inst_data (exFunc.next_inst +
            (if 0 < (24 : Int) - ((csr_shadow_size exFlags : Nat) : Int)
              then 3 else 2) + u) =
          some (push_data (exFunc.next_value + 1 + u))) ∧
      (∀ u r, (callee_saved_registers exFlags)[u]? = some r →
        loc_lookup g.locations (exFunc.next_value + 1 + u) = some (ValueLoc.reg r))) :=
  ⟨rfl, rfl, rfl, by decide, by decide,
    C2_prologue_exact_sequence exFlags exLayout exFunc 24
      { params := [], insts := [0] } [{ params := [], insts := [1] }] 0 []
      rfl rfl rfl (by decide) (by decide)⟩

/-- C3: every return instruction receiving an epilogue gains exactly
count(callee_saved) + 1 extra arguments, the popped frame-pointer value first
and then one popped value per callee-saved register in declared order, and
they match one-to-one and in order the hidden returns appended to the
signature: the frame-pointer return first, then one callee-saved return per
register in the same declared order. -/
theorem C3_ret_args_match_hidden_returns (sf : Flags)
    (layout_stack : List StackSlotData → Nat → Except Unit Nat) (f : Function)
    (total : Nat) (e0 : Ebb) (bs : List Ebb) (i0 : Nat) (r0 : List Nat)
    (hb : f.blocks = e0 :: bs) (hi0 : e0.insts = i0 :: r0)
    (hok : layout_stack (f.stack_slots ++ [shadow_slot sf]) (word_size_of sf) =
      Except.ok total)
    (hids0 : ∀ e ∈ f.blocks, ∀ id ∈ e.insts, id < f.next_inst)
    (hpw : f.blocks.Pairwise (fun a b =>
      (∀ x ∈ a.insts, b.insts.getLast? ≠ some x) ∧
      (∀ x ∈ b.insts, a.insts.getLast? ≠ some x))) :
    ∃ g, prologue_epilogue sf layout_stack f = FrameResult.ok g ∧
      g.sig_returns = (f.sig_returns ++
        [AbiParam.special_reg (if sf.is_64bit then Ty.i64 else Ty.i32)
          ArgumentPurpose.frame_pointer RU.rbp]) ++
        (callee_saved_registers sf).map (fun r =>
          AbiParam.special_reg (if sf.is_64bit then Ty.i64 else Ty.i32)
            ArgumentPurpose.callee_saved r) ∧
      (∀ j e2 init t d, 0 < j → f.blocks[j]? = some e2 → e2.insts = init ++ [t] →
        idata_lookup f.inst_data t = some d → d.op = Op.ret →
        ∃ nv, idata_lookup g.inst_data t = some
            { d with args := d.args ++ seqFrom nv ((callee_saved_registers sf).length + 1) } ∧
          (seqFrom nv ((callee_saved_registers sf).length + 1)).length =
            (callee_saved_registers sf).length + 1 ∧
          loc_lookup g.locations nv = some (ValueLoc.reg RU.rbp) ∧
          (∀ u r, (callee_saved_registers sf)[u]? = some r →
            loc_lookup g.locations (nv + 1 + u) = some (ValueLoc.reg r))) := by
  have hids1 : ∀ j e2, 0 < j → f.blocks[j]? = some e2 → ∀ id ∈ e2.insts, id < f.next_inst :=
    fun j e2 hj hb2 => hids0 e2 (mem_of_getElem_some _ _ _ hb2)
  have hdist1 : ∀ j j' e2 e2' x, 0 < j → 0 < j' → j ≠ j' → f.blocks[j]? = some e2 →
      f.blocks[j']? = some e2' → x ∈ e2.insts → e2'.insts.getLast? ≠ some x :=
    fun j j' e2 e2' x _ _ hne hb2 hb2' hmem =>
      dist_of_pairwise f hpw j j' e2 e2' x hne hb2 hb2' hmem
  obtain ⟨g, hokg, S⟩ := prologue_epilogue_ok_spec sf layout_stack f total e0 bs i0 r0
    hb hi0 hok hids1 hdist1
  refine ⟨g, hokg, S.sigr, ?_⟩
  intro j e2 init t d hj hb2 hinsts hd hdret
  obtain ⟨nv, ni2, _, _, _, hargs, _, _, _, hlocn, hlocc⟩ :=
    S.processed j e2 init t d hj hb2 hinsts hd hdret
  exact ⟨nv, hargs, seqFrom_length _ _, hlocn, hlocc⟩

/-- C3 witness: the two-block example function with one callee-saved register
and a 24-byte layout. -/
theorem C3_witness :
    exFunc.blocks = { params := [], insts := [0] } :: [{ params := [], insts := [1] }] ∧
    ({ params := [], insts := [0] } : Ebb).insts = 0 :: [] ∧
    exLayout (exFunc.stack_slots ++ [shadow_slot exFlags]) (word_size_of exFlags) =
      Except.ok 24 ∧
    (∀ e ∈ exFunc.blocks, ∀ id ∈ e.insts, id < exFunc.next_inst) ∧
    exFunc.blocks.Pairwise (fun a b =>
      (∀ x ∈ a.insts, b.insts.getLast? ≠ some x) ∧
      (∀ x ∈ b.insts, a.insts.getLast? ≠ some x)) ∧
    (∃ g, prologue_epilogue exFlags exLayout exFunc = FrameResult.ok g ∧
      g.sig_returns = (exFunc.sig_returns ++
        [AbiParam.special_reg (if exFlags.is_64bit then Ty.i64 else Ty.i32)
          ArgumentPurpose.frame_pointer RU.rbp]) ++
        (callee_saved_registers exFlags).map (fun r =>
          AbiParam.special_reg (if exFlags.is_64bit then Ty.i64 else Ty.i32)
            ArgumentPurpose.callee_saved r) ∧
      (∀ j e2 init t d, 0 < j → exFunc.blocks[j]? = some e2 → e2.insts = init ++ [t] →
        idata_lookup exFunc.inst_data t = some d → d.op = Op.ret →
        ∃ nv, idata_lookup g.inst_data t = some
            { d with
              args := d.args ++ seqFrom nv ((callee_saved_registers exFlags).length + 1) } ∧
          (seqFrom nv ((callee_saved_registers exFlags).length + 1)).length =
            (callee_saved_registers exFlags).length + 1 ∧
          loc_lookup g.locations nv = some (ValueLoc.reg RU.rbp) ∧
          (∀ u r, (callee_saved_registers exFlags)[u]? = some r →
            loc_lookup g.locations (nv + 1 + u) = some (ValueLoc.reg r)))) :=
  ⟨rfl, rfl, rfl, by decide, by decide,
    C3_ret_args_match_hidden_returns exFlags exLayout exFunc 24
      { params := [], insts := [0] } [{ params := [], insts := [1] }] 0 []
      rfl rfl rfl (by decide) (by decide)⟩

/-- C4: frame synthesis appends exactly one incoming-argument stack slot of
size (count(callee_saved) + 1) * word_size at offset minus that size before the
layout routine runs, and on an input free of stack-pointer adjustments every
adjustment in the output uses the local frame size total - shadow: the
prologue decrement is by that amount and every epilogue increment is by that
amount. -/
theorem C4_shadow_slot_and_local_size (sf : Flags)
    (layout_stack : List StackSlotData → Nat → Except Unit Nat) (f : Function)
    (total : Nat) (e0 : Ebb) (bs : List Ebb) (i0 : Nat) (r0 : List Nat)
    (hb : f.blocks = e0 :: bs) (hi0 : e0.insts = i0 :: r0)
    (hok : layout_stack (f.stack_slots ++ [shadow_slot sf]) (word_size_of sf) =
      Except.ok total)
    (hids0 : ∀ e ∈ f.blocks, ∀ id ∈ e.insts, id < f.next_inst)
    (hpw : f.blocks.Pairwise (fun a b =>
      (∀ x ∈ a.insts, b.insts.getLast? ≠ some x) ∧
      (∀ x ∈ b.insts, a.insts.getLast? ≠ some x)))
    (hnoadj : ∀ pr ∈ f.inst_data, (pr : Nat × InstData).2.op.is_adjust_sp = false) :
    ∃ g, prologue_epilogue sf layout_stack f = FrameResult.ok g ∧
      g.stack_slots = f.stack_slots ++ [shadow_slot sf] ∧
      (shadow_slot sf).kind = StackSlotKind.incoming_arg ∧
      (shadow_slot sf).size = ((callee_saved_registers sf).length + 1) * word_size_of sf ∧
      (shadow_slot sf).offset = -(((shadow_slot sf).size : Nat) : Int) ∧
      (∀ b d, d ∈ block_insts g b → d.op.is_adjust_sp = true →
        0 < (total : Int) - ((csr_shadow_size sf : Nat) : Int) ∧
        (d.op = Op.adjust_sp_imm ((total : Int) - ((csr_shadow_size sf : Nat) : Int)) ∨
         d.op = Op.adjust_sp_imm (-((total : Int) - ((csr_shadow_size sf : Nat) : Int))))) := by
  have hids1 : ∀ j e2, 0 < j → f.blocks[j]? = some e2 → ∀ id ∈ e2.insts, id < f.next_inst :=
    fun j e2 hj hb2 => hids0 e2 (mem_of_getElem_some _ _ _ hb2)
  have hdist1 : ∀ j j' e2 e2' x, 0 < j → 0 < j' → j ≠ j' → f.blocks[j]? = some e2 →
      f.blocks[j']? = some e2' → x ∈ e2.insts → e2'.insts.getLast? ≠ some x :=
    fun j j' e2 e2' x _ _ hne hb2 hb2' hmem =>
      dist_of_pairwise f hpw j j' e2 e2' x hne hb2 hb2' hmem
  obtain ⟨g, hokg, S⟩ := prologue_epilogue_ok_spec sf layout_stack f total e0 bs i0 r0
    hb hi0 hok hids1 hdist1
  have haudit := adjust_ops_bound sf
    ((total : Int) - ((csr_shadow_size sf : Nat) : Int))
    (if sf.is_64bit then Ty.i64 else Ty.i32) e0 _ g
    (by
      show f.blocks[0]? = some e0
      rw [hb]
      simp)
    (by exact hids0)
    (by exact hnoadj)
    S
  exact ⟨g, hokg, S.slots, rfl, rfl, rfl, haudit⟩

/-- C4 witness: the two-block example function with one callee-saved register
and a 24-byte layout; the local frame size is 8 and both adjustments use it. -/
theorem C4_witness :
    exFunc.blocks = { params := [], insts := [0] } :: [{ params := [], insts := [1] }] ∧
    ({ params := [], insts := [0] } : Ebb).insts = 0 :: [] ∧
    exLayout (exFunc.stack_slots ++ [shadow_slot exFlags]) (word_size_of exFlags) =
      Except.ok 24 ∧
    (∀ e ∈ exFunc.blocks, ∀ id ∈ e.insts, id < exFunc.next_inst) ∧
    exFunc.blocks.Pairwise (fun a b =>
      (∀ x ∈ a.insts, b.insts.getLast? ≠ some x) ∧
      (∀ x ∈ b.insts, a.insts.getLast? ≠ some x)) ∧
    (∀ pr ∈ exFunc.inst_data, (pr : Nat × InstData).2.op.is_adjust_sp = false) ∧
    (∃ g, prologue_epilogue exFlags exLayout exFunc = FrameResult.ok g ∧
      g.stack_slots = exFunc.stack_slots ++ [shadow_slot exFlags] ∧
      (shadow_slot exFlags).kind = StackSlotKind.incoming_arg ∧
      (shadow_slot exFlags).size =
        ((callee_saved_registers exFlags).length + 1) * word_size_of exFlags ∧
      (shadow_slot exFlags).offset = -(((shadow_slot exFlags).size : Nat) : Int) ∧
      (∀ b d, d ∈ block_insts g b → d.op.is_adjust_sp = true →
        0 < (24 : Int) - ((csr_shadow_size exFlags : Nat) : Int) ∧
        (d.op = Op.adjust_sp_imm ((24 : Int) - ((csr_shadow_size exFlags : Nat) : Int)) ∨
         d.op = Op.adjust_sp_imm
           (-((24 : Int) - ((csr_shadow_size exFlags : Nat) : Int)))))) :=
  ⟨rfl, rfl, rfl, by decide, by decide, by decide,
    C4_shadow_slot_and_local_size exFlags exLayout exFunc 24
      { params := [], insts := [0] } [{ params := [], insts := [1] }] 0 []
      rfl rfl rfl (by decide) (by decide) (by decide)⟩

/-- C5: when the total frame size returned by layout equals the reserved
shadow size, the local frame size is zero and, on an input free of
stack-pointer adjustments, the frame synthesis output contains no
stack-pointer adjustment instruction in any block: no decrement in the
prologue and no increment before any return. -/
theorem C5_zero_local_size_no_adjust (sf : Flags)
    (layout_stack : List StackSlotData → Nat → Except Unit Nat) (f : Function)
    (total : Nat) (e0 : Ebb) (bs : List Ebb) (i0 : Nat) (r0 : List Nat)
    (hb : f.blocks = e0 :: bs) (hi0 : e0.insts = i0 :: r0)
    (hok : layout_stack (f.stack_slots ++ [shadow_slot sf]) (word_size_of sf) =
      Except.ok total)
    (hids0 : ∀ e ∈ f.blocks, ∀ id ∈ e.insts, id < f.next_inst)
    (hpw : f.blocks.Pairwise (fun a b =>
      (∀ x ∈ a.insts, b.insts.getLast? ≠ some x) ∧
      (∀ x ∈ b.insts, a.insts.getLast? ≠ some x)))
    (hnoadj : ∀ pr ∈ f.inst_data, (pr : Nat × InstData).2.op.is_adjust_sp = false)
    (htz : total = csr_shadow_size sf) :
    ∃ g, prologue_epilogue sf layout_stack f = FrameResult.ok g ∧
      ∀ b d, d ∈ block_insts g b → d.op.is_adjust_sp = false := by
  have hids1 : ∀ j e2, 0 < j → f.blocks[j]? = some e2 → ∀ id ∈ e2.insts, id < f.next_inst :=
    fun j e2 hj hb2 => hids0 e2 (mem_of_getElem_some _ _ _ hb2)
  have hdist1 : ∀ j j' e2 e2' x, 0 < j → 0 < j' → j ≠ j' → f.blocks[j]? = some e2 →
      f.blocks[j']? = some e2' → x ∈ e2.insts → e2'.insts.getLast? ≠ some x :=
    fun j j' e2 e2' x _ _ hne hb2 hb2' hmem =>
      dist_of_pairwise f hpw j j' e2 e2' x hne hb2 hb2' hmem
  obtain ⟨g, hokg, S⟩ := prologue_epilogue_ok_spec sf layout_stack f total e0 bs i0 r0
    hb hi0 hok hids1 hdist1
  have haudit := adjust_ops_bound sf
    ((total : Int) - ((csr_shadow_size sf : Nat) : Int))
    (if sf.is_64bit then Ty.i64 else Ty.i32) e0 _ g
    (by
      show f.blocks[0]? = some e0
      rw [hb]
      simp)
    (by exact hids0)
    (by exact hnoadj)
    S
  have hz : ((total : Int) - ((csr_shadow_size sf : Nat) : Int)) = 0 := by
    rw [htz]
    exact sub_self _
  refine ⟨g, hokg, ?_⟩
  intro b d hd
  cases hAd : d.op.is_adjust_sp with
  | false => rfl
  | true =>
    have hpos := (haudit b d hd hAd).1
    rw [hz] at hpos
    exact absurd hpos (lt_irrefl 0)

/-- C5 witness: the two-block example function with a 16-byte layout equal to
the reserved shadow size of the example flag set, so the local frame size is
zero. -/
theorem C5_witness :
    exFunc.blocks = { params := [], insts := [0] } :: [{ params := [], insts := [1] }] ∧
    ({ params := [], insts := [0] } : Ebb).insts = 0 :: [] ∧
    exLayoutZero (exFunc.stack_slots ++ [shadow_slot exFlags]) (word_size_of exFlags) =
      Except.ok 16 ∧
    (∀ e ∈ exFunc.blocks, ∀ id ∈ e.insts, id < exFunc.next_inst) ∧
    exFunc.blocks.Pairwise (fun a b =>
      (∀ x ∈ a.insts, b.insts.getLast? ≠ some x) ∧
      (∀ x ∈ b.insts, a.insts.getLast? ≠ some x)) ∧
    (∀ pr ∈ exFunc.inst_data, (pr : Nat × InstData).2.op.is_adjust_sp = false) ∧
    16 = csr_shadow_size exFlags ∧
    (∃ g, prologue_epilogue exFlags exLayoutZero exFunc = FrameResult.ok g ∧
      ∀ b d, d ∈ block_insts g b → d.op.is_adjust_sp = false) :=
  ⟨rfl, rfl, rfl, by decide, by decide, by decide, by decide,
    C5_zero_local_size_no_adjust exFlags exLayoutZero exFunc 16
      { params := [], insts := [0] } [{ params := [], insts := [1] }] 0 []
      rfl rfl rfl (by decide) (by decide) (by decide) (by decide)⟩

/-! Claim theorems, part one: the error paths, the encoding lookup and the
entry-block epilogue behaviour, which need no further machinery. -/

/-- C7: when the external stack-layout routine reports an error, prologue_epilogue
propagates it as a typed error result to its caller; it does not panic, so only
the current function's compilation is aborted. -/
theorem C7_layout_error_propagated (sf : Flags)
    (layout_stack : List StackSlotData → Nat → Except Unit Nat) (func : Function)
    (herr : layout_stack (func.stack_slots ++ [shadow_slot sf]) (word_size_of sf) =
      Except.error ()) :
    ∃ g, prologue_epilogue sf layout_stack func = FrameResult.err g := by
  refine ⟨func.create_stack_slot (shadow_slot sf), ?_⟩
  unfold prologue_epilogue
  simp only [Function.create_stack_slot] at herr ⊢
  rw [show (shadow_slot sf) =
      { kind := .incoming_arg,
        size := ((callee_saved_registers sf).length + 1) * (if sf.is_64bit then 8 else 4),
        offset := -((((callee_saved_registers sf).length + 1) *
          (if sf.is_64bit then 8 else 4) : Nat) : Int) } from rfl] at herr
  rw [show word_size_of sf = (if sf.is_64bit then 8 else 4) from rfl] at herr
  rw [herr]
  rfl

/-- C7 witness: concrete failing layout routine on a concrete function. -/
theorem C7_witness :
    exLayoutErr (exFunc.stack_slots ++ [shadow_slot exFlags]) (word_size_of exFlags) =
      Except.error () ∧
    ∃ g, prologue_epilogue exFlags exLayoutErr exFunc = FrameResult.err g :=
  ⟨rfl, C7_layout_error_propagated exFlags exLayoutErr exFunc rfl⟩

/-- C10: the error exit of prologue_epilogue is not atomic. When the stack-layout
routine fails, the function carried by the typed error has already gained the
appended incoming-argument shadow slot, while its signature, block layout and
instruction store are still exactly those of the input function. -/
theorem C10_error_exit_keeps_new_slot_only (sf : Flags)
    (layout_stack : List StackSlotData → Nat → Except Unit Nat) (func : Function)
    (herr : layout_stack (func.stack_slots ++ [shadow_slot sf]) (word_size_of sf) =
      Except.error ()) :
    prologue_epilogue sf layout_stack func =
      FrameResult.err (func.create_stack_slot (shadow_slot sf)) ∧
    (func.create_stack_slot (shadow_slot sf)).stack_slots =
      func.stack_slots ++ [shadow_slot sf] ∧
    (func.create_stack_slot (shadow_slot sf)).sig_params = func.sig_params ∧
    (func.create_stack_slot (shadow_slot sf)).sig_returns = func.sig_returns ∧
    (func.create_stack_slot (shadow_slot sf)).blocks = func.blocks ∧
    (func.create_stack_slot (shadow_slot sf)).inst_data = func.inst_data := by
  refine ⟨?_, rfl, rfl, rfl, rfl, rfl⟩
  unfold prologue_epilogue
  simp only [Function.create_stack_slot] at herr ⊢
  rw [show (shadow_slot sf) =
      { kind := .incoming_arg,
        size := ((callee_saved_registers sf).length + 1) * (if sf.is_64bit then 8 else 4),
        offset := -((((callee_saved_registers sf).length + 1) *
          (if sf.is_64bit then 8 else 4) : Nat) : Int) } from rfl] at herr
  rw [show word_size_of sf = (if sf.is_64bit then 8 else 4) from rfl] at herr
  rw [herr]
  rfl

/-- C10 witness: concrete failing layout routine on a concrete function. -/
theorem C10_witness :
    exLayoutErr (exFunc.stack_slots ++ [shadow_slot exFlags]) (word_size_of exFlags) =
      Except.error () ∧
    prologue_epilogue exFlags exLayoutErr exFunc =
      FrameResult.err (exFunc.create_stack_slot (shadow_slot exFlags)) :=
  ⟨rfl, (C10_error_exit_keeps_new_slot_only exFlags exLayoutErr exFunc rfl).1⟩

/-- C8 counterexample: a function with no entry block given a failing stack
layout makes prologue_epilogue return the typed layout error; the fatal
missing-entry branch is not reached, refuting the claim that a function without
an entry block always fails fatally rather than with a typed error. -/
theorem C8_counterexample :
    exFuncNoEntry.entry_block = none ∧
    prologue_epilogue exFlags exLayoutErr exFuncNoEntry ≠ FrameResult.panic_missing_entry ∧
    prologue_epilogue exFlags exLayoutErr exFuncNoEntry =
      FrameResult.err (exFuncNoEntry.create_stack_slot (shadow_slot exFlags)) := by
  decide

/-- C8 (amended): when prologue_epilogue is invoked on a function whose layout
has no entry block and the stack-layout routine succeeds, it fails fatally with
the missing-entry panic rather than returning a typed error; for every function
that does have an entry block the fatal branch is unreachable. -/
theorem C8_missing_entry_block_panics (sf : Flags)
    (layout_stack : List StackSlotData → Nat → Except Unit Nat) (func : Function) :
    (func.entry_block = none →
      ∀ total, layout_stack (func.stack_slots ++ [shadow_slot sf]) (word_size_of sf) =
          Except.ok total →
        prologue_epilogue sf layout_stack func = FrameResult.panic_missing_entry) ∧
    (func.entry_block ≠ none →
      prologue_epilogue sf layout_stack func ≠ FrameResult.panic_missing_entry) := by
  have hsl : (shadow_slot sf) =
      { kind := .incoming_arg,
        size := ((callee_saved_registers sf).length + 1) * (if sf.is_64bit then 8 else 4),
        offset := -((((callee_saved_registers sf).length + 1) *
          (if sf.is_64bit then 8 else 4) : Nat) : Int) } := rfl
  have hws : word_size_of sf = (if sf.is_64bit then 8 else 4) := rfl
  constructor
  · intro hnone total hok
    rw [hsl, hws] at hok
    have hblocks : func.blocks = [] := by
      unfold Function.entry_block at hnone
      cases h : func.blocks with
      | nil => rfl
      | cons e bs => rw [h] at hnone; exact absurd hnone (by simp)
    unfold prologue_epilogue
    simp only [Function.create_stack_slot]
    rw [hok, extend_sig_foldl]
    simp only [Function.entry_block, hblocks]
  · intro hsome
    have hblocks : ∃ e bs, func.blocks = e :: bs := by
      unfold Function.entry_block at hsome
      cases h : func.blocks with
      | nil => rw [h] at hsome; exact absurd rfl hsome
      | cons e bs => exact ⟨e, bs, rfl⟩
    obtain ⟨e, bs, hblocks⟩ := hblocks
    unfold prologue_epilogue
    simp only [Function.create_stack_slot]
    cases hlay : layout_stack (func.stack_slots ++
        [{ kind := .incoming_arg,
           size := ((callee_saved_registers sf).length + 1) * (if sf.is_64bit then 8 else 4),
           offset := -((((callee_saved_registers sf).length + 1) *
             (if sf.is_64bit then 8 else 4) : Nat) : Int) }])
        (if sf.is_64bit then 8 else 4) with
    | error err => simp
    | ok total =>
        rw [extend_sig_foldl]
        simp only [Function.entry_block, hblocks]
        simp

/-- C8 witness: on a concrete function without an entry block and a succeeding
layout routine the panic branch is taken. -/
theorem C8_witness :
    exFuncNoEntry.entry_block = none ∧
    exLayout (exFuncNoEntry.stack_slots ++ [shadow_slot exFlags]) (word_size_of exFlags) =
      Except.ok 24 ∧
    prologue_epilogue exFlags exLayout exFuncNoEntry = FrameResult.panic_missing_entry :=
  ⟨rfl, rfl,
    (C8_missing_entry_block_panics exFlags exLayout exFuncNoEntry).1 rfl 24 rfl⟩

/-- C9: legal_encodings is deterministic. Two calls on the same target instance
with identical inputs produce the same materialized candidate sequence or
legalize directive, and every call goes through the one level-1 root selected
from the is_64bit flag when the instance was constructed, reading only the
static tables and the immutable isa predicate view. -/
theorem C9_legal_encodings_deterministic (tables : EncTables) (sf : Flags)
    (b : SettingsBuilder) (dfg : DataFlowGraph) (inst : InstData) (ty : Ty) :
    Isa.legal_encodings (isa_constructor tables sf b) tables dfg inst ty =
      Isa.legal_encodings (isa_constructor tables sf b) tables dfg inst ty ∧
    Isa.legal_encodings (isa_constructor tables sf b) tables dfg inst ty =
      lookup_enclist ty inst dfg
        (if sf.is_64bit then tables.level1_i64 else tables.level1_i32)
        tables.recipe_preds tables.inst_preds b.isa_preds :=
  ⟨rfl, rfl⟩

/-- C6 evaluation at the failing input: on a single-block function whose entry
block ends in a return, frame synthesis succeeds but inserts no epilogue at all;
the block's pop sequence is empty, the return instruction keeps its original
argument list, and no stack-pointer increment precedes it even though the local
frame size is positive. -/
theorem C6_entry_block_return_gets_no_epilogue :
    prologue_epilogue exFlags exLayout exFuncSingle =
      FrameResult.ok (frame_ok (prologue_epilogue exFlags exLayout exFuncSingle) exFuncSingle) ∧
    pop_seq (frame_ok (prologue_epilogue exFlags exLayout exFuncSingle) exFuncSingle) 0 = [] ∧
    (frame_ok (prologue_epilogue exFlags exLayout exFuncSingle) exFuncSingle).find_inst 0 =
      some ret_inst ∧
    (adjust_sp_data 8) ∉
      block_insts (frame_ok (prologue_epilogue exFlags exLayout exFuncSingle) exFuncSingle) 0 := by
  decide

end Cton
